import Mathlib

/-!
# Virtual drivers: stream store (`char_driver/simple_char.c`) and sector store
(`block_driver/simple_block.c`)

A shallow embedding of the two drivers.  The C code is compiled for a 64-bit
Linux kernel (LP64, wrapping signed arithmetic): `int` is 32 bits, `loff_t`
is a signed 64-bit integer, `size_t`, `sector_t` and `unsigned long` are
unsigned 64-bit integers.  Machine integers are `Int`/`Nat` values and every
C conversion is an explicit wrap.

A `memcpy` that leaves the object it addresses is undefined behaviour; the
operations return `none` there.
-/

namespace VirtualDrivers

/-! ## Machine integers -/

/-- Conversion to an unsigned 64-bit integer (`size_t`, `unsigned long long`). -/
def toU64 (x : Int) : Int := x % 18446744073709551616

/-- Conversion to `int` (signed 32-bit, wrapping). -/
def toS32 (x : Int) : Int := (x + 2147483648) % 4294967296 - 2147483648

/-- Conversion to `loff_t` (signed 64-bit, wrapping). -/
def toS64 (x : Int) : Int :=
  (x + 9223372036854775808) % 18446744073709551616 - 9223372036854775808

/-- Bytes of memory; the drivers only copy them. -/
abbrev Byte := Nat

def EIO : Int := 5
def ENOMEM : Int := 12
def EFAULT : Int := 14
def EINVAL : Int := 22
def ENOTTY : Int := 25

/-! ## Memory copies -/

/-- Bytes `[off, off + n)` of `mem`, as read by `memcpy(dst, mem + off, n)`;
`none` when a byte outside `mem` would be read.  A copy of zero bytes reads
nothing. -/
def mem_read (mem : List Byte) (off : Int) (n : Nat) : Option (List Byte) :=
  if n = 0 then some []
  else if 0 ≤ off ∧ off + n ≤ mem.length then some ((mem.drop off.toNat).take n)
  else none

/-- The object `mem` after `memcpy(mem + off, src, src.length)`; `none` when a
byte outside `mem` would be written.  A copy of zero bytes writes nothing. -/
def mem_write (mem : List Byte) (off : Int) (src : List Byte) : Option (List Byte) :=
  if src.length = 0 then some mem
  else if 0 ≤ off ∧ off + src.length ≤ mem.length then
    some (mem.take off.toNat ++ src ++ mem.drop (off.toNat + src.length))
  else none

/-! ## Stream store: `simple_char.c` -/

def BUFFER_SIZE : Nat := 4096

/-- The globals of `simple_char.c`.  `device_buffer` is the allocated object,
the other four are C `int`s. -/
structure CharDev where
  device_buffer : List Byte
  buffer_size : Int
  buffer_offset : Int
  read_count : Int
  write_count : Int
deriving DecidableEq

/-- State after a successful `char_init`: a zeroed buffer of `BUFFER_SIZE`
bytes and the static initialisers of the globals. -/
def char_init : CharDev :=
  { device_buffer := List.replicate BUFFER_SIZE 0
    buffer_size := BUFFER_SIZE
    buffer_offset := 0
    read_count := 0
    write_count := 0 }

/-- The kernel allocator `krealloc(p, new_size, GFP_KERNEL)` called with an
`int` size.  `heap = none` is an allocation failure (NULL).  A negative `int`
converts to a `size_t` above `2^63`, which the allocator always refuses.  On
success the block has `new_size` bytes, the common prefix is kept and the
added bytes are not initialised: they hold whatever `junk` the heap held. -/
def krealloc (p : List Byte) (new_size : Int) (heap : Option (Nat → Byte)) :
    Option (List Byte) :=
  match heap with
  | none => none
  | some junk =>
    if new_size < 0 then none
    else some (p.take new_size.toNat ++
      (List.range (new_size.toNat - p.length)).map (fun i => junk (p.length + i)))

/-- Result of `copy_to_user(buffer, device_buffer + off, n)` with `n` an `int`
converted to `unsigned long`. -/
inductive UserCopy where
  | copied (data : List Byte)
  | fault
  | out_of_bounds
deriving DecidableEq

/-- Copy to user space.  A negative `n` converts to a length no user range
has, so the copy fails; `bad_user` says that the user buffer is not writable.
A copy of zero bytes never fails. -/
def copy_to_user (dev : List Byte) (off : Int) (n : Int) (bad_user : Bool) : UserCopy :=
  if n < 0 then UserCopy.fault
  else if n = 0 then UserCopy.copied []
  else if bad_user then UserCopy.fault
  else match mem_read dev off n.toNat with
    | some d => UserCopy.copied d
    | none => UserCopy.out_of_bounds

/-- What `dev_read` hands back: the return value, the bytes placed in the
user buffer, the globals and `*offset`. -/
structure ReadOut where
  ret : Int
  data : List Byte
  dev : CharDev
  pos : Int
deriving DecidableEq

/-- Embedding of `dev_read(filep, buffer, len, offset)`; `len` is a `size_t`
value and `offset` the value of `*offset` on entry.  `none`: the copy reads
outside `device_buffer`. -/
def dev_read (st : CharDev) (len : Nat) (offset : Int) (bad_user : Bool) : Option ReadOut :=
  if offset ≥ st.buffer_offset then
    some { ret := 0, data := [], dev := st, pos := offset }
  else
    let bytes_to_read : Int := toS32 (min (len : Int) (toU64 (st.buffer_offset - offset)))
    match copy_to_user st.device_buffer offset bytes_to_read bad_user with
    | UserCopy.out_of_bounds => none
    | UserCopy.fault => some { ret := -EFAULT, data := [], dev := st, pos := offset }
    | UserCopy.copied d =>
      some { ret := bytes_to_read
             data := d
             dev := { st with read_count := toS32 (st.read_count + 1) }
             pos := toS64 (offset + bytes_to_read) }

/-- Lines 105-116 of `dev_write`: the resize block.  `none` is the `-ENOMEM`
return.  `max` compares `buffer_size * 2` (an `int`) with `*offset + len`
(an `unsigned long long`) as unsigned 64-bit values and the result is stored
in the `int new_size`. -/
def dev_write_resize (st : CharDev) (len : Nat) (offset : Int)
    (heap : Option (Nat → Byte)) : Option CharDev :=
  if toU64 (offset + len) > toU64 st.buffer_size then
    let new_size : Int :=
      toS32 (max (toU64 (toS32 (st.buffer_size * 2))) (toU64 (offset + len)))
    match krealloc st.device_buffer new_size heap with
    | none => none
    | some new_buffer => some { st with device_buffer := new_buffer, buffer_size := new_size }
  else some st

/-- Result of `copy_from_user(device_buffer + off, buffer, n)`. -/
inductive KernelCopy where
  | copied (dev : List Byte)
  | fault (dev : List Byte)
  | out_of_bounds
deriving DecidableEq

/-- Copy from user space into `dev`.  `user_fault = some k` with `k < n` means
that the user buffer becomes unreadable after `k` bytes: those `k` bytes are
copied and the kernel zeroes the other `n - k` destination bytes.  A negative
`n` converts to a length no user range has: nothing is copied. -/
def copy_from_user (dev : List Byte) (off : Int) (src : List Byte) (n : Int)
    (user_fault : Option Nat) : KernelCopy :=
  if n < 0 then KernelCopy.fault dev
  else
    match user_fault with
    | some k =>
      if k < n.toNat then
        match mem_write dev off (src.take k ++ List.replicate (n.toNat - k) 0) with
        | some d => KernelCopy.fault d
        | none => KernelCopy.out_of_bounds
      else
        match mem_write dev off (src.take n.toNat) with
        | some d => KernelCopy.copied d
        | none => KernelCopy.out_of_bounds
    | none =>
      match mem_write dev off (src.take n.toNat) with
      | some d => KernelCopy.copied d
      | none => KernelCopy.out_of_bounds

/-- What `dev_write` hands back: the return value, the globals and `*offset`. -/
structure WriteOut where
  ret : Int
  dev : CharDev
  pos : Int
deriving DecidableEq

/-- Embedding of `dev_write(filep, buffer, len, offset)` with `len` the length
of the user data `buffer`.  `none`: the copy writes outside `device_buffer`. -/
def dev_write (st : CharDev) (buffer : List Byte) (offset : Int)
    (heap : Option (Nat → Byte)) (user_fault : Option Nat) : Option WriteOut :=
  let len : Nat := buffer.length
  match dev_write_resize st len offset heap with
  | none => some { ret := -ENOMEM, dev := st, pos := offset }
  | some st1 =>
    let bytes_to_write : Int := toS32 (min (len : Int) (toU64 (st1.buffer_size - offset)))
    match copy_from_user st1.device_buffer offset buffer bytes_to_write user_fault with
    | KernelCopy.out_of_bounds => none
    | KernelCopy.fault d =>
      some { ret := -EFAULT, dev := { st1 with device_buffer := d }, pos := offset }
    | KernelCopy.copied d =>
      let st2 : CharDev := { st1 with device_buffer := d }
      let st3 : CharDev :=
        if toS64 (offset + bytes_to_write) > st2.buffer_offset then
          { st2 with buffer_offset := toS32 (toS64 (offset + bytes_to_write)) }
        else st2
      some { ret := bytes_to_write
             dev := { st3 with write_count := toS32 (st3.write_count + 1) }
             pos := toS64 (offset + bytes_to_write) }

/-- The invariant of the globals: `device_buffer` is an object of
`buffer_size` bytes and `0 ≤ buffer_offset ≤ buffer_size`. -/
def CharDev.WF (st : CharDev) : Prop :=
  (st.device_buffer.length : Int) = st.buffer_size ∧
  0 ≤ st.buffer_offset ∧ st.buffer_offset ≤ st.buffer_size ∧
  st.buffer_size < 2147483648

/-- The buffer `krealloc` returns when the resize block asks for `new_size`
bytes, at least as many as before. -/
def grown_buffer (st : CharDev) (new_size : Int) (junk : Nat → Byte) : List Byte :=
  st.device_buffer ++
    (List.range (new_size.toNat - st.device_buffer.length)).map
      (fun i => junk (st.device_buffer.length + i))

/-- The store after `write(0, "hello")` on the initial state. -/
def hello_store : CharDev :=
  { device_buffer := [104, 101, 108, 108, 111] ++ List.replicate 4091 0
    buffer_size := 4096
    buffer_offset := 5
    read_count := 0
    write_count := 1 }

/-- The commands `dev_ioctl` distinguishes; every other command number is
`other`. -/
inductive IoctlCmd where
  | CHAR_GET_SIZE
  | CHAR_RESET_BUFFER
  | CHAR_GET_STATS
  | CHAR_SET_BUFFER_SIZE
  | other
deriving DecidableEq

/-- The record `struct char_stats`. -/
structure char_stats where
  read_count : Int
  write_count : Int
  buffer_used : Int
  buffer_size : Int
deriving DecidableEq

/-- What `dev_ioctl` hands back: the return value, the globals, the `int`
stored at `arg` by `CHAR_GET_SIZE` and the record stored at `arg` by
`CHAR_GET_STATS`. -/
structure IoctlOut where
  ret : Int
  dev : CharDev
  size_out : Option Int
  stats_out : Option char_stats
deriving DecidableEq

/-- Embedding of `dev_ioctl(filep, cmd, arg)`.  `new_size` is the `int` that
`CHAR_SET_BUFFER_SIZE` reads at `arg`, `bad_user` says that the user memory at
`arg` cannot be accessed.  `none`: `memset` writes outside `device_buffer`. -/
def dev_ioctl (st : CharDev) (cmd : IoctlCmd) (new_size : Int) (bad_user : Bool)
    (heap : Option (Nat → Byte)) : Option IoctlOut :=
  match cmd with
  | IoctlCmd.CHAR_GET_SIZE =>
    if bad_user then some { ret := -EFAULT, dev := st, size_out := none, stats_out := none }
    else some { ret := 0, dev := st, size_out := some st.buffer_size, stats_out := none }
  | IoctlCmd.CHAR_RESET_BUFFER =>
    match mem_write st.device_buffer 0 (List.replicate (toU64 st.buffer_size).toNat 0) with
    | none => none
    | some d =>
      some { ret := 0, dev := { st with device_buffer := d, buffer_offset := 0 }
             size_out := none, stats_out := none }
  | IoctlCmd.CHAR_GET_STATS =>
    if bad_user then some { ret := -EFAULT, dev := st, size_out := none, stats_out := none }
    else
      some { ret := 0, dev := st, size_out := none
             stats_out := some { read_count := st.read_count
                                 write_count := st.write_count
                                 buffer_used := st.buffer_offset
                                 buffer_size := st.buffer_size } }
  | IoctlCmd.CHAR_SET_BUFFER_SIZE =>
    if bad_user then some { ret := -EFAULT, dev := st, size_out := none, stats_out := none }
    else if new_size < 1 ∨ new_size > 65536 then
      some { ret := -EINVAL, dev := st, size_out := none, stats_out := none }
    else
      match krealloc st.device_buffer new_size heap with
      | none => some { ret := -ENOMEM, dev := st, size_out := none, stats_out := none }
      | some new_buffer =>
        let st1 : CharDev := { st with device_buffer := new_buffer, buffer_size := new_size }
        let st2 : CharDev :=
          if st1.buffer_offset > st1.buffer_size then
            { st1 with buffer_offset := st1.buffer_size }
          else st1
        some { ret := 0, dev := st2, size_out := none, stats_out := none }
  | IoctlCmd.other =>
    some { ret := -ENOTTY, dev := st, size_out := none, stats_out := none }

def SEEK_SET : Int := 0
def SEEK_CUR : Int := 1
def SEEK_END : Int := 2

/-- What `dev_llseek` hands back: the return value and `filep->f_pos`. -/
structure SeekOut where
  ret : Int
  f_pos : Int
deriving DecidableEq

/-- Embedding of `dev_llseek(filep, offset, whence)`; `f_pos` is
`filep->f_pos` on entry.  The globals are only read. -/
def dev_llseek (st : CharDev) (f_pos : Int) (offset : Int) (whence : Int) : SeekOut :=
  let newpos : Option Int :=
    if whence = SEEK_SET then some offset
    else if whence = SEEK_CUR then some (toS64 (f_pos + offset))
    else if whence = SEEK_END then some (toS64 (st.buffer_offset + offset))
    else none
  match newpos with
  | none => { ret := -EINVAL, f_pos := f_pos }
  | some np =>
    if np < 0 then { ret := -EINVAL, f_pos := f_pos }
    else { ret := np, f_pos := np }

/-- The states of the globals that calls of the file operations can produce
from the state after `char_init`.  Positions and lengths are the ones the
kernel hands to a driver: a position is a non-negative `loff_t` and a length
is below `2^31`.  `dev_llseek`, `dev_open` and `dev_release` do not change
the globals. -/
inductive Reachable : CharDev → Prop where
  | init : Reachable char_init
  | read (st : CharDev) (len : Nat) (offset : Int) (bad_user : Bool) (r : ReadOut) :
      Reachable st → 0 ≤ offset → dev_read st len offset bad_user = some r → Reachable r.dev
  | write (st : CharDev) (b : List Byte) (offset : Int) (heap : Option (Nat → Byte))
      (user_fault : Option Nat) (w : WriteOut) :
      Reachable st → 0 ≤ offset → offset < 9223372036854775808 → b.length < 2147483648 →
      dev_write st b offset heap user_fault = some w → Reachable w.dev
  | ioctl (st : CharDev) (cmd : IoctlCmd) (new_size : Int) (bad_user : Bool)
      (heap : Option (Nat → Byte)) (o : IoctlOut) :
      Reachable st → dev_ioctl st cmd new_size bad_user heap = some o → Reachable o.dev

/-! ## Sector store: `simple_block.c` -/

def SECTOR_SIZE : Nat := 512

def DEFAULT_SECTORS : Nat := 2048

/-- The globals of `simple_block.c`: the `vmalloc`ed region and three
`unsigned long`s. -/
structure BlockDev where
  device_data : List Byte
  device_sectors : Nat
  read_ops : Nat
  write_ops : Nat
deriving DecidableEq

/-- One segment of a request (`struct bio_vec`): `bv_offset` is the offset of
the segment inside its page and `buffer` holds the `bv_len` bytes of caller
memory at `kmap(bv_page) + bv_offset`. -/
structure bio_vec where
  bv_offset : Nat
  buffer : List Byte
deriving DecidableEq

/-- The field `bv_len`: the length of the segment. -/
def bio_vec.bv_len (bvec : bio_vec) : Nat := bvec.buffer.length

/-- Data direction of a request, `rq_data_dir(req)`. -/
inductive Dir where
  | READ
  | WRITE
deriving DecidableEq

/-- A request as `simple_block_request` sees it: whether `cmd_type` is
`REQ_TYPE_FS`, its direction, `blk_rq_pos` (a `sector_t`) and its segments in
the order `rq_for_each_segment` visits them. -/
structure request where
  cmd_type_fs : Bool
  dir : Dir
  pos : Nat
  segments : List bio_vec
deriving DecidableEq

/-- The byte length `blk_rq_bytes(req)` (an `unsigned int`): the segment
lengths added up. -/
def blk_rq_bytes (req : request) : Nat := (req.segments.map bio_vec.bv_len).sum

/-- The distance from `device_data` of the address
`device_data + (sector * SECTOR_SIZE) + bvec.bv_offset`: the product is an
unsigned 64-bit value and the address is one of a 64-bit machine, so both the
product and the sum wrap at `2^64`. -/
def device_offset (sector : Nat) (bvec : bio_vec) : Nat :=
  ((sector * SECTOR_SIZE) % 18446744073709551616 + bvec.bv_offset) % 18446744073709551616

/-- The body of `rq_for_each_segment` for one segment: a `memcpy` between
`buffer` and `device_data + (sector * SECTOR_SIZE) + bvec.bv_offset`, and one
increment of the counter of the direction.  `none`: the copy leaves
`device_data`. -/
def copy_segment (dir : Dir) (sector : Nat) (st : BlockDev) (bvec : bio_vec) :
    Option (BlockDev × bio_vec) :=
  let off : Nat := device_offset sector bvec
  match dir with
  | Dir.READ =>
    match mem_read st.device_data off bvec.bv_len with
    | none => none
    | some d =>
      some ({ st with read_ops := (st.read_ops + 1) % 18446744073709551616 },
            { bvec with buffer := d })
  | Dir.WRITE =>
    match mem_write st.device_data off bvec.buffer with
    | none => none
    | some d =>
      some ({ st with device_data := d
                      write_ops := (st.write_ops + 1) % 18446744073709551616 }, bvec)

/-- The loop `rq_for_each_segment(bvec, req, iter)`: `sector` is the same for
every segment.  Returns the globals and the segments as the caller finds
them afterwards. -/
def rq_for_each_segment (dir : Dir) (sector : Nat) :
    BlockDev → List bio_vec → Option (BlockDev × List bio_vec)
  | st, [] => some (st, [])
  | st, bvec :: rest =>
    match copy_segment dir sector st bvec with
    | none => none
    | some (st1, bvec1) =>
      match rq_for_each_segment dir sector st1 rest with
      | none => none
      | some (st2, done) => some (st2, bvec1 :: done)

/-- The bound check of line 52, `(sector + bytes / SECTOR_SIZE) > device_sectors`,
evaluated in unsigned 64-bit arithmetic. -/
def beyond_device_limits (st : BlockDev) (sector : Nat) (bytes : Nat) : Bool :=
  decide ((sector + bytes / SECTOR_SIZE) % 18446744073709551616 > st.device_sectors)

/-- How a request ends: the error passed to `__blk_end_request_all` and the
segments of the caller. -/
structure completion where
  error : Int
  segments : List bio_vec
deriving DecidableEq

/-- One iteration of the `while` loop of `simple_block_request`. -/
def handle_request (st : BlockDev) (req : request) : Option (BlockDev × completion) :=
  if !req.cmd_type_fs then some (st, { error := - EIO, segments := req.segments })
  else
    let sector := req.pos
    let bytes := blk_rq_bytes req
    if beyond_device_limits st sector bytes then
      some (st, { error := - EIO, segments := req.segments })
    else
      match rq_for_each_segment req.dir sector st req.segments with
      | none => none
      | some (st1, segs) => some (st1, { error := 0, segments := segs })

/-- Embedding of `simple_block_request(q)`: the requests of the queue are
fetched and completed one by one. -/
def simple_block_request : BlockDev → List request → Option (BlockDev × List completion)
  | st, [] => some (st, [])
  | st, req :: q =>
    match handle_request st req with
    | none => none
    | some (st1, c) =>
      match simple_block_request st1 q with
      | none => none
      | some (st2, cs) => some (st2, c :: cs)

/-- The bytes a completed request delivered to the caller, in segment order. -/
def completion.bytes (c : completion) : List Byte :=
  (c.segments.map bio_vec.buffer).flatten

/-- The text `block_init` formats into `init_msg` for the default size. -/
def init_msg : List Byte :=
  ("=== Simple Block Device Storage ===\nTotal sectors: 2048\nTotal size: 1024 KB\n" ++
    "Use this device for block I/O operations\n").toList.map Char.toNat

/-- State after a successful `block_init`: `device_sectors * SECTOR_SIZE` bytes,
zeroed by `memset`, with the welcome message copied to the start. -/
def block_init : BlockDev :=
  { device_data := init_msg ++
      List.replicate (DEFAULT_SECTORS * SECTOR_SIZE - init_msg.length) 0
    device_sectors := DEFAULT_SECTORS
    read_ops := 0
    write_ops := 0 }

/-- A page of caller memory filled with the byte `v`, as one segment that
starts at the beginning of the page. -/
def page_of (v : Byte) : bio_vec := { bv_offset := 0, buffer := List.replicate 4096 v }

/-! ## The mutex `device_mutex` of each driver -/

/-- What a function does with the mutex and with the state of its store, in
program order: `mutex_lock(&device_mutex)`, `mutex_unlock(&device_mutex)`, and
`touch` for a statement that reads or writes a global of the store (or
`filep->f_pos`).  Locals, the request and the caller's `*offset` copy are not
store state. -/
inductive Event where
  | mutex_lock
  | mutex_unlock
  | touch
deriving DecidableEq

/-- The held/free flag of the mutex after the events, starting from `held`;
`none` when the mutex is locked while held or unlocked while free. -/
def guard_after : Bool → List Event → Option Bool
  | held, [] => some held
  | held, Event.mutex_lock :: es => if held then none else guard_after true es
  | held, Event.mutex_unlock :: es => if held then guard_after false es else none
  | held, Event.touch :: es => guard_after held es

/-- Whether every `touch` of the events happens while the mutex is held. -/
def touches_held : Bool → List Event → Bool
  | _, [] => true
  | _, Event.mutex_lock :: es => touches_held true es
  | _, Event.mutex_unlock :: es => touches_held false es
  | held, Event.touch :: es => held && touches_held held es

/-- The events of `dev_read`, statement by statement: lock, the test of
`buffer_offset`, then either unlock, or `bytes_to_read`, the copy out of
`device_buffer`, and on a fault unlock, else `read_count++` and unlock. -/
def dev_read_events (st : CharDev) (len : Nat) (offset : Int) (bad_user : Bool) :
    List Event :=
  [Event.mutex_lock, Event.touch] ++
    (if offset ≥ st.buffer_offset then [Event.mutex_unlock]
     else
      [Event.touch, Event.touch] ++
        (match copy_to_user st.device_buffer offset
            (toS32 (min (len : Int) (toU64 (st.buffer_offset - offset)))) bad_user with
         | UserCopy.fault => [Event.mutex_unlock]
         | _ => [Event.touch, Event.mutex_unlock]))

/-- The events of `dev_write`: lock, the test of `buffer_size`; in the resize
block `new_size`, `krealloc`, and on failure unlock, else the two assignments
and the `printk` of `buffer_size`; then `bytes_to_write`, the copy into
`device_buffer`, and on a fault unlock, else the test and the update of
`buffer_offset`, `write_count++` and unlock. -/
def dev_write_events (st : CharDev) (buffer : List Byte) (offset : Int)
    (heap : Option (Nat → Byte)) (user_fault : Option Nat) : List Event :=
  let len : Nat := buffer.length
  let grows : Bool := decide (toU64 (offset + len) > toU64 st.buffer_size)
  [Event.mutex_lock, Event.touch] ++
    (if grows then [Event.touch, Event.touch] else []) ++
    (match dev_write_resize st len offset heap with
     | none => [Event.mutex_unlock]
     | some st1 =>
       (if grows then [Event.touch, Event.touch, Event.touch] else []) ++
         [Event.touch, Event.touch] ++
         (match copy_from_user st1.device_buffer offset buffer
             (toS32 (min (len : Int) (toU64 (st1.buffer_size - offset)))) user_fault with
          | KernelCopy.fault _ => [Event.mutex_unlock]
          | _ =>
            [Event.touch] ++
              (if toS64 (offset +
                  toS32 (min (len : Int) (toU64 (st1.buffer_size - offset)))) >
                  st1.buffer_offset then [Event.touch] else []) ++
              [Event.touch, Event.mutex_unlock]))

/-- The events of `dev_ioctl`.  `CHAR_GET_SIZE` copies `buffer_size` to the
user and takes no lock; `CHAR_SET_BUFFER_SIZE` locks after reading and checking
its argument; an unknown command touches nothing. -/
def dev_ioctl_events (st : CharDev) (cmd : IoctlCmd) (new_size : Int) (bad_user : Bool)
    (heap : Option (Nat → Byte)) : List Event :=
  match cmd with
  | IoctlCmd.CHAR_GET_SIZE => [Event.touch]
  | IoctlCmd.CHAR_RESET_BUFFER =>
    [Event.mutex_lock, Event.touch, Event.touch, Event.mutex_unlock]
  | IoctlCmd.CHAR_GET_STATS =>
    [Event.mutex_lock, Event.touch, Event.touch, Event.touch, Event.touch,
      Event.mutex_unlock]
  | IoctlCmd.CHAR_SET_BUFFER_SIZE =>
    if bad_user then []
    else if new_size < 1 ∨ new_size > 65536 then []
    else
      [Event.mutex_lock, Event.touch] ++
        (match krealloc st.device_buffer new_size heap with
         | none => [Event.mutex_unlock]
         | some _ =>
           [Event.touch, Event.touch, Event.touch] ++
             (if st.buffer_offset > new_size then [Event.touch] else []) ++
             [Event.mutex_unlock])
  | IoctlCmd.other => []

/-- The events of `dev_llseek`: lock, the read of `f_pos` or of
`buffer_offset` for `SEEK_CUR` and `SEEK_END`, unlock on an unknown `whence`
and on a negative position, else the assignment of `f_pos` and unlock. -/
def dev_llseek_events (st : CharDev) (f_pos : Int) (offset : Int) (whence : Int) :
    List Event :=
  let finish (np : Int) : List Event :=
    if np < 0 then [Event.mutex_unlock] else [Event.touch, Event.mutex_unlock]
  [Event.mutex_lock] ++
    (if whence = SEEK_SET then finish offset
     else if whence = SEEK_CUR then [Event.touch] ++ finish (toS64 (f_pos + offset))
     else if whence = SEEK_END then
       [Event.touch] ++ finish (toS64 (st.buffer_offset + offset))
     else [Event.mutex_unlock])

/-- The events of one iteration of the loop of `simple_block_request` in
`simple_block.c`: nothing for a request that is not a filesystem request;
else lock, the bound check against `device_sectors`, then unlock, or for
every segment the `memcpy` and the counter, and unlock. -/
def handle_request_events (st : BlockDev) (req : request) : List Event :=
  if !req.cmd_type_fs then []
  else
    [Event.mutex_lock, Event.touch] ++
      (if beyond_device_limits st req.pos (blk_rq_bytes req) then [Event.mutex_unlock]
       else
        (req.segments.map (fun _ => [Event.touch, Event.touch])).flatten ++
          [Event.mutex_unlock])

/-- The events of `simple_block_request` for a queue.  No request changes
`device_sectors`, the only global the shape of the events depends on. -/
def simple_block_request_events (st : BlockDev) (q : List request) : List Event :=
  (q.map (handle_request_events st)).flatten

/-- The commands `block_ioctl` distinguishes. -/
inductive BlockIoctlCmd where
  | BLKGETSIZE
  | BLKGETSIZE64
  | other
deriving DecidableEq

/-- The events of `block_ioctl`: both size queries read `device_sectors`;
the function never takes the mutex. -/
def block_ioctl_events (cmd : BlockIoctlCmd) : List Event :=
  match cmd with
  | BlockIoctlCmd.BLKGETSIZE => [Event.touch]
  | BlockIoctlCmd.BLKGETSIZE64 => [Event.touch]
  | BlockIoctlCmd.other => []

/-- The events of one iteration of the loop of `simple_block_request` in
`simple_block01.c`, which has no mutex: the bound check compares with the
constant `DEVICE_SIZE_SECTORS` (1024) and every segment is one `memcpy`. -/
def simple_block01_request_events (req : request) : List Event :=
  if !req.cmd_type_fs then []
  else if decide ((req.pos + blk_rq_bytes req / SECTOR_SIZE) % 18446744073709551616 > 1024)
    then []
  else (req.segments.map (fun _ => [Event.touch])).flatten

/-! ## A caller that reads in sequence -/

/-- A caller loop such as the hex dump of `char_app.c`: at most `count` calls
`read(fd, buffer, len)` one after the other, each at the position the call
before left, until a call returns no byte.  The result is what the caller
received, in order. -/
def successive_reads (len : Nat) : Nat → CharDev → Int → Option (List Byte)
  | 0, _, _ => some []
  | count + 1, st, pos =>
    match dev_read st len pos false with
    | none => none
    | some r =>
      if r.ret ≤ 0 then some []
      else
        match successive_reads len count r.dev r.pos with
        | none => none
        | some rest => some (r.data ++ rest)

/-! ## Integer conversions on values that fit -/

theorem toU64_of_fits (x : Int) (h0 : 0 ≤ x) (h1 : x < 18446744073709551616) :
    toU64 x = x := by
  unfold toU64; omega

theorem toS32_of_fits (x : Int) (h0 : -2147483648 ≤ x) (h1 : x < 2147483648) :
    toS32 x = x := by
  unfold toS32; omega

theorem toS64_of_fits (x : Int) (h0 : -9223372036854775808 ≤ x)
    (h1 : x < 9223372036854775808) : toS64 x = x := by
  unfold toS64; omega

/-- Arithmetic of the resize block and of `bytes_to_write` when the copy stays
inside the new buffer: nothing was truncated. -/
theorem resize_arith (c offset len ns btw : Int)
    (hc0 : 0 ≤ c) (hc : c < 2147483648) (ho : 0 ≤ offset)
    (ho63 : offset < 9223372036854775808) (hl0 : 0 < len) (hl : len < 2147483648)
    (hgrow : toU64 (offset + len) > toU64 c)
    (hns : ns = toS32 (max (toU64 (toS32 (c * 2))) (toU64 (offset + len))))
    (hns0 : 0 ≤ ns)
    (hbtw : btw = toS32 (min len (toU64 (ns - offset))))
    (hin : btw ≤ 0 ∨ offset + btw ≤ ns) :
    ns = max (c * 2) (offset + len) ∧ btw = len := by
  unfold toU64 toS32 at *
  omega

/-! ## Memory copies inside the object -/

theorem mem_read_inside (mem : List Byte) (off : Int) (n : Nat) (h0 : 0 ≤ off)
    (h1 : off + n ≤ mem.length) :
    mem_read mem off n = some ((mem.drop off.toNat).take n) := by
  unfold mem_read
  by_cases hn : n = 0
  · subst hn; simp
  · rw [if_neg hn, if_pos ⟨h0, h1⟩]

theorem mem_write_inside (mem : List Byte) (off : Int) (src : List Byte) (h0 : 0 ≤ off)
    (h1 : off + src.length ≤ mem.length) :
    mem_write mem off src =
      some (mem.take off.toNat ++ src ++ mem.drop (off.toNat + src.length)) := by
  unfold mem_write
  by_cases hn : src.length = 0
  · have : src = [] := List.length_eq_zero.mp hn
    subst this
    simp
  · rw [if_neg hn, if_pos ⟨h0, h1⟩]

theorem copy_to_user_inside (dev : List Byte) (off n : Int) (hn : 0 ≤ n) (h0 : 0 ≤ off)
    (h1 : off + n ≤ dev.length) :
    copy_to_user dev off n false = UserCopy.copied ((dev.drop off.toNat).take n.toNat) := by
  unfold copy_to_user
  have hneg : ¬ n < 0 := by omega
  rw [if_neg hneg]
  by_cases hz : n = 0
  · subst hz; simp
  · rw [if_neg hz]
    have h2 : off + ((n.toNat : Nat) : Int) ≤ dev.length := by omega
    simp [mem_read_inside dev off n.toNat h0 h2]

/-! ## Stream store: reads -/

/-- What `dev_read` computes below the high-water mark when the user buffer
can be written. -/
theorem dev_read_below (st : CharDev) (hwf : st.WF) (len : Nat) (offset : Int)
    (h0 : 0 ≤ offset) (hlt : offset < st.buffer_offset) :
    dev_read st len offset false =
      some { ret := min (len : Int) (st.buffer_offset - offset)
             data := (st.device_buffer.drop offset.toNat).take
               (min (len : Int) (st.buffer_offset - offset)).toNat
             dev := { st with read_count := toS32 (st.read_count + 1) }
             pos := offset + min (len : Int) (st.buffer_offset - offset) } := by
  obtain ⟨hlen, hh0, hhc, hc⟩ := hwf
  have hn : toS32 (min (len : Int) (toU64 (st.buffer_offset - offset))) =
      min (len : Int) (st.buffer_offset - offset) := by
    unfold toS32 toU64; omega
  have hpos : toS64 (offset + min (len : Int) (st.buffer_offset - offset)) =
      offset + min (len : Int) (st.buffer_offset - offset) := by
    unfold toS64; omega
  have hge : ¬ offset ≥ st.buffer_offset := by omega
  have hcopy := copy_to_user_inside st.device_buffer offset
    (min (len : Int) (st.buffer_offset - offset)) (by omega) h0 (by omega)
  simp only [dev_read, hge, if_false, hn, hpos, hcopy]

/-! ## Stream store: writes -/

theorem mem_write_some (mem : List Byte) (off : Int) (src d : List Byte)
    (h : mem_write mem off src = some d) :
    (src.length = 0 ∧ d = mem) ∨
    (0 ≤ off ∧ off + src.length ≤ mem.length ∧
      d = mem.take off.toNat ++ src ++ mem.drop (off.toNat + src.length)) := by
  unfold mem_write at h
  by_cases hn : src.length = 0
  · rw [if_pos hn] at h
    exact Or.inl ⟨hn, (Option.some.inj h).symm⟩
  · rw [if_neg hn] at h
    by_cases hin : 0 ≤ off ∧ off + src.length ≤ mem.length
    · rw [if_pos hin] at h
      exact Or.inr ⟨hin.1, hin.2, (Option.some.inj h).symm⟩
    · rw [if_neg hin] at h
      exact absurd h (by simp)

theorem copy_from_user_copied (dev : List Byte) (off : Int) (src : List Byte) (n : Int)
    (user_fault : Option Nat) (d : List Byte)
    (h : copy_from_user dev off src n user_fault = KernelCopy.copied d) :
    0 ≤ n ∧ mem_write dev off (src.take n.toNat) = some d := by
  unfold copy_from_user at h
  by_cases hn : n < 0
  · rw [if_pos hn] at h
    exact absurd h (by simp)
  · rw [if_neg hn] at h
    refine ⟨by omega, ?_⟩
    cases user_fault with
    | none =>
      simp only at h
      cases hm : mem_write dev off (src.take n.toNat) with
      | none => rw [hm] at h; exact absurd h (by simp)
      | some d1 => rw [hm] at h; simp only [KernelCopy.copied.injEq] at h; rw [h]
    | some k =>
      simp only at h
      by_cases hk : k < n.toNat
      · rw [if_pos hk] at h
        cases hm : mem_write dev off (src.take k ++ List.replicate (n.toNat - k) 0) with
        | none => rw [hm] at h; exact absurd h (by simp)
        | some d1 => rw [hm] at h; exact absurd h (by simp)
      · rw [if_neg hk] at h
        cases hm : mem_write dev off (src.take n.toNat) with
        | none => rw [hm] at h; exact absurd h (by simp)
        | some d1 => rw [hm] at h; simp only [KernelCopy.copied.injEq] at h; rw [h]

/-- A call of `dev_write` that returns a count went through the resize block
and a complete copy. -/
theorem dev_write_returns_count (st : CharDev) (b : List Byte) (offset : Int)
    (heap : Option (Nat → Byte)) (user_fault : Option Nat) (w : WriteOut)
    (hw : dev_write st b offset heap user_fault = some w) (hret : 0 ≤ w.ret) :
    ∃ st1 d, dev_write_resize st b.length offset heap = some st1 ∧
      copy_from_user st1.device_buffer offset b
        (toS32 (min (b.length : Int) (toU64 (st1.buffer_size - offset)))) user_fault =
        KernelCopy.copied d ∧
      w.ret = toS32 (min (b.length : Int) (toU64 (st1.buffer_size - offset))) ∧
      w.pos = toS64 (offset + w.ret) ∧
      w.dev.device_buffer = d ∧
      w.dev.buffer_size = st1.buffer_size ∧
      w.dev.buffer_offset =
        (if toS64 (offset + w.ret) > st1.buffer_offset then toS32 (toS64 (offset + w.ret))
         else st1.buffer_offset) ∧
      w.dev.read_count = st1.read_count ∧
      w.dev.write_count = toS32 (st1.write_count + 1) := by
  unfold dev_write at hw
  dsimp only at hw
  cases hr : dev_write_resize st b.length offset heap with
  | none =>
    rw [hr] at hw
    simp only [Option.some.injEq] at hw
    subst hw
    simp [ENOMEM] at hret
  | some st1 =>
    rw [hr] at hw
    simp only at hw
    cases hc : copy_from_user st1.device_buffer offset b
        (toS32 (min (b.length : Int) (toU64 (st1.buffer_size - offset)))) user_fault with
    | out_of_bounds => rw [hc] at hw; exact absurd hw (by simp)
    | fault d =>
      rw [hc] at hw
      simp only [Option.some.injEq] at hw
      subst hw
      simp [EFAULT] at hret
    | copied d =>
      rw [hc] at hw
      simp only [Option.some.injEq] at hw
      subst hw
      refine ⟨st1, d, rfl, hc, rfl, rfl, ?_, ?_, ?_, ?_, ?_⟩
      · split <;> rfl
      · split <;> rfl
      · split <;> rfl
      · split <;> rfl
      · split <;> rfl

theorem krealloc_some (p : List Byte) (new_size : Int) (heap : Option (Nat → Byte))
    (nb : List Byte) (h : krealloc p new_size heap = some nb) :
    0 ≤ new_size ∧ nb.length = new_size.toNat ∧
    ∃ junk, heap = some junk ∧
      nb = p.take new_size.toNat ++
        (List.range (new_size.toNat - p.length)).map (fun i => junk (p.length + i)) := by
  unfold krealloc at h
  cases heap with
  | none => exact absurd h (by simp)
  | some junk =>
    simp only at h
    by_cases hn : new_size < 0
    · rw [if_pos hn] at h; exact absurd h (by simp)
    · rw [if_neg hn] at h
      have hnb := (Option.some.inj h).symm
      refine ⟨by omega, ?_, junk, rfl, hnb⟩
      rw [hnb]
      simp only [List.length_append, List.length_take, List.length_map, List.length_range]
      omega

/-- The two ways through the resize block for a position and a length in the
range the kernel passes. -/
theorem dev_write_resize_some (st : CharDev) (hwf : st.WF) (len : Nat) (offset : Int)
    (heap : Option (Nat → Byte)) (st1 : CharDev)
    (h0 : 0 ≤ offset) (h63 : offset < 9223372036854775808) (hlen : len < 2147483648)
    (h : dev_write_resize st len offset heap = some st1) :
    (offset + len ≤ st.buffer_size ∧ st1 = st) ∨
    (st.buffer_size < offset + len ∧
      ∃ nb, krealloc st.device_buffer
          (toS32 (max (toU64 (toS32 (st.buffer_size * 2))) (toU64 (offset + len)))) heap =
          some nb ∧
        st1 = { st with
                device_buffer := nb
                buffer_size :=
                  toS32 (max (toU64 (toS32 (st.buffer_size * 2))) (toU64 (offset + len))) }) := by
  obtain ⟨hl, hh0, hhc, hc⟩ := hwf
  unfold dev_write_resize at h
  by_cases hg : toU64 (offset + len) > toU64 st.buffer_size
  · rw [if_pos hg] at h
    dsimp only at h
    right
    refine ⟨by unfold toU64 at hg; omega, ?_⟩
    cases hk : krealloc st.device_buffer
        (toS32 (max (toU64 (toS32 (st.buffer_size * 2))) (toU64 (offset + len)))) heap with
    | none => rw [hk] at h; exact absurd h (by simp)
    | some nb =>
      rw [hk] at h
      exact ⟨nb, rfl, (Option.some.inj h).symm⟩
  · rw [if_neg hg] at h
    left
    exact ⟨by unfold toU64 at hg; omega, (Option.some.inj h).symm⟩

/-- A write of at least one byte that returns a count: the buffer `base` the
copy went into has the new capacity, begins with the old contents when the
buffer grew, and holds all of `b` at `offset`. -/
theorem dev_write_stores (st : CharDev) (hwf : st.WF) (b : List Byte) (offset : Int)
    (heap : Option (Nat → Byte)) (user_fault : Option Nat) (w : WriteOut)
    (h0 : 0 ≤ offset) (h63 : offset < 9223372036854775808)
    (hb : 0 < b.length) (hlen : b.length < 2147483648)
    (hw : dev_write st b offset heap user_fault = some w) (hret : 0 ≤ w.ret) :
    w.ret = b.length ∧ w.pos = offset + b.length ∧
    w.dev.buffer_size =
      (if st.buffer_size < offset + b.length then max (st.buffer_size * 2) (offset + b.length)
       else st.buffer_size) ∧
    w.dev.buffer_offset = max st.buffer_offset (offset + b.length) ∧
    offset + b.length ≤ w.dev.buffer_size ∧ w.dev.buffer_size < 2147483648 ∧
    ∃ base : List Byte, (base.length : Int) = w.dev.buffer_size ∧
      base.take st.device_buffer.length = st.device_buffer ∧
      w.dev.device_buffer =
        base.take offset.toNat ++ b ++ base.drop (offset.toNat + b.length) := by
  obtain ⟨st1, d, hr, hc, hret1, hpos, hbuf, hsz, hoff, -, -⟩ :=
    dev_write_returns_count st b offset heap user_fault w hw hret
  obtain ⟨hbtw0, hmw⟩ := copy_from_user_copied _ _ _ _ _ _ hc
  have hwf' := hwf
  obtain ⟨hl, hh0, hhc, hcb⟩ := hwf'
  have htake : (b.take (toS32 (min (b.length : Int)
      (toU64 (st1.buffer_size - offset)))).toNat).length =
      min (toS32 (min (b.length : Int) (toU64 (st1.buffer_size - offset)))).toNat b.length :=
    List.length_take _ _
  rcases dev_write_resize_some st hwf b.length offset heap st1 h0 h63 hlen hr with
    ⟨hfit, hst⟩ | ⟨hgrow, nb, hk, hst⟩
  · -- the data fits in the buffer as it is
    subst hst
    have hbtw : toS32 (min (b.length : Int) (toU64 (st1.buffer_size - offset))) = b.length := by
      unfold toS32 toU64; omega
    rw [hbtw] at hmw hret1
    have htk : b.take ((b.length : Int)).toNat = b := by simp
    rw [htk] at hmw
    have hd := mem_write_inside st1.device_buffer offset b h0 (by omega)
    rw [hd] at hmw
    have hd' := (Option.some.inj hmw).symm
    have hpos' : w.pos = offset + b.length := by
      rw [hpos, hret1]; unfold toS64; omega
    have hoff' : w.dev.buffer_offset = max st1.buffer_offset (offset + b.length) := by
      rw [hoff, hret1]; unfold toS64 toS32; split <;> omega
    refine ⟨hret1, hpos', ?_, hoff', by omega, by omega, st1.device_buffer, by omega,
      by simp, ?_⟩
    · rw [hsz, if_neg (by omega)]
    · rw [hbuf, hd']
  · -- the buffer was reallocated
    obtain ⟨hns0, hnbl, junk, -, hnb⟩ := krealloc_some _ _ _ _ hk
    have hsz1 : st1.buffer_size =
        toS32 (max (toU64 (toS32 (st.buffer_size * 2))) (toU64 (offset + b.length))) := by
      rw [hst]
    have hbuf1 : st1.device_buffer = nb := by rw [hst]
    have hoff1 : st1.buffer_offset = st.buffer_offset := by rw [hst]
    have hns0' : 0 ≤ st1.buffer_size := by rw [hsz1]; exact hns0
    have hns_lt : st1.buffer_size < 2147483648 := by rw [hsz1]; unfold toS32; omega
    have hle_len : toS32 (min (b.length : Int) (toU64 (st1.buffer_size - offset))) ≤
        b.length := by
      unfold toS32 toU64; omega
    have hin : toS32 (min (b.length : Int) (toU64 (st1.buffer_size - offset))) ≤ 0 ∨
        offset + toS32 (min (b.length : Int) (toU64 (st1.buffer_size - offset))) ≤
          st1.buffer_size := by
      rcases mem_write_some _ _ _ _ hmw with ⟨hz, -⟩ | ⟨-, hle, -⟩
      · left; rw [htake] at hz; omega
      · right; rw [htake, hbuf1, hnbl, ← hsz1] at hle; omega
    obtain ⟨hnsv, hbtw⟩ := resize_arith st.buffer_size offset b.length st1.buffer_size
      (toS32 (min (b.length : Int) (toU64 (st1.buffer_size - offset))))
      (by omega) hcb h0 h63 (by omega) (by omega) (by unfold toU64; omega) hsz1
      hns0' rfl hin
    rw [hbtw] at hmw hret1
    have htk : b.take ((b.length : Int)).toNat = b := by simp
    rw [htk] at hmw
    have hnbl' : (nb.length : Int) = st1.buffer_size := by rw [hnbl, hsz1]; omega
    have hd := mem_write_inside st1.device_buffer offset b h0 (by rw [hbuf1]; omega)
    rw [hd] at hmw
    have hd' := (Option.some.inj hmw).symm
    have hpos' : w.pos = offset + b.length := by
      rw [hpos, hret1]; unfold toS64; omega
    have hoff' : w.dev.buffer_offset = max st.buffer_offset (offset + b.length) := by
      rw [hoff, hret1, hoff1]; unfold toS64 toS32; split <;> omega
    refine ⟨hret1, hpos', ?_, hoff', by omega, by omega, nb, by omega, ?_, ?_⟩
    · rw [hsz, if_pos hgrow, hnsv]
    · have hge : st.device_buffer.length ≤ (toS32 (max (toU64 (toS32 (st.buffer_size * 2)))
          (toU64 (offset + ↑b.length)))).toNat := by omega
      rw [hnb, List.take_of_length_le hge]
      simp
    · rw [hbuf, hd', hbuf1]

/-- Reading back the range a copy went into. -/
theorem drop_take_of_stored (base b : List Byte) (off : Nat)
    (h : off + b.length ≤ base.length) :
    ((base.take off ++ b ++ base.drop (off + b.length)).drop off).take b.length = b := by
  have h1 : (base.take off).length = off := by
    rw [List.length_take]; omega
  rw [List.append_assoc, List.drop_left' h1, List.take_left' rfl]

theorem length_of_stored (base b : List Byte) (off : Nat)
    (h : off + b.length ≤ base.length) :
    (base.take off ++ b ++ base.drop (off + b.length)).length = base.length := by
  simp only [List.length_append, List.length_take, List.length_drop]
  omega

/-! ## Stream store: the invariant holds in every reachable state -/

theorem char_init_WF : char_init.WF := by
  unfold CharDev.WF char_init BUFFER_SIZE
  simp only [List.length_replicate]
  decide

theorem hello_store_WF : hello_store.WF := by
  unfold CharDev.WF hello_store
  simp only [List.length_append, List.length_replicate, List.length_cons, List.length_nil]
  decide

theorem mem_write_length (mem : List Byte) (off : Int) (src d : List Byte)
    (h : mem_write mem off src = some d) : d.length = mem.length := by
  rcases mem_write_some mem off src d h with ⟨-, hd⟩ | ⟨h0, h1, hd⟩
  · rw [hd]
  · rw [hd]
    exact length_of_stored mem src off.toNat (by omega)

/-- A `copy_from_user` of `n` bytes that did not leave the buffer: the buffer
keeps its length and, unless `n = 0`, the destination lies inside it. -/
theorem copy_from_user_inside_of (dev : List Byte) (off : Int) (src : List Byte) (n : Int)
    (user_fault : Option Nat) (d : List Byte) (hn0 : 0 ≤ n) (hle : n ≤ src.length)
    (h : copy_from_user dev off src n user_fault = KernelCopy.copied d ∨
      copy_from_user dev off src n user_fault = KernelCopy.fault d) :
    d.length = dev.length ∧ (n = 0 ∨ (0 ≤ off ∧ off + n ≤ dev.length)) := by
  have hmw : ∃ src1 : List Byte, (src1.length : Int) = n ∧ mem_write dev off src1 = some d := by
    unfold copy_from_user at h
    rw [if_neg (by omega)] at h
    have ht : ((src.take n.toNat).length : Int) = n := by
      rw [List.length_take]; omega
    cases user_fault with
    | none =>
      simp only at h
      cases hm : mem_write dev off (src.take n.toNat) with
      | none => rw [hm] at h; simp at h
      | some d1 =>
        rw [hm] at h
        simp only [KernelCopy.copied.injEq, reduceCtorEq, or_false] at h
        exact ⟨_, ht, by rw [hm, h]⟩
    | some k =>
      simp only at h
      by_cases hk : k < n.toNat
      · rw [if_pos hk] at h
        cases hm : mem_write dev off (src.take k ++ List.replicate (n.toNat - k) 0) with
        | none => rw [hm] at h; simp at h
        | some d1 =>
          rw [hm] at h
          simp only [KernelCopy.fault.injEq, reduceCtorEq, false_or] at h
          refine ⟨_, ?_, by rw [hm, h]⟩
          simp only [List.length_append, List.length_take, List.length_replicate]
          omega
      · rw [if_neg hk] at h
        cases hm : mem_write dev off (src.take n.toNat) with
        | none => rw [hm] at h; simp at h
        | some d1 =>
          rw [hm] at h
          simp only [KernelCopy.copied.injEq, reduceCtorEq, or_false] at h
          exact ⟨_, ht, by rw [hm, h]⟩
  obtain ⟨src1, hl, hm⟩ := hmw
  refine ⟨mem_write_length dev off src1 d hm, ?_⟩
  rcases mem_write_some dev off src1 d hm with ⟨hz, -⟩ | ⟨h0, h1, -⟩
  · left; omega
  · right; exact ⟨h0, by omega⟩

/-- A `copy_from_user` that faults copies at least one byte short. -/
theorem copy_from_user_fault_pos (dev : List Byte) (off : Int) (src : List Byte) (n : Int)
    (user_fault : Option Nat) (d : List Byte) (hn0 : 0 ≤ n)
    (h : copy_from_user dev off src n user_fault = KernelCopy.fault d) : 0 < n := by
  unfold copy_from_user at h
  rw [if_neg (by omega)] at h
  cases user_fault with
  | none =>
    simp only at h
    cases hm : mem_write dev off (src.take n.toNat) with
    | none => rw [hm] at h; simp at h
    | some d1 => rw [hm] at h; simp at h
  | some k =>
    simp only at h
    by_cases hk : k < n.toNat
    · omega
    · rw [if_neg hk] at h
      cases hm : mem_write dev off (src.take n.toNat) with
      | none => rw [hm] at h; simp at h
      | some d1 => rw [hm] at h; simp at h

/-- The function `dev_write` keeps the invariant on every return path. -/
theorem dev_write_WF (st : CharDev) (hwf : st.WF) (b : List Byte) (offset : Int)
    (heap : Option (Nat → Byte)) (user_fault : Option Nat) (w : WriteOut)
    (h0 : 0 ≤ offset) (h63 : offset < 9223372036854775808)
    (hlen : b.length < 2147483648)
    (hw : dev_write st b offset heap user_fault = some w) : w.dev.WF := by
  have hwf' := hwf
  obtain ⟨hl, hh0, hhc, hcb⟩ := hwf'
  unfold dev_write at hw
  dsimp only at hw
  cases hr : dev_write_resize st b.length offset heap with
  | none =>
    rw [hr] at hw
    simp only [Option.some.injEq] at hw
    subst hw
    exact hwf
  | some st1 =>
    rw [hr] at hw
    simp only at hw
    -- the state after the resize block
    have hst1 : (st1.device_buffer.length : Int) = st1.buffer_size ∧
        st1.buffer_offset = st.buffer_offset ∧ 0 ≤ st1.buffer_size ∧
        st1.buffer_size < 2147483648 ∧
        ((offset + b.length ≤ st.buffer_size ∧ st1.buffer_size = st.buffer_size) ∨
         (st.buffer_size < offset + b.length ∧ st1.buffer_size =
            toS32 (max (toU64 (toS32 (st.buffer_size * 2))) (toU64 (offset + b.length))))) := by
      rcases dev_write_resize_some st hwf b.length offset heap st1 h0 h63 hlen hr with
        ⟨hfit, hst⟩ | ⟨hgrow, nb, hk, hst⟩
      · subst hst
        exact ⟨hl, rfl, by omega, hcb, Or.inl ⟨hfit, rfl⟩⟩
      · obtain ⟨hns0, hnbl, -⟩ := krealloc_some _ _ _ _ hk
        have e1 : st1.device_buffer = nb := by rw [hst]
        have e2 : st1.buffer_size =
            toS32 (max (toU64 (toS32 (st.buffer_size * 2))) (toU64 (offset + b.length))) := by
          rw [hst]
        have e3 : st1.buffer_offset = st.buffer_offset := by rw [hst]
        refine ⟨?_, e3, by rw [e2]; exact hns0, ?_, Or.inr ⟨hgrow, e2⟩⟩
        · rw [e1, e2, hnbl]; omega
        · rw [e2]; unfold toS32; omega
    obtain ⟨hl1, ho1, hs0, hs31, hcase⟩ := hst1
    have hbtw : 0 ≤ toS32 (min (b.length : Int) (toU64 (st1.buffer_size - offset))) ∧
        toS32 (min (b.length : Int) (toU64 (st1.buffer_size - offset))) ≤ b.length := by
      unfold toS32 toU64; omega
    generalize hbd : toS32 (min (b.length : Int) (toU64 (st1.buffer_size - offset))) = btw
      at hw hbtw
    cases hc : copy_from_user st1.device_buffer offset b btw user_fault with
    | out_of_bounds => rw [hc] at hw; exact absurd hw (by simp)
    | fault d =>
      rw [hc] at hw
      simp only [Option.some.injEq] at hw
      subst hw
      obtain ⟨hdl, hin⟩ := copy_from_user_inside_of _ _ _ _ _ _ hbtw.1 hbtw.2 (Or.inr hc)
      have hpos := copy_from_user_fault_pos _ _ _ _ _ _ hbtw.1 hc
      refine ⟨?_, ?_, ?_, ?_⟩
      · show (d.length : Int) = st1.buffer_size
        rw [hdl]; exact hl1
      · show 0 ≤ st1.buffer_offset
        omega
      · show st1.buffer_offset ≤ st1.buffer_size
        rcases hcase with ⟨-, hsz⟩ | ⟨hgrow, hsz⟩
        · omega
        · have hin' : btw ≤ 0 ∨ offset + btw ≤ st1.buffer_size := by omega
          obtain ⟨hnsv, -⟩ := resize_arith st.buffer_size offset b.length st1.buffer_size btw
            (by omega) hcb h0 h63 (by omega) (by omega) (by unfold toU64; omega) hsz hs0
            hbd.symm hin'
          omega
      · exact hs31
    | copied d =>
      rw [hc] at hw
      simp only [Option.some.injEq] at hw
      subst hw
      obtain ⟨hdl, hin⟩ := copy_from_user_inside_of _ _ _ _ _ _ hbtw.1 hbtw.2 (Or.inl hc)
      have hin' : btw ≤ 0 ∨ offset + btw ≤ st1.buffer_size := by omega
      have hgoal : 0 ≤ (if toS64 (offset + btw) > st1.buffer_offset then
            toS32 (toS64 (offset + btw)) else st1.buffer_offset) ∧
          (if toS64 (offset + btw) > st1.buffer_offset then
            toS32 (toS64 (offset + btw)) else st1.buffer_offset) ≤ st1.buffer_size := by
        rcases hcase with ⟨hfit, hsz⟩ | ⟨hgrow, hsz⟩
        · unfold toS32 toU64 at hbd
          unfold toS64 toS32
          split <;> omega
        · by_cases hb0 : b.length = 0
          · unfold toS32 toU64 at hbd hsz
            unfold toS64 toS32
            split <;> omega
          · obtain ⟨hnsv, hbv⟩ := resize_arith st.buffer_size offset b.length
              st1.buffer_size btw (by omega) hcb h0 h63 (by omega) (by omega)
              (by unfold toU64; omega) hsz hs0 hbd.symm hin'
            unfold toS64 toS32
            split <;> omega
      refine ⟨?_, ?_, ?_, ?_⟩
      · show ((_ : CharDev).device_buffer.length : Int) = (_ : CharDev).buffer_size
        split
        · show (d.length : Int) = st1.buffer_size
          rw [hdl]; exact hl1
        · show (d.length : Int) = st1.buffer_size
          rw [hdl]; exact hl1
      · show 0 ≤ (_ : CharDev).buffer_offset
        split
        · rename_i hgt
          have := hgoal.1
          rw [if_pos hgt] at this
          exact this
        · rename_i hgt
          have := hgoal.1
          rw [if_neg hgt] at this
          exact this
      · show (_ : CharDev).buffer_offset ≤ (_ : CharDev).buffer_size
        split
        · rename_i hgt
          have := hgoal.2
          rw [if_pos hgt] at this
          exact this
        · rename_i hgt
          have := hgoal.2
          rw [if_neg hgt] at this
          exact this
      · show (_ : CharDev).buffer_size < 2147483648
        split
        · exact hs31
        · exact hs31

/-- The function `dev_read` keeps the invariant: it changes `read_count` at most. -/
theorem dev_read_WF (st : CharDev) (hwf : st.WF) (len : Nat) (offset : Int)
    (bad_user : Bool) (r : ReadOut) (hr : dev_read st len offset bad_user = some r) :
    r.dev.WF := by
  unfold dev_read at hr
  by_cases hge : offset ≥ st.buffer_offset
  · rw [if_pos hge] at hr
    simp only [Option.some.injEq] at hr
    subst hr
    exact hwf
  · rw [if_neg hge] at hr
    dsimp only at hr
    cases hc : copy_to_user st.device_buffer offset
        (toS32 (min (len : Int) (toU64 (st.buffer_offset - offset)))) bad_user with
    | out_of_bounds => rw [hc] at hr; exact absurd hr (by simp)
    | fault =>
      rw [hc] at hr
      simp only [Option.some.injEq] at hr
      subst hr
      exact hwf
    | copied d =>
      rw [hc] at hr
      simp only [Option.some.injEq] at hr
      subst hr
      exact hwf

/-- The function `dev_ioctl` keeps the invariant on every return path of every command. -/
theorem dev_ioctl_WF (st : CharDev) (hwf : st.WF) (cmd : IoctlCmd) (new_size : Int)
    (bad_user : Bool) (heap : Option (Nat → Byte)) (o : IoctlOut)
    (ho : dev_ioctl st cmd new_size bad_user heap = some o) : o.dev.WF := by
  have hwf' := hwf
  obtain ⟨hl, hh0, hhc, hcb⟩ := hwf'
  unfold dev_ioctl at ho
  cases cmd with
  | CHAR_GET_SIZE =>
    simp only at ho
    split at ho <;> (simp only [Option.some.injEq] at ho; subst ho; exact hwf)
  | CHAR_GET_STATS =>
    simp only at ho
    split at ho <;> (simp only [Option.some.injEq] at ho; subst ho; exact hwf)
  | other =>
    simp only [Option.some.injEq] at ho
    subst ho
    exact hwf
  | CHAR_RESET_BUFFER =>
    simp only at ho
    cases hm : mem_write st.device_buffer 0
        (List.replicate (toU64 st.buffer_size).toNat 0) with
    | none => rw [hm] at ho; exact absurd ho (by simp)
    | some d =>
      rw [hm] at ho
      simp only [Option.some.injEq] at ho
      subst ho
      have hdl := mem_write_length _ _ _ _ hm
      refine ⟨?_, le_refl 0, ?_, hcb⟩
      · show (d.length : Int) = st.buffer_size
        rw [hdl]; exact hl
      · show (0 : Int) ≤ st.buffer_size
        omega
  | CHAR_SET_BUFFER_SIZE =>
    simp only at ho
    by_cases hb : bad_user = true
    · rw [if_pos hb] at ho
      simp only [Option.some.injEq] at ho
      subst ho
      exact hwf
    · rw [if_neg hb] at ho
      by_cases hrange : new_size < 1 ∨ new_size > 65536
      · rw [if_pos hrange] at ho
        simp only [Option.some.injEq] at ho
        subst ho
        exact hwf
      · rw [if_neg hrange] at ho
        cases hk : krealloc st.device_buffer new_size heap with
        | none =>
          rw [hk] at ho
          simp only [Option.some.injEq] at ho
          subst ho
          exact hwf
        | some nb =>
          rw [hk] at ho
          simp only [Option.some.injEq] at ho
          subst ho
          obtain ⟨hns0, hnbl, -⟩ := krealloc_some _ _ _ _ hk
          by_cases hgt : st.buffer_offset > new_size
          · simp only [hgt, if_true]
            exact ⟨by show (nb.length : Int) = new_size; omega, hns0, le_refl _,
              by show new_size < 2147483648; omega⟩
          · simp only [hgt, if_false]
            exact ⟨by show (nb.length : Int) = new_size; omega, hh0,
              by show st.buffer_offset ≤ new_size; omega,
              by show new_size < 2147483648; omega⟩

/-- Every reachable state of the stream store satisfies the invariant: the
buffer has `buffer_size` bytes and `0 ≤ buffer_offset ≤ buffer_size`. -/
theorem reachable_WF (st : CharDev) (h : Reachable st) : st.WF := by
  induction h with
  | init => exact char_init_WF
  | read st len offset bad_user r _ _ hr ih => exact dev_read_WF st ih len offset bad_user r hr
  | write st b offset heap user_fault w _ h0 h63 hlen hw ih =>
    exact dev_write_WF st ih b offset heap user_fault w h0 h63 hlen hw
  | ioctl st cmd new_size bad_user heap o _ ho ih =>
    exact dev_ioctl_WF st ih cmd new_size bad_user heap o ho

/-! ## Claim C6 and the round trip inside the `int` range -/

/-- C6: in every reachable state, a `dev_read` at a position
`offset >= 0` at or past the high-water mark `buffer_offset` returns 0 with no
bytes and no error, whatever the user buffer is; below the high-water mark,
with a writable user buffer, it returns exactly
`n = min(len, buffer_offset - offset)` and the `n` bytes
`device_buffer[offset .. offset + n)`. -/
theorem dev_read_end_or_min (st : CharDev) (hst : Reachable st) (len : Nat) (offset : Int)
    (bad_user : Bool) (h0 : 0 ≤ offset) :
    (st.buffer_offset ≤ offset →
      dev_read st len offset bad_user =
        some { ret := 0, data := [], dev := st, pos := offset }) ∧
    (offset < st.buffer_offset → bad_user = false →
      ∃ r, dev_read st len offset bad_user = some r ∧
        r.ret = min (len : Int) (st.buffer_offset - offset) ∧
        (r.data.length : Int) = min (len : Int) (st.buffer_offset - offset) ∧
        r.data = (st.device_buffer.drop offset.toNat).take r.data.length ∧
        ∀ i : Nat, i < r.data.length →
          r.data[i]? = st.device_buffer[offset.toNat + i]?) := by
  constructor
  · intro hge
    unfold dev_read
    rw [if_pos (show offset ≥ st.buffer_offset from hge)]
  · intro hlt hb
    subst hb
    have hwf := reachable_WF st hst
    have hr := dev_read_below st hwf len offset h0 hlt
    obtain ⟨hl, hh0, hhc, hc⟩ := hwf
    have hlen : ((st.device_buffer.drop offset.toNat).take
        (min (len : Int) (st.buffer_offset - offset)).toNat).length =
        (min (len : Int) (st.buffer_offset - offset)).toNat := by
      rw [List.length_take, List.length_drop]; omega
    refine ⟨_, hr, rfl, ?_, ?_, ?_⟩
    · show ((_ : List Byte).length : Int) = _
      rw [hlen]; omega
    · show (_ : List Byte) = _
      rw [hlen]
    · intro i hi
      show (_ : List Byte)[i]? = _
      have hi' : i < (min (len : Int) (st.buffer_offset - offset)).toNat := by
        rw [← hlen]; exact hi
      rw [List.getElem?_take_of_lt hi', List.getElem?_drop]

/-- The round trip where the write is defined, that is where `offset + len(b)`
stays inside the `int` range: in every reachable state, if `dev_write` of the bytes
`b` at position `offset >= 0` returns a count (no error), then a `dev_read` at
the same position with length `len(b)` into a writable user buffer returns
`len(b)` and exactly the bytes `b`; the buffer may have been reallocated by
the write.  The position is a `loff_t` and the length is one the kernel
passes to a driver (below `2^31`). -/
theorem write_then_read_roundtrip (st : CharDev) (hst : Reachable st) (b : List Byte)
    (offset : Int) (heap : Option (Nat → Byte)) (user_fault : Option Nat) (w : WriteOut)
    (h0 : 0 ≤ offset) (h63 : offset < 9223372036854775808)
    (hlen : b.length < 2147483648)
    (hw : dev_write st b offset heap user_fault = some w) (hret : 0 ≤ w.ret) :
    ∃ r, dev_read w.dev b.length offset false = some r ∧ r.ret = b.length ∧ r.data = b := by
  by_cases hb : b.length = 0
  · have hnil : b = [] := List.length_eq_zero.mp hb
    subst hnil
    unfold dev_read
    by_cases hge : offset ≥ w.dev.buffer_offset
    · rw [if_pos hge]
      exact ⟨_, rfl, rfl, rfl⟩
    · rw [if_neg hge]
      have hz : toS32 (min (([] : List Byte).length : Int)
          (toU64 (w.dev.buffer_offset - offset))) = 0 := by
        simp only [List.length_nil]
        unfold toS32 toU64; omega
      simp only [hz]
      have hcp : copy_to_user w.dev.device_buffer offset 0 false = UserCopy.copied [] := by
        simp [copy_to_user]
      rw [hcp]
      exact ⟨_, rfl, rfl, rfl⟩
  · have hwf := reachable_WF st hst
    obtain ⟨-, -, hsz, hoff, hin, hlt, base, hbl, -, hbuf⟩ :=
      dev_write_stores st hwf b offset heap user_fault w h0 h63 (by omega) hlen hw hret
    obtain ⟨hl, hh0, hhc, hc⟩ := hwf
    have hfit : offset.toNat + b.length ≤ base.length := by omega
    have hwf' : w.dev.WF := by
      refine ⟨?_, by omega, by omega, hlt⟩
      rw [hbuf, length_of_stored base b offset.toNat hfit]
      exact hbl
    have hr := dev_read_below w.dev hwf' b.length offset h0 (by omega)
    have hmin : min (b.length : Int) (w.dev.buffer_offset - offset) = b.length := by omega
    rw [hmin] at hr
    refine ⟨_, hr, rfl, ?_⟩
    show List.take ((b.length : Int)).toNat (List.drop offset.toNat w.dev.device_buffer) = b
    rw [hbuf, Int.toNat_ofNat]
    exact drop_take_of_stored base b offset.toNat hfit

/-! ## Stream store: evaluation of `dev_write` inside the `int` range -/

theorem copy_from_user_inside (dev : List Byte) (off : Int) (src : List Byte)
    (h0 : 0 ≤ off) (h1 : off + src.length ≤ dev.length) :
    copy_from_user dev off src src.length none =
      KernelCopy.copied (dev.take off.toNat ++ src ++ dev.drop (off.toNat + src.length)) := by
  unfold copy_from_user
  have hneg : ¬ ((src.length : Int) < 0) := by omega
  rw [if_neg hneg]
  simp only [Int.toNat_ofNat, List.take_length]
  rw [mem_write_inside dev off src h0 h1]

/-- A write that fits in the buffer as it is. -/
theorem dev_write_fits (st : CharDev) (hwf : st.WF) (b : List Byte) (offset : Int)
    (heap : Option (Nat → Byte)) (h0 : 0 ≤ offset)
    (hfit : offset + b.length ≤ st.buffer_size) :
    dev_write st b offset heap none =
      some { ret := b.length
             dev := { st with
                      device_buffer := st.device_buffer.take offset.toNat ++ b ++
                        st.device_buffer.drop (offset.toNat + b.length)
                      buffer_offset := max st.buffer_offset (offset + b.length)
                      write_count := toS32 (st.write_count + 1) }
             pos := offset + b.length } := by
  obtain ⟨hl, hh0, hhc, hc⟩ := hwf
  have hres : dev_write_resize st b.length offset heap = some st := by
    unfold dev_write_resize
    rw [if_neg (by unfold toU64; omega)]
  have hbtw : toS32 (min (b.length : Int) (toU64 (st.buffer_size - offset))) = b.length := by
    unfold toS32 toU64; omega
  have hcp := copy_from_user_inside st.device_buffer offset b h0 (by omega)
  have hpos : toS64 (offset + b.length) = offset + b.length := by unfold toS64; omega
  have h32 : toS32 (offset + b.length) = offset + b.length := by unfold toS32; omega
  unfold dev_write
  simp only [hres, hbtw, hcp, hpos, h32]
  by_cases hgt : offset + (b.length : Int) > st.buffer_offset
  · rw [if_pos hgt, max_eq_right (by omega)]
  · rw [if_neg hgt, max_eq_left (by omega)]

/-- A write past the end of the buffer whose new size `max(2c, end)` fits in
an `int`, with an allocator that has memory. -/
theorem dev_write_grows (st : CharDev) (hwf : st.WF) (b : List Byte) (offset : Int)
    (junk : Nat → Byte) (h0 : 0 ≤ offset)
    (hgrow : st.buffer_size < offset + b.length)
    (hint : max (st.buffer_size * 2) (offset + b.length) < 2147483648) :
    dev_write st b offset (some junk) none =
      some { ret := b.length
             dev := { st with
                      device_buffer :=
                        (grown_buffer st (max (st.buffer_size * 2) (offset + b.length))
                          junk).take offset.toNat ++ b ++
                        (grown_buffer st (max (st.buffer_size * 2) (offset + b.length))
                          junk).drop (offset.toNat + b.length)
                      buffer_size := max (st.buffer_size * 2) (offset + b.length)
                      buffer_offset := offset + b.length
                      write_count := toS32 (st.write_count + 1) }
             pos := offset + b.length } := by
  obtain ⟨hl, hh0, hhc, hc⟩ := hwf
  have hns : toS32 (max (toU64 (toS32 (st.buffer_size * 2))) (toU64 (offset + b.length))) =
      max (st.buffer_size * 2) (offset + b.length) := by
    unfold toS32 toU64; omega
  have hk : krealloc st.device_buffer (max (st.buffer_size * 2) (offset + b.length))
      (some junk) =
      some (grown_buffer st (max (st.buffer_size * 2) (offset + b.length)) junk) := by
    unfold krealloc grown_buffer
    simp only
    rw [if_neg (by omega), List.take_of_length_le (by omega)]
  have hres : dev_write_resize st b.length offset (some junk) =
      some { st with
             device_buffer :=
               grown_buffer st (max (st.buffer_size * 2) (offset + b.length)) junk
             buffer_size := max (st.buffer_size * 2) (offset + b.length) } := by
    unfold dev_write_resize
    rw [if_pos (by unfold toU64; omega)]
    simp only [hns, hk]
  have hgl : ((grown_buffer st (max (st.buffer_size * 2) (offset + b.length)) junk).length :
      Int) = max (st.buffer_size * 2) (offset + b.length) := by
    unfold grown_buffer
    simp only [List.length_append, List.length_map, List.length_range]
    omega
  have hbtw : toS32 (min (b.length : Int)
      (toU64 (max (st.buffer_size * 2) (offset + b.length) - offset))) = b.length := by
    unfold toS32 toU64; omega
  have hcp := copy_from_user_inside
    (grown_buffer st (max (st.buffer_size * 2) (offset + b.length)) junk) offset b h0
    (by omega)
  have hpos : toS64 (offset + b.length) = offset + b.length := by unfold toS64; omega
  have h32 : toS32 (offset + b.length) = offset + b.length := by unfold toS32; omega
  unfold dev_write
  simp only [hres, hbtw, hcp, hpos, h32]
  rw [if_pos (by omega)]

/-! ## Stream store: positions whose end does not fit in an `int` -/

/-- The buffer `krealloc` returns for a non-negative `new_size`, smaller or
larger than the old one. -/
theorem krealloc_eval (p : List Byte) (new_size : Int) (junk : Nat → Byte)
    (h : 0 ≤ new_size) :
    krealloc p new_size (some junk) =
      some (p.take new_size.toNat ++
        (List.range (new_size.toNat - p.length)).map (fun i => junk (p.length + i))) := by
  unfold krealloc
  simp only
  rw [if_neg (by omega)]

/-- A write of no bytes at a position past the end of the buffer: the buffer
is reallocated to the truncated size `ns` and the high-water mark becomes
the truncated position. -/
theorem dev_write_empty_past_end (st : CharDev) (hwf : st.WF) (offset : Int)
    (junk : Nat → Byte) (user_fault : Option Nat)
    (h0 : 0 ≤ offset) (h63 : offset < 9223372036854775808)
    (hgrow : st.buffer_size < offset) (ns : Int)
    (hns : toS32 (max (toU64 (toS32 (st.buffer_size * 2))) (toU64 offset)) = ns)
    (hns0 : 0 ≤ ns) :
    dev_write st [] offset (some junk) user_fault =
      some { ret := 0
             dev := { device_buffer := st.device_buffer.take ns.toNat ++
                        (List.range (ns.toNat - st.device_buffer.length)).map
                          (fun i => junk (st.device_buffer.length + i))
                      buffer_size := ns
                      buffer_offset := toS32 offset
                      read_count := st.read_count
                      write_count := toS32 (st.write_count + 1) }
             pos := offset } := by
  obtain ⟨hl, hh0, hhc, hc⟩ := hwf
  have hres : dev_write_resize st ([] : List Byte).length offset (some junk) =
      some { st with
             device_buffer := st.device_buffer.take ns.toNat ++
               (List.range (ns.toNat - st.device_buffer.length)).map
                 (fun i => junk (st.device_buffer.length + i))
             buffer_size := ns } := by
    unfold dev_write_resize
    simp only [List.length_nil, Nat.cast_zero, add_zero]
    rw [if_pos (by unfold toU64; omega)]
    simp only [hns, krealloc_eval st.device_buffer ns junk hns0]
  have hbtw : toS32 (min ((([] : List Byte).length : Nat) : Int) (toU64 (ns - offset))) = 0 := by
    simp only [List.length_nil, Nat.cast_zero]
    unfold toS32 toU64; omega
  have hcp : ∀ dev : List Byte,
      copy_from_user dev offset [] 0 user_fault = KernelCopy.copied dev := by
    intro dev
    unfold copy_from_user
    cases user_fault <;> simp [mem_write]
  have hpos : toS64 (offset + 0) = offset := by unfold toS64; omega
  unfold dev_write
  simp only [hres, hbtw, hcp, hpos]
  rw [if_pos (by omega)]

/-- A write of at least one byte at a position past the end of the buffer
whose truncated new size `ns` is non-negative and smaller than the end of the
write: the copy goes outside the reallocated buffer. -/
theorem dev_write_wild (st : CharDev) (hwf : st.WF) (b : List Byte) (offset : Int)
    (junk : Nat → Byte)
    (h0 : 0 ≤ offset) (h63 : offset < 9223372036854775808)
    (hb : 0 < b.length) (hlen : b.length < 2147483648)
    (hgrow : st.buffer_size < offset + b.length) (ns : Int)
    (hns : toS32 (max (toU64 (toS32 (st.buffer_size * 2))) (toU64 (offset + b.length))) = ns)
    (hns0 : 0 ≤ ns) (hout : ns < offset + b.length) :
    dev_write st b offset (some junk) none = none := by
  cases hw : dev_write st b offset (some junk) none with
  | none => rfl
  | some w =>
    exfalso
    by_cases hret : 0 ≤ w.ret
    · obtain ⟨-, -, hsz, -, hin, -, -⟩ :=
        dev_write_stores st hwf b offset (some junk) none w h0 h63 hb hlen hw hret
      obtain ⟨st1, d, hr, -, -, -, -, hsz1, -, -, -⟩ :=
        dev_write_returns_count st b offset (some junk) none w hw hret
      rcases dev_write_resize_some st hwf b.length offset (some junk) st1 h0 h63 hlen hr with
        ⟨hfit, -⟩ | ⟨-, nb, -, hst⟩
      · omega
      · have : st1.buffer_size = ns := by rw [hst]; exact hns
        omega
    · unfold dev_write at hw
      dsimp only at hw
      have hres : dev_write_resize st b.length offset (some junk) =
          some { st with
                 device_buffer := st.device_buffer.take ns.toNat ++
                   (List.range (ns.toNat - st.device_buffer.length)).map
                     (fun i => junk (st.device_buffer.length + i))
                 buffer_size := ns } := by
        obtain ⟨hl, hh0, hhc, hc⟩ := hwf
        unfold dev_write_resize
        rw [if_pos (by unfold toU64; omega)]
        simp only [hns, krealloc_eval st.device_buffer ns junk hns0]
      rw [hres] at hw
      simp only at hw
      have hbtw0 : ¬ toS32 (min (b.length : Int) (toU64 (ns - offset))) < 0 := by
        unfold toS32 toU64; omega
      unfold copy_from_user at hw
      rw [if_neg hbtw0] at hw
      simp only at hw
      cases hm : mem_write
          (st.device_buffer.take ns.toNat ++
            (List.range (ns.toNat - st.device_buffer.length)).map
              (fun i => junk (st.device_buffer.length + i))) offset
          (b.take (toS32 (min (b.length : Int) (toU64 (ns - offset)))).toNat) with
      | none => rw [hm] at hw; exact absurd hw (by simp)
      | some d =>
        rw [hm] at hw
        simp only [Option.some.injEq] at hw
        subst hw
        apply hret
        show 0 ≤ toS32 (min (b.length : Int) (toU64 (ns - offset)))
        omega

/-! ## Claims C7, C8, C9, C10 at concrete stores -/

theorem char_init_hello :
    dev_write char_init [104, 101, 108, 108, 111] 0 none none =
      some { ret := 5, dev := hello_store, pos := 5 } := by
  rw [dev_write_fits char_init char_init_WF [104, 101, 108, 108, 111] 0 none (le_refl 0)
    (by unfold char_init BUFFER_SIZE; decide)]
  unfold char_init hello_store BUFFER_SIZE
  simp only [Int.toNat_zero, List.take_zero, List.nil_append, zero_add, List.length_cons,
    List.length_nil, List.drop_replicate]
  rfl

theorem hello_store_reachable : Reachable hello_store :=
  Reachable.write char_init [104, 101, 108, 108, 111] 0 none none
    { ret := 5, dev := hello_store, pos := 5 } Reachable.init (le_refl 0) (by decide)
    (by decide) char_init_hello

theorem dev_read_end_or_min_witness :
    Reachable hello_store ∧ (0 : Int) ≤ 0 ∧
    ∃ r, dev_read hello_store 100 0 false = some r ∧ r.ret = 5 ∧
      r.data = [104, 101, 108, 108, 111] := by
  obtain ⟨r, hr, h1, h2, h3, -⟩ :=
    (dev_read_end_or_min hello_store hello_store_reachable 100 0 false (le_refl 0)).2
      (by unfold hello_store; decide) rfl
  have hoff : hello_store.buffer_offset = 5 := rfl
  have h5 : r.data.length = 5 := by
    rw [hoff] at h2
    omega
  refine ⟨hello_store_reachable, le_refl 0, r, hr, ?_, ?_⟩
  · rw [h1, hoff]; decide
  · rw [h3, h5]
    unfold hello_store
    rfl

theorem write_then_read_roundtrip_witness :
    ∃ w, Reachable char_init ∧ (0 : Int) ≤ 4096 ∧
      dev_write char_init [7, 8, 9] 4096 (some (fun _ => 0)) none = some w ∧ 0 ≤ w.ret ∧
      w.dev.buffer_size = 8192 ∧
      ∃ r, dev_read w.dev 3 4096 false = some r ∧ r.ret = 3 ∧ r.data = [7, 8, 9] := by
  have hw := dev_write_grows char_init char_init_WF [7, 8, 9] 4096 (fun _ => 0) (by decide)
    (by unfold char_init BUFFER_SIZE; decide) (by unfold char_init BUFFER_SIZE; decide)
  refine ⟨_, Reachable.init, by decide, hw, by decide,
    by unfold char_init BUFFER_SIZE; decide, ?_⟩
  exact write_then_read_roundtrip char_init Reachable.init [7, 8, 9] 4096
    (some (fun _ => 0)) none _ (by decide) (by decide) (by decide) hw (by decide)

/-- C7, evaluated at a failing input: on the initial store (capacity 4096) a
seek to position `2^32` succeeds, and a write of one byte at that position,
with an allocator that has memory,
leaves the resize block with a buffer of one byte (`new_size` is
`max(8192, 2^32 + 1)` stored in an `int`), and the copy of the byte at
`device_buffer + 2^32` lies outside that buffer: the write neither returns 1
with the byte stored nor fails with an allocation error. -/
theorem dev_write_at_4GiB_leaves_buffer (junk : Nat → Byte) :
    dev_llseek char_init 0 4294967296 SEEK_SET = { ret := 4294967296, f_pos := 4294967296 } ∧
    dev_write_resize char_init 1 4294967296 (some junk) =
      some { char_init with device_buffer := [0], buffer_size := 1 } ∧
    dev_write char_init [65] 4294967296 (some junk) none = none := by
  refine ⟨by decide, ?_, ?_⟩
  · unfold dev_write_resize
    have hc : char_init.buffer_size = 4096 := rfl
    have hb : char_init.device_buffer = List.replicate 4096 0 := rfl
    rw [if_pos (by rw [hc]; decide)]
    have hns : toS32 (max (toU64 (toS32 (char_init.buffer_size * 2)))
        (toU64 (4294967296 + ((1 : Nat) : Int)))) = 1 := by
      rw [hc]; decide
    have hk := krealloc_eval char_init.device_buffer 1 junk (by decide)
    rw [hb, List.take_replicate, List.length_replicate] at hk
    simp only [hns]
    rw [hb, hk]
    rfl
  · exact dev_write_wild char_init char_init_WF [65] 4294967296 junk (by decide) (by decide)
      (by decide) (by decide) (by unfold char_init BUFFER_SIZE; decide) 1
      (by unfold char_init BUFFER_SIZE; decide) (by decide) (by decide)

/-- The initial store after a write of no bytes at position `2^32 + 10`. -/
theorem char_init_empty_write (junk : Nat → Byte) :
    dev_write char_init [] 4294967306 (some junk) none =
      some { ret := 0
             dev := { device_buffer := List.replicate 10 0
                      buffer_size := 10
                      buffer_offset := 10
                      read_count := 0
                      write_count := 1 }
             pos := 4294967306 } := by
  rw [dev_write_empty_past_end char_init char_init_WF 4294967306 junk none (by decide)
    (by decide) (by unfold char_init BUFFER_SIZE; decide) 10
    (by unfold char_init BUFFER_SIZE; decide) (by decide)]
  have hb : char_init.device_buffer = List.replicate 4096 0 := rfl
  simp only [hb, List.take_replicate, List.length_replicate]
  rfl

/-- C8, evaluated at a failing input: on the initial store (high-water mark
0) a write of no bytes at position `2^32 + 10` returns 0, a success, and the
high-water mark afterwards is 10, not `max(0, 2^32 + 10)`. -/
theorem dev_write_high_water_truncated (junk : Nat → Byte) :
    ∃ w, dev_write char_init [] 4294967306 (some junk) none = some w ∧ w.ret = 0 ∧
      w.dev.buffer_offset = 10 ∧
      w.dev.buffer_offset ≠
        max char_init.buffer_offset (4294967306 + (([] : List Byte).length : Int)) :=
  ⟨_, char_init_empty_write junk, rfl, rfl, by unfold char_init; decide⟩

/-- C9, evaluated at a failing input: on the initial store (capacity 4096) a
write of no bytes at position `2^32 + 10` has `end > capacity`, the allocation
succeeds and the write returns 0, and the capacity afterwards is 10, not
`max(2 * 4096, 2^32 + 10)`. -/
theorem dev_write_capacity_truncated (junk : Nat → Byte) :
    ∃ w, dev_write char_init [] 4294967306 (some junk) none = some w ∧ w.ret = 0 ∧
      char_init.buffer_size < 4294967306 + (([] : List Byte).length : Int) ∧
      w.dev.buffer_size = 10 ∧
      w.dev.buffer_size ≠
        max (char_init.buffer_size * 2) (4294967306 + (([] : List Byte).length : Int)) :=
  ⟨_, char_init_empty_write junk, rfl, by unfold char_init BUFFER_SIZE; decide, rfl,
    by unfold char_init BUFFER_SIZE; decide⟩

/-- C10, evaluated at a failing input: the store after `write(0, "hello")`
holds the byte 108 at index 3; a write of no bytes at position `2^32 + 2`
(past the capacity 4096) returns 0, a success, and leaves a buffer of two
bytes, so the byte at index 3, outside the written range, is gone. -/
theorem dev_write_resize_loses_data (junk : Nat → Byte) :
    dev_write char_init [104, 101, 108, 108, 111] 0 none none =
      some { ret := 5, dev := hello_store, pos := 5 } ∧
    hello_store.device_buffer[3]? = some 108 ∧
    ∃ w, dev_write hello_store [] 4294967298 (some junk) none = some w ∧ w.ret = 0 ∧
      w.dev.device_buffer = [104, 101] ∧ w.dev.buffer_size = 2 ∧
      w.dev.device_buffer[3]? = none := by
  have h3 : hello_store.device_buffer[3]? = some 108 := by
    show ([104, 101, 108, 108, 111] ++ List.replicate 4091 0 : List Byte)[3]? = some 108
    rw [List.getElem?_append_left (by decide)]
    rfl
  refine ⟨char_init_hello, h3, ?_⟩
  have hw := dev_write_empty_past_end hello_store hello_store_WF 4294967298 junk none
    (by decide) (by decide) (by unfold hello_store; decide) 2
    (by unfold hello_store; decide) (by decide)
  have hb : hello_store.device_buffer = [104, 101, 108, 108, 111] ++ List.replicate 4091 0 :=
    rfl
  have hl : hello_store.device_buffer.length = 4096 := by
    rw [hb]
    simp only [List.length_append, List.length_replicate, List.length_cons, List.length_nil]
  have hbuf : hello_store.device_buffer.take (2 : Int).toNat ++
      (List.range ((2 : Int).toNat - hello_store.device_buffer.length)).map
        (fun i => junk (hello_store.device_buffer.length + i)) = [104, 101] := by
    rw [hl, hb]
    rfl
  rw [hbuf] at hw
  exact ⟨_, hw, rfl, rfl, rfl, rfl⟩

/-! ## Sector store: one segment -/

theorem device_offset_of_fits (sector : Nat) (bvec : bio_vec)
    (hs : sector * SECTOR_SIZE + bvec.bv_offset < 18446744073709551616) :
    device_offset sector bvec = sector * SECTOR_SIZE + bvec.bv_offset := by
  unfold device_offset
  rw [Nat.mod_eq_of_lt (show sector * SECTOR_SIZE < 18446744073709551616 by omega)]
  exact Nat.mod_eq_of_lt hs

theorem copy_segment_write (st : BlockDev) (sector : Nat) (bvec : bio_vec)
    (hs : sector * SECTOR_SIZE + bvec.bv_offset < 18446744073709551616)
    (hin : sector * SECTOR_SIZE + bvec.bv_offset + bvec.buffer.length ≤
      st.device_data.length) :
    copy_segment Dir.WRITE sector st bvec =
      some ({ st with
              device_data :=
                st.device_data.take (sector * SECTOR_SIZE + bvec.bv_offset) ++ bvec.buffer ++
                  st.device_data.drop
                    (sector * SECTOR_SIZE + bvec.bv_offset + bvec.buffer.length)
              write_ops := (st.write_ops + 1) % 18446744073709551616 }, bvec) := by
  unfold copy_segment
  simp only [device_offset_of_fits sector bvec hs]
  rw [mem_write_inside st.device_data _ bvec.buffer (by omega) (by omega)]
  simp only [Int.toNat_ofNat]

theorem copy_segment_read (st : BlockDev) (sector : Nat) (bvec : bio_vec)
    (hs : sector * SECTOR_SIZE + bvec.bv_offset < 18446744073709551616)
    (hin : sector * SECTOR_SIZE + bvec.bv_offset + bvec.buffer.length ≤
      st.device_data.length) :
    copy_segment Dir.READ sector st bvec =
      some ({ st with read_ops := (st.read_ops + 1) % 18446744073709551616 },
            { bvec with
              buffer := (st.device_data.drop (sector * SECTOR_SIZE + bvec.bv_offset)).take
                bvec.buffer.length }) := by
  unfold copy_segment
  simp only [device_offset_of_fits sector bvec hs, bio_vec.bv_len]
  rw [mem_read_inside st.device_data _ bvec.buffer.length (by omega) (by omega)]
  simp only [Int.toNat_ofNat]

theorem init_msg_length : init_msg.length = 117 := by
  decide

theorem block_init_length : block_init.device_data.length = 1048576 := by
  unfold block_init
  simp only [List.length_append, List.length_replicate, init_msg_length]
  decide

theorem copy_segment_outside (dir : Dir) (st : BlockDev) (sector : Nat) (bvec : bio_vec)
    (hne : 0 < bvec.buffer.length)
    (hout : st.device_data.length < device_offset sector bvec + bvec.buffer.length) :
    copy_segment dir sector st bvec = none := by
  unfold copy_segment
  cases dir with
  | READ =>
    simp only [bio_vec.bv_len]
    unfold mem_read
    rw [if_neg (by omega), if_neg (by omega)]
  | WRITE =>
    simp only
    unfold mem_write
    rw [if_neg (by omega), if_neg (by omega)]

/-! ## Sector store: a request of two pages -/

/-- A write request of 16 sectors at sector 0 made of two one-page segments
`A` and `B`, both at the start of their page: both are copied to
`device_data[0, 4096)`. -/
theorem write_two_pages (st : BlockDev) (A B : List Byte)
    (hA : A.length = 4096) (hB : B.length = 4096)
    (hlen : 4096 ≤ st.device_data.length) (hcap : 16 ≤ st.device_sectors) :
    handle_request st
        { cmd_type_fs := true, dir := Dir.WRITE, pos := 0
          segments := [{ bv_offset := 0, buffer := A }, { bv_offset := 0, buffer := B }] } =
      some ({ st with
              device_data := B ++ st.device_data.drop 4096
              write_ops :=
                ((st.write_ops + 1) % 18446744073709551616 + 1) % 18446744073709551616 },
            { error := 0
              segments := [{ bv_offset := 0, buffer := A }, { bv_offset := 0, buffer := B }] }) := by
  have hbytes : blk_rq_bytes
      { cmd_type_fs := true, dir := Dir.WRITE, pos := 0
        segments := [{ bv_offset := 0, buffer := A }, { bv_offset := 0, buffer := B }] } =
      8192 := by
    simp [blk_rq_bytes, bio_vec.bv_len, hA, hB]
  have hlim : beyond_device_limits st 0 8192 = false := by
    unfold beyond_device_limits SECTOR_SIZE
    simp only [decide_eq_false_iff_not]
    omega
  have h1 := copy_segment_write st 0 { bv_offset := 0, buffer := A }
    (by show 0 * SECTOR_SIZE + 0 < 18446744073709551616; decide) (by simp only [hA]; unfold SECTOR_SIZE; omega)
  simp only [Nat.zero_mul, Nat.zero_add, Nat.add_zero, List.take_zero, List.nil_append,
    hA] at h1
  have h2 := copy_segment_write
    { st with device_data := A ++ st.device_data.drop 4096
              write_ops := (st.write_ops + 1) % 18446744073709551616 }
    0 { bv_offset := 0, buffer := B }
    (by show 0 * SECTOR_SIZE + 0 < 18446744073709551616; decide)
    (by simp only [hB, List.length_append, List.length_drop, hA]; unfold SECTOR_SIZE; omega)
  simp only [Nat.zero_mul, Nat.zero_add, Nat.add_zero, List.take_zero, List.nil_append,
    hB, List.drop_left' hA] at h2
  unfold handle_request
  simp only [hbytes, hlim, Bool.not_true, Bool.false_eq_true, if_false, rq_for_each_segment,
    h1, h2]

/-- A read request of 16 sectors at sector 0 made of two one-page segments,
both at the start of their page: both receive `device_data[0, 4096)`. -/
theorem read_two_pages (st : BlockDev) (X Y : List Byte)
    (hX : X.length = 4096) (hY : Y.length = 4096)
    (hlen : 4096 ≤ st.device_data.length) (hcap : 16 ≤ st.device_sectors) :
    handle_request st
        { cmd_type_fs := true, dir := Dir.READ, pos := 0
          segments := [{ bv_offset := 0, buffer := X }, { bv_offset := 0, buffer := Y }] } =
      some ({ st with
              read_ops :=
                ((st.read_ops + 1) % 18446744073709551616 + 1) % 18446744073709551616 },
            { error := 0
              segments := [{ bv_offset := 0, buffer := st.device_data.take 4096 },
                           { bv_offset := 0, buffer := st.device_data.take 4096 }] }) := by
  have hbytes : blk_rq_bytes
      { cmd_type_fs := true, dir := Dir.READ, pos := 0
        segments := [{ bv_offset := 0, buffer := X }, { bv_offset := 0, buffer := Y }] } =
      8192 := by
    simp [blk_rq_bytes, bio_vec.bv_len, hX, hY]
  have hlim : beyond_device_limits st 0 8192 = false := by
    unfold beyond_device_limits SECTOR_SIZE
    simp only [decide_eq_false_iff_not]
    omega
  have h1 := copy_segment_read st 0 { bv_offset := 0, buffer := X }
    (by show 0 * SECTOR_SIZE + 0 < 18446744073709551616; decide) (by simp only [hX]; unfold SECTOR_SIZE; omega)
  simp only [Nat.zero_mul, Nat.zero_add, Nat.add_zero, List.drop_zero, hX] at h1
  have h2 := copy_segment_read
    { st with read_ops := (st.read_ops + 1) % 18446744073709551616 }
    0 { bv_offset := 0, buffer := Y }
    (by show 0 * SECTOR_SIZE + 0 < 18446744073709551616; decide) (by simp only [hY]; unfold SECTOR_SIZE; omega)
  simp only [Nat.zero_mul, Nat.zero_add, Nat.add_zero, List.drop_zero, hY] at h2
  unfold handle_request
  simp only [hbytes, hlim, Bool.not_true, Bool.false_eq_true, if_false, rq_for_each_segment,
    h1, h2]

/-! ## Sector store: the initial store -/

theorem block_init_sectors : block_init.device_sectors = 2048 := rfl

theorem block_init_first : block_init.device_data[0]? = some 61 := by
  unfold block_init
  rw [List.getElem?_append_left (by rw [init_msg_length]; decide)]
  decide

theorem block_init_at_4096 : block_init.device_data[4096]? = some 0 := by
  unfold block_init
  rw [List.getElem?_append_right (by rw [init_msg_length]; decide), init_msg_length,
    List.getElem?_replicate]
  decide

theorem simple_block_request_one (st st1 : BlockDev) (req : request) (c : completion)
    (h : handle_request st req = some (st1, c)) :
    simple_block_request st [req] = some (st1, [c]) := by
  simp only [simple_block_request, h]

theorem simple_block_request_two (st st1 st2 : BlockDev) (r1 r2 : request)
    (c1 c2 : completion) (h1 : handle_request st r1 = some (st1, c1))
    (h2 : handle_request st1 r2 = some (st2, c2)) :
    simple_block_request st [r1, r2] = some (st2, [c1, c2]) := by
  simp only [simple_block_request, h1, h2]

/-! ## Claims C2, C4, C5 at the initial store -/

/-- C2, evaluated at a failing input: on the initial store of 2048 sectors, a
write request of 16 sectors at sector 0 whose payload is a page of bytes 1
followed by a page of bytes 2, then a read request of 16 sectors at sector 0
into two pages.  Both requests complete with error 0 and the reader receives
a page of bytes 2 twice, not the payload. -/
theorem two_page_write_read_back :
    ∃ st c1 c2,
      simple_block_request block_init
        [{ cmd_type_fs := true, dir := Dir.WRITE, pos := 0
           segments := [page_of 1, page_of 2] },
         { cmd_type_fs := true, dir := Dir.READ, pos := 0
           segments := [page_of 0, page_of 0] }] = some (st, [c1, c2]) ∧
      c1.error = 0 ∧ c2.error = 0 ∧
      c2.bytes = List.replicate 4096 2 ++ List.replicate 4096 2 ∧
      c2.bytes ≠ (page_of 1).buffer ++ (page_of 2).buffer := by
  have hl : 4096 ≤ block_init.device_data.length := by rw [block_init_length]; decide
  have hw := write_two_pages block_init (List.replicate 4096 1) (List.replicate 4096 2)
    (List.length_replicate _ _) (List.length_replicate _ _) hl
    (by rw [block_init_sectors]; decide)
  have hr := read_two_pages
    { block_init with
      device_data := List.replicate 4096 2 ++ block_init.device_data.drop 4096
      write_ops :=
        ((block_init.write_ops + 1) % 18446744073709551616 + 1) % 18446744073709551616 }
    (List.replicate 4096 0) (List.replicate 4096 0)
    (List.length_replicate _ _) (List.length_replicate _ _)
    (by simp only [List.length_append, List.length_replicate]; omega)
    (by decide)
  simp only [List.take_left' (List.length_replicate 4096 (2 : Byte))] at hr
  refine ⟨_, _, _, simple_block_request_two _ _ _ _ _ _ _ hw hr, rfl, rfl, ?_, ?_⟩
  · simp only [completion.bytes, List.map_cons, List.map_nil, List.flatten_cons,
      List.flatten_nil, List.append_nil]
  · simp only [completion.bytes, List.map_cons, List.map_nil, List.flatten_cons,
      List.flatten_nil, List.append_nil, page_of]
    intro h
    exact absurd (congrArg List.head? h) (by decide)

/-- The bound check of line 52 agrees with the comparison of mathematical
integers as long as `sector + bytes / SECTOR_SIZE` does not reach `2^64`. -/
theorem beyond_device_limits_exact (st : BlockDev) (sector bytes : Nat)
    (h : sector + bytes / SECTOR_SIZE < 18446744073709551616) :
    beyond_device_limits st sector bytes = true ↔
      st.device_sectors < sector + bytes / SECTOR_SIZE := by
  unfold beyond_device_limits
  rw [Nat.mod_eq_of_lt h, decide_eq_true_iff]

/-- A request that passes the bound check and whose first segment is copied
outside `device_data`. -/
theorem handle_request_outside (st : BlockDev) (dir : Dir) (pos : Nat) (bvec : bio_vec)
    (rest : List bio_vec)
    (hlim : beyond_device_limits st pos
      (blk_rq_bytes { cmd_type_fs := true, dir := dir, pos := pos
                      segments := bvec :: rest }) = false)
    (hseg : copy_segment dir pos st bvec = none) :
    handle_request st
      { cmd_type_fs := true, dir := dir, pos := pos, segments := bvec :: rest } = none := by
  unfold handle_request
  simp only [hlim, Bool.not_true, Bool.false_eq_true, if_false, rq_for_each_segment, hseg]

/-- C4, evaluated at a failing input: on the initial store, a read request of
16 sectors at sector 0 into two pages completes with error 0 and leaves the
data unchanged, but the two pages both receive `device_data[0, 4096)`: the
byte delivered at index 4096 is 61, the first byte of the store, while
`device_data[4096]` is 0. -/
theorem two_page_read_repeats_first_page :
    ∃ st c,
      simple_block_request block_init
        [{ cmd_type_fs := true, dir := Dir.READ, pos := 0
           segments := [page_of 0, page_of 0] }] = some (st, [c]) ∧
      c.error = 0 ∧ st.device_data = block_init.device_data ∧
      c.bytes = block_init.device_data.take 4096 ++ block_init.device_data.take 4096 ∧
      c.bytes[4096]? = some 61 ∧
      ((block_init.device_data.drop (0 * SECTOR_SIZE)).take (16 * SECTOR_SIZE))[4096]? =
        some 0 := by
  have hl : 4096 ≤ block_init.device_data.length := by rw [block_init_length]; decide
  have hr := read_two_pages block_init (List.replicate 4096 0) (List.replicate 4096 0)
    (List.length_replicate _ _) (List.length_replicate _ _) hl
    (by rw [block_init_sectors]; decide)
  have htl : (block_init.device_data.take 4096).length = 4096 := by
    rw [List.length_take]; omega
  refine ⟨_, _, simple_block_request_one _ _ _ _ hr, rfl, rfl, ?_, ?_, ?_⟩
  · simp only [completion.bytes, List.map_cons, List.map_nil, List.flatten_cons,
      List.flatten_nil, List.append_nil]
  · simp only [completion.bytes, List.map_cons, List.map_nil, List.flatten_cons,
      List.flatten_nil, List.append_nil]
    rw [List.getElem?_append_right (by omega), htl, Nat.sub_self,
      List.getElem?_take_of_lt (by decide)]
    exact block_init_first
  · rw [Nat.zero_mul, List.drop_zero, List.getElem?_take_of_lt (by unfold SECTOR_SIZE; decide)]
    exact block_init_at_4096

/-- C5, evaluated at a failing input: on the initial store, a write request
of 16 sectors at sector 0 whose payload `b` is a page of bytes 1 followed by
a page of bytes 2 completes with error 0.  Afterwards `device_data[0]` is 2
while `b[0]` is 1, and `device_data[4096]` is still 0 while `b[4096]` is 2. -/
theorem two_page_write_overlays_pages :
    ∃ st c,
      simple_block_request block_init
        [{ cmd_type_fs := true, dir := Dir.WRITE, pos := 0
           segments := [page_of 1, page_of 2] }] = some (st, [c]) ∧
      c.error = 0 ∧
      ((page_of 1).buffer ++ (page_of 2).buffer)[0]? = some 1 ∧
      st.device_data[0 * SECTOR_SIZE + 0]? = some 2 ∧
      ((page_of 1).buffer ++ (page_of 2).buffer)[4096]? = some 2 ∧
      st.device_data[0 * SECTOR_SIZE + 4096]? = some 0 := by
  have hl : 4096 ≤ block_init.device_data.length := by rw [block_init_length]; decide
  have hw := write_two_pages block_init (List.replicate 4096 1) (List.replicate 4096 2)
    (List.length_replicate _ _) (List.length_replicate _ _) hl
    (by rw [block_init_sectors]; decide)
  refine ⟨_, _, simple_block_request_one _ _ _ _ hw, rfl, ?_, ?_, ?_, ?_⟩
  · unfold page_of
    rw [List.getElem?_append_left (by rw [List.length_replicate]; decide),
      List.getElem?_replicate]
    decide
  · show (List.replicate 4096 2 ++ block_init.device_data.drop 4096)[0 * SECTOR_SIZE + 0]? =
      some 2
    rw [Nat.zero_mul, List.getElem?_append_left (by rw [List.length_replicate]; decide),
      List.getElem?_replicate]
    decide
  · unfold page_of
    rw [List.getElem?_append_right (by rw [List.length_replicate]), List.length_replicate,
      Nat.sub_self, List.getElem?_replicate]
    decide
  · show (List.replicate 4096 2 ++ block_init.device_data.drop 4096)[0 * SECTOR_SIZE + 4096]? =
      some 0
    rw [Nat.zero_mul, Nat.zero_add,
      List.getElem?_append_right (by rw [List.length_replicate]), List.length_replicate,
      Nat.sub_self, List.getElem?_drop]
    exact block_init_at_4096

/-! ## Claims C12, C13, C14: the invariant and seeks -/

/-- C12: in every state reachable from the state after `char_init` (capacity
4096, high-water mark 0) by calls of `dev_read`, `dev_write` and `dev_ioctl`
(reset, get_stats, set_capacity, get_size and unknown commands) that succeed
or fail, at non-negative positions, `0 ≤ buffer_offset ≤ buffer_size`.
`dev_llseek` has no access to the globals.  Write lengths are the ones the
kernel passes (below `2^31`). -/
theorem high_water_within_capacity (st : CharDev) (h : Reachable st) :
    0 ≤ st.buffer_offset ∧ st.buffer_offset ≤ st.buffer_size := by
  have hwf : st.WF := by
    induction h with
    | init => exact char_init_WF
    | read st len offset bad_user r _ _ hr ih =>
      exact dev_read_WF st ih len offset bad_user r hr
    | write st b offset heap user_fault w _ h0 h63 hlen hw ih =>
      exact dev_write_WF st ih b offset heap user_fault w h0 h63 hlen hw
    | ioctl st cmd new_size bad_user heap o _ ho ih =>
      exact dev_ioctl_WF st ih cmd new_size bad_user heap o ho
  exact ⟨hwf.2.1, hwf.2.2.1⟩

theorem high_water_within_capacity_witness :
    Reachable hello_store ∧ (0 : Int) ≤ hello_store.buffer_offset ∧
      hello_store.buffer_offset ≤ hello_store.buffer_size :=
  ⟨hello_store_reachable, high_water_within_capacity hello_store hello_store_reachable⟩

/-- C13: in a reachable state with high-water mark `h`, for a position
`p ≥ 0` and a signed 64-bit offset `o`, a seek whose computed target is not
negative returns the target and leaves `f_pos` at it: `o` for `SEEK_SET`,
`p + o` for `SEEK_CUR`, `h + o` for `SEEK_END` (relative to `buffer_offset`,
not to `buffer_size`).  The function only reads the globals. -/
theorem dev_llseek_sets_position (st : CharDev) (hst : Reachable st) (p o : Int)
    (hp0 : 0 ≤ p) (hp : p < 9223372036854775808)
    (ho0 : -9223372036854775808 ≤ o) (ho : o < 9223372036854775808) :
    (0 ≤ o → dev_llseek st p o SEEK_SET = { ret := o, f_pos := o }) ∧
    (0 ≤ toS64 (p + o) →
      dev_llseek st p o SEEK_CUR = { ret := p + o, f_pos := p + o }) ∧
    (0 ≤ toS64 (st.buffer_offset + o) →
      dev_llseek st p o SEEK_END =
        { ret := st.buffer_offset + o, f_pos := st.buffer_offset + o }) := by
  obtain ⟨-, hh0, hhc, hcb⟩ := reachable_WF st hst
  refine ⟨?_, ?_, ?_⟩
  · intro h
    unfold dev_llseek
    simp only [if_true]
    rw [if_neg (by omega)]
  · intro h
    have hv : toS64 (p + o) = p + o := by unfold toS64 at h ⊢; omega
    unfold dev_llseek
    rw [if_neg (by decide), if_pos rfl]
    simp only [hv]
    rw [if_neg (by omega)]
  · intro h
    have hv : toS64 (st.buffer_offset + o) = st.buffer_offset + o := by
      unfold toS64 at h ⊢; omega
    unfold dev_llseek
    rw [if_neg (by decide), if_neg (by decide), if_pos rfl]
    simp only [hv]
    rw [if_neg (by omega)]

theorem dev_llseek_sets_position_witness :
    Reachable hello_store ∧
      dev_llseek hello_store 0 0 SEEK_END = { ret := 5, f_pos := 5 } := by
  have h := (dev_llseek_sets_position hello_store hello_store_reachable 0 0 (le_refl 0)
    (by decide) (by decide) (by decide)).2.2 (by decide)
  exact ⟨hello_store_reachable, h⟩

/-- C14: in every state, for every position `p` and offset `o`, a seek whose
computed target is negative returns `-EINVAL` and leaves `f_pos` at `p`:
the target is `o` for `SEEK_SET`, `p + o` for `SEEK_CUR` and
`buffer_offset + o` for `SEEK_END`, computed as a `loff_t`. -/
theorem dev_llseek_negative_target (st : CharDev) (p o : Int) :
    (o < 0 → dev_llseek st p o SEEK_SET = { ret := -EINVAL, f_pos := p }) ∧
    (toS64 (p + o) < 0 → dev_llseek st p o SEEK_CUR = { ret := -EINVAL, f_pos := p }) ∧
    (toS64 (st.buffer_offset + o) < 0 →
      dev_llseek st p o SEEK_END = { ret := -EINVAL, f_pos := p }) := by
  refine ⟨?_, ?_, ?_⟩
  · intro h
    unfold dev_llseek
    simp only [if_true]
    rw [if_pos h]
  · intro h
    unfold dev_llseek
    rw [if_neg (by decide), if_pos rfl]
    simp only
    rw [if_pos h]
  · intro h
    unfold dev_llseek
    rw [if_neg (by decide), if_neg (by decide), if_pos rfl]
    simp only
    rw [if_pos h]

theorem dev_llseek_negative_target_witness :
    dev_llseek hello_store 5 (-6) SEEK_END = { ret := -22, f_pos := 5 } :=
  (dev_llseek_negative_target hello_store 5 (-6)).2.2 (by decide)

/-- The computed target of a seek is the mathematical sum when the position
is a non-negative `loff_t`, the offset a `loff_t` and the sum is negative. -/
theorem negative_target_no_wrap (p o : Int) (hp0 : 0 ≤ p) (hp : p < 9223372036854775808)
    (ho0 : -9223372036854775808 ≤ o) (hneg : p + o < 0) : toS64 (p + o) = p + o := by
  unfold toS64; omega

/-! ## Claims C15, C16, C17: reset and set_capacity -/

/-- The `memset` of `CHAR_RESET_BUFFER` in a state that satisfies the
invariant. -/
theorem reset_memset (st : CharDev) (hwf : st.WF) :
    mem_write st.device_buffer 0 (List.replicate (toU64 st.buffer_size).toNat 0) =
      some (List.replicate st.device_buffer.length 0) := by
  obtain ⟨hl, hh0, hhc, hcb⟩ := hwf
  have hn : (toU64 st.buffer_size).toNat = st.device_buffer.length := by
    unfold toU64; omega
  rw [hn, mem_write_inside _ 0 _ (le_refl 0) (by simp only [List.length_replicate]; omega)]
  simp only [Int.toNat_zero, List.take_zero, List.nil_append, List.length_replicate,
    Nat.zero_add, List.drop_length, List.append_nil]

/-- C15: in every reachable state, `CHAR_RESET_BUFFER` returns 0; afterwards
every byte of the buffer in `[0, buffer_size)` is zero and `buffer_offset` is
0, `buffer_size`, `read_count` and `write_count` are what they were, and
`CHAR_GET_STATS` reports `buffer_used = 0` with the counters of before. -/
theorem reset_clears_buffer_keeps_counters (st : CharDev) (hst : Reachable st)
    (new_size : Int) (bad_user : Bool) (heap : Option (Nat → Byte)) :
    ∃ o, dev_ioctl st IoctlCmd.CHAR_RESET_BUFFER new_size bad_user heap = some o ∧
      o.ret = 0 ∧
      (o.dev.device_buffer.length : Int) = o.dev.buffer_size ∧
      (∀ i : Nat, (i : Int) < o.dev.buffer_size → o.dev.device_buffer[i]? = some 0) ∧
      o.dev.buffer_offset = 0 ∧
      o.dev.buffer_size = st.buffer_size ∧
      o.dev.read_count = st.read_count ∧
      o.dev.write_count = st.write_count ∧
      dev_ioctl o.dev IoctlCmd.CHAR_GET_STATS new_size false heap =
        some { ret := 0, dev := o.dev, size_out := none
               stats_out := some { read_count := st.read_count
                                   write_count := st.write_count
                                   buffer_used := 0
                                   buffer_size := st.buffer_size } } := by
  have hwf := reachable_WF st hst
  have hm := reset_memset st hwf
  obtain ⟨hl, hh0, hhc, hcb⟩ := hwf
  refine ⟨{ ret := 0
            dev := { st with device_buffer := List.replicate st.device_buffer.length 0
                             buffer_offset := 0 }
            size_out := none, stats_out := none }, ?_, rfl, ?_, ?_, rfl, rfl, rfl, rfl, ?_⟩
  · unfold dev_ioctl
    simp only [hm]
  · show ((List.replicate st.device_buffer.length (0 : Byte)).length : Int) = st.buffer_size
    rw [List.length_replicate]; exact hl
  · intro i hi
    show (List.replicate st.device_buffer.length (0 : Byte))[i]? = some 0
    have hi' : i < st.device_buffer.length := by
      have : (i : Int) < st.buffer_size := hi
      omega
    rw [List.getElem?_replicate, if_pos hi']
  · unfold dev_ioctl
    simp only [Bool.false_eq_true, if_false]

theorem reset_clears_buffer_keeps_counters_witness :
    Reachable hello_store ∧
    ∃ o, dev_ioctl hello_store IoctlCmd.CHAR_RESET_BUFFER 0 false none = some o ∧
      o.ret = 0 ∧ o.dev.device_buffer[0]? = some 0 ∧ o.dev.buffer_offset = 0 ∧
      o.dev.buffer_size = 4096 ∧ o.dev.write_count = 1 := by
  obtain ⟨o, ho, hret, -, hz, hoff, hsz, -, hwc, -⟩ :=
    reset_clears_buffer_keeps_counters hello_store hello_store_reachable 0 false none
  refine ⟨hello_store_reachable, o, ho, hret, hz 0 ?_, hoff, ?_, ?_⟩
  · rw [hsz]; unfold hello_store; decide
  · rw [hsz]; rfl
  · rw [hwc]; rfl

/-- C16: in every state and for every requested size `n` read from the user,
`CHAR_SET_BUFFER_SIZE` returns `-EINVAL` if and only if `n < 1` or
`n > 65536`, and in that case the globals (buffer, `buffer_size`,
`buffer_offset`, both counters) are unchanged. -/
theorem set_buffer_size_invalid_iff (st : CharDev) (n : Int) (heap : Option (Nat → Byte)) :
    ∃ o, dev_ioctl st IoctlCmd.CHAR_SET_BUFFER_SIZE n false heap = some o ∧
      (o.ret = -EINVAL ↔ (n < 1 ∨ n > 65536)) ∧
      ((n < 1 ∨ n > 65536) → o.dev = st) := by
  unfold dev_ioctl
  simp only [Bool.false_eq_true, if_false]
  by_cases hr : n < 1 ∨ n > 65536
  · rw [if_pos hr]
    exact ⟨_, rfl, ⟨fun _ => hr, fun _ => rfl⟩, fun _ => rfl⟩
  · rw [if_neg hr]
    cases hk : krealloc st.device_buffer n heap with
    | none =>
      refine ⟨_, rfl, ⟨fun h => ?_, fun h => absurd h hr⟩, fun h => absurd h hr⟩
      have h' : -ENOMEM = -EINVAL := h
      exact absurd h' (by decide)
    | some nb =>
      refine ⟨_, rfl, ⟨fun h => ?_, fun h => absurd h hr⟩, fun h => absurd h hr⟩
      have h' : (0 : Int) = -EINVAL := h
      exact absurd h' (by decide)

/-- C17: in a reachable state with capacity `c` and high-water mark `h`, for
`1 ≤ n ≤ 65536`, a readable argument and an allocator that has memory,
`CHAR_SET_BUFFER_SIZE` returns 0; afterwards the buffer has `n` bytes and
`buffer_size = n`, the first `min(c, n)` bytes are the ones of before,
`buffer_offset = min(h, n)` and both counters are unchanged. -/
theorem set_buffer_size_resizes (st : CharDev) (hst : Reachable st) (n : Int)
    (junk : Nat → Byte) (h1 : 1 ≤ n) (h2 : n ≤ 65536) :
    ∃ o, dev_ioctl st IoctlCmd.CHAR_SET_BUFFER_SIZE n false (some junk) = some o ∧
      o.ret = 0 ∧
      o.dev.buffer_size = n ∧
      (o.dev.device_buffer.length : Int) = n ∧
      o.dev.device_buffer.take (min st.device_buffer.length n.toNat) =
        st.device_buffer.take (min st.device_buffer.length n.toNat) ∧
      o.dev.buffer_offset = min st.buffer_offset n ∧
      o.dev.read_count = st.read_count ∧
      o.dev.write_count = st.write_count := by
  obtain ⟨hl, hh0, hhc, hcb⟩ := reachable_WF st hst
  have hk := krealloc_eval st.device_buffer n junk (by omega)
  have hlen : ((st.device_buffer.take n.toNat ++
      (List.range (n.toNat - st.device_buffer.length)).map
        (fun i => junk (st.device_buffer.length + i))).length : Int) = n := by
    simp only [List.length_append, List.length_take, List.length_map, List.length_range]
    omega
  have hpre : (st.device_buffer.take n.toNat ++
      (List.range (n.toNat - st.device_buffer.length)).map
        (fun i => junk (st.device_buffer.length + i))).take
          (min st.device_buffer.length n.toNat) =
      st.device_buffer.take (min st.device_buffer.length n.toNat) := by
    rw [List.take_append_of_le_length (by rw [List.length_take]; omega), List.take_take]
    congr 1
    omega
  unfold dev_ioctl
  simp only [Bool.false_eq_true, if_false]
  rw [if_neg (by omega), hk]
  by_cases hgt : st.buffer_offset > n
  · simp only [hgt, if_true]
    exact ⟨_, rfl, rfl, rfl, hlen, hpre, by show n = min st.buffer_offset n; omega, rfl, rfl⟩
  · simp only [hgt, if_false]
    exact ⟨_, rfl, rfl, rfl, hlen, hpre,
      by show st.buffer_offset = min st.buffer_offset n; omega, rfl, rfl⟩

theorem set_buffer_size_resizes_witness :
    Reachable hello_store ∧ (1 : Int) ≤ 3 ∧ (3 : Int) ≤ 65536 ∧
    ∃ o, dev_ioctl hello_store IoctlCmd.CHAR_SET_BUFFER_SIZE 3 false (some (fun _ => 0)) =
        some o ∧
      o.ret = 0 ∧ o.dev.buffer_size = 3 ∧ o.dev.buffer_offset = 3 ∧ o.dev.write_count = 1 := by
  obtain ⟨o, ho, hret, hsz, -, -, hoff, -, hwc⟩ :=
    set_buffer_size_resizes hello_store hello_store_reachable 3 (fun _ => 0) (by decide)
      (by decide)
  refine ⟨hello_store_reachable, by decide, by decide, o, ho, hret, hsz, ?_, ?_⟩
  · rw [hoff]; unfold hello_store; decide
  · rw [hwc]; rfl

/-! ## Claim C11: bytes added by growth -/

theorem take_one_drop (l : List Byte) (n : Nat) (x : Byte) (h : l[n]? = some x) :
    (l.drop n).take 1 = [x] := by
  obtain ⟨hn, hx⟩ := List.getElem?_eq_some_iff.mp h
  rw [List.drop_eq_getElem_cons hn, hx]
  rfl

/-- A byte that `krealloc` added holds what the heap held. -/
theorem grown_buffer_new_byte (st : CharDev) (new_size : Int) (junk : Nat → Byte) (i : Nat)
    (hi : st.device_buffer.length ≤ i) (hlt : i < new_size.toNat) :
    (grown_buffer st new_size junk)[i]? = some (junk i) := by
  unfold grown_buffer
  rw [List.getElem?_append_right hi, List.getElem?_map, List.getElem?_range (by omega)]
  simp only [Option.map_some']
  congr 2
  omega

/-- A read of one byte below the high-water mark returns the byte of the
buffer at the position. -/
theorem dev_read_one_byte (st : CharDev) (hwf : st.WF) (offset : Int) (x : Byte)
    (h0 : 0 ≤ offset) (hlt : offset < st.buffer_offset)
    (hx : st.device_buffer[offset.toNat]? = some x) :
    dev_read st 1 offset false =
      some { ret := 1, data := [x]
             dev := { st with read_count := toS32 (st.read_count + 1) }
             pos := offset + 1 } := by
  rw [dev_read_below st hwf 1 offset h0 hlt]
  have hmin : min ((1 : Nat) : Int) (st.buffer_offset - offset) = 1 := by omega
  rw [hmin]
  have ht : List.take (1 : Int).toNat (List.drop offset.toNat st.device_buffer) = [x] :=
    take_one_drop st.device_buffer offset.toNat x hx
  rw [ht]

/-- The initial store after a write of the byte 1 at position 5000, with a
heap that holds `junk`. -/
theorem char_init_write_5000 (junk : Nat → Byte) :
    dev_write char_init [1] 5000 (some junk) none =
      some { ret := 1
             dev := { device_buffer :=
                        (grown_buffer char_init 8192 junk).take 5000 ++ [1] ++
                          (grown_buffer char_init 8192 junk).drop 5001
                      buffer_size := 8192
                      buffer_offset := 5001
                      read_count := 0
                      write_count := 1 }
             pos := 5001 } :=
  dev_write_grows char_init char_init_WF [1] 5000 junk (by decide)
    (by unfold char_init BUFFER_SIZE; decide) (by unfold char_init BUFFER_SIZE; decide)

/-- C11, evaluated at a failing input: on the initial store (capacity 4096),
with a heap that holds the bytes `junk`, a write of the byte 1 at position
5000 returns 1 and grows the buffer to 8192 bytes.  The added byte at index
4096, which the write does not overwrite, is `junk 4096` and not 0, and a
read of one byte at position 4096 returns it.  `CHAR_SET_BUFFER_SIZE` with
size 8192 leaves the same byte at index 4096. -/
theorem growth_exposes_heap_bytes (junk : Nat → Byte) :
    (∃ w, dev_write char_init [1] 5000 (some junk) none = some w ∧ w.ret = 1 ∧
      w.dev.buffer_size = 8192 ∧ w.dev.device_buffer[4096]? = some (junk 4096) ∧
      ∃ r, dev_read w.dev 1 4096 false = some r ∧ r.ret = 1 ∧ r.data = [junk 4096]) ∧
    (∃ o, dev_ioctl char_init IoctlCmd.CHAR_SET_BUFFER_SIZE 8192 false (some junk) = some o ∧
      o.ret = 0 ∧ o.dev.buffer_size = 8192 ∧
      o.dev.device_buffer[4096]? = some (junk 4096)) := by
  have hcl : char_init.device_buffer.length = 4096 := by
    show (List.replicate 4096 (0 : Byte)).length = 4096
    rw [List.length_replicate]
  have hg : (grown_buffer char_init 8192 junk)[4096]? = some (junk 4096) :=
    grown_buffer_new_byte char_init 8192 junk 4096 (by rw [hcl]) (by decide)
  have hgl : (grown_buffer char_init 8192 junk).length = 8192 := by
    unfold grown_buffer
    simp only [List.length_append, List.length_map, List.length_range, hcl]
    decide
  constructor
  · have hw := char_init_write_5000 junk
    have hb : ((grown_buffer char_init 8192 junk).take 5000 ++ [1] ++
        (grown_buffer char_init 8192 junk).drop 5001)[4096]? = some (junk 4096) := by
      rw [List.append_assoc,
        List.getElem?_append_left (by rw [List.length_take, hgl]; decide),
        List.getElem?_take_of_lt (by decide)]
      exact hg
    have hwf := dev_write_WF char_init char_init_WF [1] 5000 (some junk) none _ (by decide)
      (by decide) (by decide) hw
    have hr := dev_read_one_byte _ hwf 4096 (junk 4096) (by decide)
      (by show (4096 : Int) < 5001; decide) hb
    exact ⟨_, hw, rfl, rfl, hb, _, hr, rfl, rfl⟩
  · have hk := krealloc_eval char_init.device_buffer 8192 junk (by decide)
    rw [List.take_of_length_le (by rw [hcl]; decide)] at hk
    refine ⟨{ ret := 0
              dev := { char_init with device_buffer := grown_buffer char_init 8192 junk
                                      buffer_size := 8192 }
              size_out := none, stats_out := none }, ?_, rfl, rfl, hg⟩
    unfold dev_ioctl
    simp only [Bool.false_eq_true, if_false]
    rw [if_neg (by decide), hk]
    rfl

/-! ## Sector store: every segment of a completed request is copied -/

theorem mem_read_some (mem : List Byte) (off : Int) (n : Nat) (d : List Byte)
    (h : mem_read mem off n = some d) :
    d = (mem.drop off.toNat).take n ∧ d.length = n := by
  unfold mem_read at h
  by_cases hn : n = 0
  · rw [if_pos hn] at h
    have hd := (Option.some.inj h).symm
    subst hn
    rw [hd]
    exact ⟨by simp, rfl⟩
  · rw [if_neg hn] at h
    by_cases hin : 0 ≤ off ∧ off + n ≤ mem.length
    · rw [if_pos hin] at h
      have hd := (Option.some.inj h).symm
      refine ⟨hd, ?_⟩
      rw [hd, List.length_take, List.length_drop]
      omega
    · rw [if_neg hin] at h
      exact absurd h (by simp)

theorem rq_for_each_segment_cons (dir : Dir) (sector : Nat) (st st2 : BlockDev)
    (bvec : bio_vec) (rest out : List bio_vec)
    (h : rq_for_each_segment dir sector st (bvec :: rest) = some (st2, out)) :
    ∃ st1 bvec1 done, copy_segment dir sector st bvec = some (st1, bvec1) ∧
      rq_for_each_segment dir sector st1 rest = some (st2, done) ∧ out = bvec1 :: done := by
  rw [rq_for_each_segment] at h
  cases hc : copy_segment dir sector st bvec with
  | none => rw [hc] at h; exact absurd h (by simp)
  | some r =>
    obtain ⟨st1, bvec1⟩ := r
    rw [hc] at h
    simp only at h
    cases hr : rq_for_each_segment dir sector st1 rest with
    | none => rw [hr] at h; exact absurd h (by simp)
    | some r2 =>
      obtain ⟨st2', done⟩ := r2
      rw [hr] at h
      simp only [Option.some.injEq, Prod.mk.injEq] at h
      obtain ⟨h1, h2⟩ := h
      subst h1
      exact ⟨st1, bvec1, done, rfl, hr, h2.symm⟩

theorem copy_segment_read_some (sector : Nat) (st st1 : BlockDev) (bvec bvec1 : bio_vec)
    (h : copy_segment Dir.READ sector st bvec = some (st1, bvec1)) :
    st1.device_data = st.device_data ∧ st1.device_sectors = st.device_sectors ∧
    st1.write_ops = st.write_ops ∧
    st1.read_ops = (st.read_ops + 1) % 18446744073709551616 ∧
    bvec1 = { bvec with
              buffer := (st.device_data.drop
                (device_offset sector bvec)).take
                  bvec.bv_len } ∧
    bvec1.buffer.length = bvec.bv_len := by
  unfold copy_segment at h
  simp only at h
  cases hm : mem_read st.device_data
      ((device_offset sector bvec : Nat) : Int)
      bvec.bv_len with
  | none => rw [hm] at h; exact absurd h (by simp)
  | some d =>
    rw [hm] at h
    simp only [Option.some.injEq, Prod.mk.injEq] at h
    obtain ⟨hd, hl⟩ := mem_read_some _ _ _ _ hm
    rw [Int.toNat_ofNat] at hd
    obtain ⟨h1, h2⟩ := h
    subst h1
    subst h2
    exact ⟨rfl, rfl, rfl, rfl, by rw [hd], hl⟩

theorem copy_segment_write_some (sector : Nat) (st st1 : BlockDev) (bvec bvec1 : bio_vec)
    (h : copy_segment Dir.WRITE sector st bvec = some (st1, bvec1)) :
    bvec1 = bvec ∧ st1.device_sectors = st.device_sectors ∧ st1.read_ops = st.read_ops ∧
    st1.write_ops = (st.write_ops + 1) % 18446744073709551616 ∧
    st1.device_data.length = st.device_data.length ∧
    (st1.device_data.drop
      (device_offset sector bvec)).take bvec.bv_len =
      bvec.buffer := by
  unfold copy_segment at h
  simp only at h
  cases hm : mem_write st.device_data
      ((device_offset sector bvec : Nat) : Int)
      bvec.buffer with
  | none => rw [hm] at h; exact absurd h (by simp)
  | some d =>
    rw [hm] at h
    simp only [Option.some.injEq, Prod.mk.injEq] at h
    obtain ⟨h1, h2⟩ := h
    subst h1
    subst h2
    refine ⟨rfl, rfl, rfl, rfl, mem_write_length _ _ _ _ hm, ?_⟩
    show (d.drop _).take bvec.buffer.length = bvec.buffer
    rcases mem_write_some _ _ _ _ hm with ⟨hz, -⟩ | ⟨-, hle, hd⟩
    · rw [hz, List.take_zero]
      exact (List.length_eq_zero.mp hz).symm
    · rw [hd, Int.toNat_ofNat]
      exact drop_take_of_stored _ _ _ (by omega)

/-- A read loop that completes leaves the data as it was and fills every
segment with `bv_len` bytes of the store. -/
theorem rq_for_each_segment_read (sector : Nat) (segs : List bio_vec) :
    ∀ (st st1 : BlockDev) (out : List bio_vec),
      rq_for_each_segment Dir.READ sector st segs = some (st1, out) →
      st1.device_data = st.device_data ∧
      out = segs.map (fun v => { v with
        buffer := (st.device_data.drop
          (device_offset sector v)).take v.bv_len }) ∧
      ((out.map bio_vec.buffer).flatten).length = (segs.map bio_vec.bv_len).sum := by
  induction segs with
  | nil =>
    intro st st1 out h
    rw [rq_for_each_segment] at h
    simp only [Option.some.injEq, Prod.mk.injEq] at h
    obtain ⟨h1, h2⟩ := h
    subst h1
    subst h2
    exact ⟨rfl, rfl, rfl⟩
  | cons v rest ih =>
    intro st st2 out h
    obtain ⟨st1, v1, done, hc, hr, hout⟩ := rq_for_each_segment_cons _ _ _ _ _ _ _ h
    obtain ⟨hd, -, -, -, hv1, hl1⟩ := copy_segment_read_some _ _ _ _ _ hc
    obtain ⟨hd2, hdone, hlen⟩ := ih st1 st2 done hr
    refine ⟨by rw [hd2, hd], ?_, ?_⟩
    · rw [hout, hdone, hv1, hd]
      rfl
    · rw [hout]
      simp only [List.map_cons, List.flatten_cons, List.length_append, List.sum_cons]
      rw [hlen, hl1]

/-- A write loop that completes leaves the caller's segments as they were,
and right after the copy of any of its segments the store holds the bytes of
that segment at the address the copy used. -/
theorem rq_for_each_segment_write (sector : Nat) (pre : List bio_vec) :
    ∀ (st st1 : BlockDev) (v : bio_vec) (post out : List bio_vec),
      rq_for_each_segment Dir.WRITE sector st (pre ++ v :: post) = some (st1, out) →
      out = pre ++ v :: post ∧
      ∃ mid, rq_for_each_segment Dir.WRITE sector st (pre ++ [v]) = some (mid, pre ++ [v]) ∧
        (mid.device_data.drop
          (device_offset sector v)).take v.bv_len =
          v.buffer := by
  have hall : ∀ (segs : List bio_vec) (st st1 : BlockDev) (out : List bio_vec),
      rq_for_each_segment Dir.WRITE sector st segs = some (st1, out) → out = segs := by
    intro segs
    induction segs with
    | nil =>
      intro st st1 out h
      rw [rq_for_each_segment] at h
      simp only [Option.some.injEq, Prod.mk.injEq] at h
      exact h.2.symm
    | cons u rest ih =>
      intro st st2 out h
      obtain ⟨st1, u1, done, hc, hr, hout⟩ := rq_for_each_segment_cons _ _ _ _ _ _ _ h
      obtain ⟨hu, -⟩ := copy_segment_write_some _ _ _ _ _ hc
      rw [hout, hu, ih st1 st2 done hr]
  induction pre with
  | nil =>
    intro st st2 v post out h
    refine ⟨hall _ _ _ _ h, ?_⟩
    obtain ⟨st1, v1, done, hc, hr, hout⟩ := rq_for_each_segment_cons _ _ _ _ _ _ _ h
    obtain ⟨hv, -, -, -, -, hstored⟩ := copy_segment_write_some _ _ _ _ _ hc
    subst hv
    refine ⟨st1, ?_, hstored⟩
    simp only [List.nil_append, rq_for_each_segment, hc]
  | cons u pre ih =>
    intro st st2 v post out h
    refine ⟨hall _ _ _ _ h, ?_⟩
    obtain ⟨st1, u1, done, hc, hr, hout⟩ :=
      rq_for_each_segment_cons _ _ _ _ _ _ _ (by simpa using h)
    obtain ⟨hu, -⟩ := copy_segment_write_some _ _ _ _ _ hc
    subst hu
    obtain ⟨-, mid, hmid, hstored⟩ := ih st1 st2 v post done hr
    refine ⟨mid, ?_, hstored⟩
    rw [List.cons_append, rq_for_each_segment, hc]
    dsimp only
    rw [hmid]

theorem flatten_buffers_length (segs : List bio_vec) :
    ((segs.map bio_vec.buffer).flatten).length = (segs.map bio_vec.bv_len).sum := by
  induction segs with
  | nil => rfl
  | cons v rest ih =>
    simp only [List.map_cons, List.flatten_cons, List.length_append, List.sum_cons, ih]
    rfl

/-- A request without segments that passes the bound check. -/
theorem handle_request_no_segments (st : BlockDev) (dir : Dir) (pos : Nat)
    (hpos : pos ≤ st.device_sectors) (h64 : pos < 18446744073709551616) :
    handle_request st { cmd_type_fs := true, dir := dir, pos := pos, segments := [] } =
      some (st, { error := 0, segments := [] }) := by
  have hlim : beyond_device_limits st pos
      (blk_rq_bytes { cmd_type_fs := true, dir := dir, pos := pos, segments := [] }) =
      false := by
    unfold beyond_device_limits blk_rq_bytes SECTOR_SIZE
    simp only [List.map_nil, List.sum_nil, Nat.zero_div, Nat.add_zero, Nat.mod_eq_of_lt h64,
      decide_eq_false_iff_not]
    omega
  unfold handle_request
  simp only [hlim, Bool.not_true, Bool.false_eq_true, if_false, rq_for_each_segment]

/-! ## Sector store: rejected requests -/

/-- A filesystem request that fails the bound check. -/
theorem handle_request_rejected (st : BlockDev) (req : request)
    (hfs : req.cmd_type_fs = true)
    (hlim : beyond_device_limits st req.pos (blk_rq_bytes req) = true) :
    handle_request st req = some (st, { error := - EIO, segments := req.segments }) := by
  unfold handle_request
  simp only [hfs, Bool.not_true, Bool.false_eq_true, if_false, hlim, if_true]

/-! ## Claims C26 and C27: the mutex -/

theorem guard_after_append (a b : List Event) :
    ∀ held : Bool,
      guard_after held (a ++ b) = (guard_after held a).bind (fun h => guard_after h b) := by
  induction a with
  | nil => intro held; rfl
  | cons e es ih =>
    intro held
    cases e with
    | mutex_lock =>
      cases held with
      | true => rfl
      | false => exact ih true
    | mutex_unlock =>
      cases held with
      | true => exact ih false
      | false => rfl
    | touch => exact ih held

/-- The segments of a request keep the mutex as it is. -/
theorem guard_after_segments (segs : List bio_vec) (held : Bool) :
    guard_after held ((segs.map (fun _ => [Event.touch, Event.touch])).flatten) =
      some held := by
  induction segs with
  | nil => rfl
  | cons v rest ih => exact ih

theorem handle_request_events_guard (st : BlockDev) (req : request) :
    guard_after false (handle_request_events st req) = some false := by
  unfold handle_request_events
  by_cases hfs : req.cmd_type_fs = true
  · simp only [hfs, Bool.not_true, Bool.false_eq_true, if_false]
    by_cases hlim : beyond_device_limits st req.pos (blk_rq_bytes req) = true
    · simp only [hlim, if_true, List.cons_append, List.nil_append, guard_after,
        Bool.false_eq_true, if_false]
    · simp only [hlim, if_false]
      show guard_after true ((req.segments.map (fun _ => [Event.touch, Event.touch])).flatten ++
        [Event.mutex_unlock]) = some false
      rw [guard_after_append, guard_after_segments]
      rfl
  · have hfs' : req.cmd_type_fs = false := by
      cases hb : req.cmd_type_fs with
      | true => exact absurd hb hfs
      | false => rfl
    simp only [hfs', Bool.not_false, if_true, guard_after]

/-- C27: with the mutex as a held/free flag, every function of the stream
store (`dev_read`, `dev_write`, `dev_llseek`, every command of `dev_ioctl`)
and every queue of requests processed by `simple_block_request`, started with
the mutex free, ends with the mutex free on every path (empty read, copy
fault, allocation failure, invalid argument, invalid `whence`, request beyond
the device), and never locks the mutex while it holds it nor unlocks it
while it is free. -/
theorem guard_released_on_every_path :
    (∀ (st : CharDev) (len : Nat) (offset : Int) (bad_user : Bool),
      guard_after false (dev_read_events st len offset bad_user) = some false) ∧
    (∀ (st : CharDev) (b : List Byte) (offset : Int) (heap : Option (Nat → Byte))
        (user_fault : Option Nat),
      guard_after false (dev_write_events st b offset heap user_fault) = some false) ∧
    (∀ (st : CharDev) (f_pos offset whence : Int),
      guard_after false (dev_llseek_events st f_pos offset whence) = some false) ∧
    (∀ (st : CharDev) (cmd : IoctlCmd) (new_size : Int) (bad_user : Bool)
        (heap : Option (Nat → Byte)),
      guard_after false (dev_ioctl_events st cmd new_size bad_user heap) = some false) ∧
    (∀ (st : BlockDev) (q : List request),
      guard_after false (simple_block_request_events st q) = some false) := by
  refine ⟨?_, ?_, ?_, ?_, ?_⟩
  · intro st len offset bad_user
    unfold dev_read_events
    split
    · rfl
    · split <;> rfl
  · intro st b offset heap user_fault
    unfold dev_write_events
    dsimp only
    by_cases hg : toU64 (offset + (b.length : Int)) > toU64 st.buffer_size
    · simp only [hg, decide_True, if_true]
      split
      · rfl
      · split
        · rfl
        · split <;> rfl
    · simp only [hg, decide_False, Bool.false_eq_true, if_false]
      split
      · rfl
      · split
        · rfl
        · split <;> rfl
  · intro st f_pos offset whence
    unfold dev_llseek_events
    dsimp only
    split
    · split <;> rfl
    · split
      · split <;> rfl
      · split
        · split <;> rfl
        · rfl
  · intro st cmd new_size bad_user heap
    unfold dev_ioctl_events
    cases cmd with
    | CHAR_GET_SIZE => rfl
    | CHAR_RESET_BUFFER => rfl
    | CHAR_GET_STATS => rfl
    | other => rfl
    | CHAR_SET_BUFFER_SIZE =>
      dsimp only
      split
      · rfl
      · split
        · rfl
        · split
          · rfl
          · split <;> rfl
  · intro st q
    unfold simple_block_request_events
    induction q with
    | nil => rfl
    | cons r rest ih =>
      simp only [List.map_cons, List.flatten_cons, guard_after_append,
        handle_request_events_guard, Option.some_bind]
      exact ih

theorem touches_held_segments (segs : List bio_vec) (tail : List Event)
    (h : touches_held true tail = true) :
    touches_held true
      ((segs.map (fun _ => [Event.touch, Event.touch])).flatten ++ tail) = true := by
  induction segs with
  | nil => exact h
  | cons v rest ih =>
    show (true && (true && touches_held true
      ((rest.map (fun _ => [Event.touch, Event.touch])).flatten ++ tail))) = true
    rw [ih]
    rfl

/-- The functions that do hold the mutex whenever they touch store state:
`dev_read`, `dev_write`, `dev_llseek`, every command of `dev_ioctl` other than
`CHAR_GET_SIZE`, and the request loop of `simple_block.c`. -/
theorem touches_held_where_locked :
    (∀ (st : CharDev) (len : Nat) (offset : Int) (bad_user : Bool),
      touches_held false (dev_read_events st len offset bad_user) = true) ∧
    (∀ (st : CharDev) (b : List Byte) (offset : Int) (heap : Option (Nat → Byte))
        (user_fault : Option Nat),
      touches_held false (dev_write_events st b offset heap user_fault) = true) ∧
    (∀ (st : CharDev) (f_pos offset whence : Int),
      touches_held false (dev_llseek_events st f_pos offset whence) = true) ∧
    (∀ (st : CharDev) (cmd : IoctlCmd) (new_size : Int) (bad_user : Bool)
        (heap : Option (Nat → Byte)), cmd ≠ IoctlCmd.CHAR_GET_SIZE →
      touches_held false (dev_ioctl_events st cmd new_size bad_user heap) = true) ∧
    (∀ (st : BlockDev) (req : request),
      touches_held false (handle_request_events st req) = true) := by
  refine ⟨?_, ?_, ?_, ?_, ?_⟩
  · intro st len offset bad_user
    unfold dev_read_events
    split
    · rfl
    · split <;> rfl
  · intro st b offset heap user_fault
    unfold dev_write_events
    dsimp only
    by_cases hg : toU64 (offset + (b.length : Int)) > toU64 st.buffer_size
    · simp only [hg, decide_True, if_true]
      split
      · rfl
      · split
        · rfl
        · split <;> rfl
    · simp only [hg, decide_False, Bool.false_eq_true, if_false]
      split
      · rfl
      · split
        · rfl
        · split <;> rfl
  · intro st f_pos offset whence
    unfold dev_llseek_events
    dsimp only
    split
    · split <;> rfl
    · split
      · split <;> rfl
      · split
        · split <;> rfl
        · rfl
  · intro st cmd new_size bad_user heap hcmd
    unfold dev_ioctl_events
    cases cmd with
    | CHAR_GET_SIZE => exact absurd rfl hcmd
    | CHAR_RESET_BUFFER => rfl
    | CHAR_GET_STATS => rfl
    | other => rfl
    | CHAR_SET_BUFFER_SIZE =>
      dsimp only
      split
      · rfl
      · split
        · rfl
        · split
          · rfl
          · split <;> rfl
  · intro st req
    unfold handle_request_events
    split
    · rfl
    · split
      · rfl
      · exact touches_held_segments req.segments [Event.mutex_unlock] rfl

/-- C26, evaluated at failing inputs: `CHAR_GET_SIZE` reads `buffer_size`
while the mutex is free (it never locks), both size queries of `block_ioctl`
read `device_sectors` while the mutex is free, and the request loop of
`simple_block01.c` copies a segment with no mutex at all. -/
theorem size_queries_touch_without_mutex :
    dev_ioctl_events char_init IoctlCmd.CHAR_GET_SIZE 0 false none = [Event.touch] ∧
    touches_held false (dev_ioctl_events char_init IoctlCmd.CHAR_GET_SIZE 0 false none) =
      false ∧
    touches_held false (block_ioctl_events BlockIoctlCmd.BLKGETSIZE) = false ∧
    touches_held false (block_ioctl_events BlockIoctlCmd.BLKGETSIZE64) = false ∧
    touches_held false
      (simple_block01_request_events
        { cmd_type_fs := true, dir := Dir.READ, pos := 0
          segments := [page_of 0] }) = false := by
  refine ⟨rfl, rfl, rfl, rfl, ?_⟩
  have hbytes : blk_rq_bytes
      { cmd_type_fs := true, dir := Dir.READ, pos := 0, segments := [page_of 0] } = 4096 := by
    simp only [blk_rq_bytes, bio_vec.bv_len, page_of, List.map_cons, List.map_nil,
      List.sum_cons, List.sum_nil, List.length_replicate, Nat.add_zero]
  unfold simple_block01_request_events
  rw [hbytes]
  rfl

/-! ## Claims C21, C24, C29: allocation failure, statistics, memory bounds -/

/-- C21: in every reachable state, for a write at a position `offset ≥ 0`
that needs growth (`offset + len(b) > buffer_size`), if `krealloc` fails for
the new size the code asks for, `dev_write` returns `-ENOMEM`, and the globals
(buffer, `buffer_size`, `buffer_offset`, `read_count`, `write_count`) and the
caller's position are exactly as before. -/
theorem dev_write_enomem_keeps_state (st : CharDev) (hst : Reachable st) (b : List Byte)
    (offset : Int) (heap : Option (Nat → Byte)) (user_fault : Option Nat)
    (h0 : 0 ≤ offset) (h63 : offset < 9223372036854775808)
    (hlen : b.length < 2147483648)
    (hgrow : st.buffer_size < offset + b.length)
    (hfail : krealloc st.device_buffer
      (toS32 (max (toU64 (toS32 (st.buffer_size * 2))) (toU64 (offset + b.length)))) heap =
      none) :
    dev_write st b offset heap user_fault =
      some { ret := -ENOMEM, dev := st, pos := offset } := by
  obtain ⟨hl, hh0, hhc, hcb⟩ := reachable_WF st hst
  have hres : dev_write_resize st b.length offset heap = none := by
    unfold dev_write_resize
    rw [if_pos (by unfold toU64; omega)]
    simp only [hfail]
  unfold dev_write
  simp only [hres]

theorem dev_write_enomem_keeps_state_witness :
    Reachable hello_store ∧
      dev_write hello_store [1] 4096 none none =
        some { ret := -12, dev := hello_store, pos := 4096 } :=
  ⟨hello_store_reachable,
    dev_write_enomem_keeps_state hello_store hello_store_reachable [1] 4096 none none
      (by decide) (by decide) (by decide) (by unfold hello_store; decide) rfl⟩

/-- C24: in every state, `CHAR_GET_STATS` with a writable argument returns 0
and the record `{read_count, write_count, buffer_used = buffer_offset,
buffer_size}` of the current state, and on every path (also when the copy
to the user faults) it leaves the globals as they are. -/
theorem get_stats_reports_state (st : CharDev) (new_size : Int)
    (heap : Option (Nat → Byte)) :
    dev_ioctl st IoctlCmd.CHAR_GET_STATS new_size false heap =
      some { ret := 0, dev := st, size_out := none
             stats_out := some { read_count := st.read_count
                                 write_count := st.write_count
                                 buffer_used := st.buffer_offset
                                 buffer_size := st.buffer_size } } ∧
    ∀ bad_user : Bool,
      ∃ o, dev_ioctl st IoctlCmd.CHAR_GET_STATS new_size bad_user heap = some o ∧
        o.dev = st := by
  constructor
  · unfold dev_ioctl
    simp only [Bool.false_eq_true, if_false]
  · intro bad_user
    unfold dev_ioctl
    cases bad_user with
    | true => exact ⟨_, rfl, rfl⟩
    | false => exact ⟨_, rfl, rfl⟩

theorem get_stats_reports_state_witness :
    dev_ioctl hello_store IoctlCmd.CHAR_GET_STATS 0 false none =
      some { ret := 0, dev := hello_store, size_out := none
             stats_out := some { read_count := 0, write_count := 1
                                 buffer_used := 5, buffer_size := 4096 } } :=
  (get_stats_reports_state hello_store 0 none).1

/-- In a reachable state every `dev_read` at a position `offset ≥ 0` copies
from inside the buffer: the call is defined. -/
theorem dev_read_inside_buffer (st : CharDev) (hst : Reachable st) (len : Nat)
    (offset : Int) (bad_user : Bool) (h0 : 0 ≤ offset) :
    ∃ r, dev_read st len offset bad_user = some r := by
  have hwf := reachable_WF st hst
  by_cases hge : offset ≥ st.buffer_offset
  · unfold dev_read
    rw [if_pos hge]
    exact ⟨_, rfl⟩
  · cases bad_user with
    | false => exact ⟨_, dev_read_below st hwf len offset h0 (by omega)⟩
    | true =>
      have hcp : ∀ n : Int, copy_to_user st.device_buffer offset n true = UserCopy.fault ∨
          copy_to_user st.device_buffer offset n true = UserCopy.copied [] := by
        intro n
        unfold copy_to_user
        by_cases h1 : n < 0
        · left; rw [if_pos h1]
        · by_cases h2 : n = 0
          · right; rw [if_neg h1, if_pos h2]
          · left; rw [if_neg h1, if_neg h2, if_pos rfl]
      unfold dev_read
      rw [if_neg hge]
      dsimp only
      rcases hcp (toS32 (min (len : Int) (toU64 (st.buffer_offset - offset)))) with h | h
      · rw [h]; exact ⟨_, rfl⟩
      · rw [h]; exact ⟨_, rfl⟩

/-- C29, evaluated at a failing input: on the initial store (capacity 4096) a
write of the three bytes 1, 2, 3 at position `2^32 + 100`, with an allocator
that has memory.  The resize block stores `max(8192, 2^32 + 103)` in the
`int new_size`, which is 103, the buffer is reallocated to 103 bytes and
`buffer_size` is 103; the copy then writes the indices `2^32 + 100` to
`2^32 + 102` of `device_buffer`, none of them below 103. -/
theorem dev_write_indices_leave_buffer (junk : Nat → Byte) :
    (∃ st1, dev_write_resize char_init 3 4294967396 (some junk) = some st1 ∧
      st1.buffer_size = 103 ∧ st1.device_buffer.length = 103) ∧
    ¬ ((4294967396 : Int) < 103) ∧
    dev_write char_init [1, 2, 3] 4294967396 (some junk) none = none := by
  refine ⟨?_, by decide, ?_⟩
  · have hc : char_init.buffer_size = 4096 := rfl
    have hb : char_init.device_buffer = List.replicate 4096 0 := rfl
    have hns : toS32 (max (toU64 (toS32 (char_init.buffer_size * 2)))
        (toU64 (4294967396 + ((3 : Nat) : Int)))) = 103 := by
      rw [hc]; decide
    have hk := krealloc_eval char_init.device_buffer 103 junk (by decide)
    refine ⟨{ char_init with
              device_buffer := char_init.device_buffer.take (103 : Int).toNat ++
                (List.range ((103 : Int).toNat - char_init.device_buffer.length)).map
                  (fun i => junk (char_init.device_buffer.length + i))
              buffer_size := 103 }, ?_, rfl, ?_⟩
    · unfold dev_write_resize
      rw [if_pos (by rw [hc]; decide)]
      simp only [hns, hk]
    · show (char_init.device_buffer.take (103 : Int).toNat ++
        (List.range ((103 : Int).toNat - char_init.device_buffer.length)).map
          (fun i => junk (char_init.device_buffer.length + i))).length = 103
      rw [hb]
      simp only [List.length_append, List.length_take, List.length_map, List.length_range,
        List.length_replicate]
      decide
  · exact dev_write_wild char_init char_init_WF [1, 2, 3] 4294967396 junk (by decide)
      (by decide) (by decide) (by decide) (by unfold char_init BUFFER_SIZE; decide) 103
      (by unfold char_init BUFFER_SIZE; decide) (by decide) (by decide)

/-! ## Claim C30: the caller's position -/

theorem copy_to_user_copied (dev : List Byte) (off n : Int) (bad_user : Bool)
    (d : List Byte) (h : copy_to_user dev off n bad_user = UserCopy.copied d) :
    0 ≤ n ∧ (d.length : Int) = n := by
  unfold copy_to_user at h
  by_cases h1 : n < 0
  · rw [if_pos h1] at h; exact absurd h (by simp)
  · rw [if_neg h1] at h
    by_cases h2 : n = 0
    · rw [if_pos h2] at h
      simp only [UserCopy.copied.injEq] at h
      subst h
      exact ⟨by omega, by simp [h2]⟩
    · rw [if_neg h2] at h
      cases bad_user with
      | true => simp at h
      | false =>
        simp only [Bool.false_eq_true, if_false] at h
        cases hm : mem_read dev off n.toNat with
        | none => rw [hm] at h; exact absurd h (by simp)
        | some d1 =>
          rw [hm] at h
          simp only [UserCopy.copied.injEq] at h
          subst h
          obtain ⟨-, hl⟩ := mem_read_some _ _ _ _ hm
          exact ⟨by omega, by rw [hl]; omega⟩

/-- The position after a `dev_read`. -/
theorem dev_read_position (st : CharDev) (hwf : st.WF) (len : Nat) (offset : Int)
    (bad_user : Bool) (r : ReadOut) (h0 : 0 ≤ offset)
    (hr : dev_read st len offset bad_user = some r) :
    (0 ≤ r.ret → r.pos = offset + r.ret ∧ (r.data.length : Int) = r.ret) ∧
    (r.ret < 0 → r.pos = offset) := by
  obtain ⟨hl, hh0, hhc, hcb⟩ := hwf
  unfold dev_read at hr
  by_cases hge : offset ≥ st.buffer_offset
  · rw [if_pos hge] at hr
    simp only [Option.some.injEq] at hr
    subst hr
    exact ⟨fun _ => ⟨by simp, rfl⟩, fun _ => rfl⟩
  · rw [if_neg hge] at hr
    dsimp only at hr
    have hbtr : toS32 (min (len : Int) (toU64 (st.buffer_offset - offset))) =
        min (len : Int) (st.buffer_offset - offset) := by
      unfold toS32 toU64; omega
    rw [hbtr] at hr
    cases hc : copy_to_user st.device_buffer offset
        (min (len : Int) (st.buffer_offset - offset)) bad_user with
    | out_of_bounds => rw [hc] at hr; exact absurd hr (by simp)
    | fault =>
      rw [hc] at hr
      simp only [Option.some.injEq] at hr
      subst hr
      refine ⟨fun h => ?_, fun _ => rfl⟩
      have h' : (0 : Int) ≤ -EFAULT := h
      exact absurd h' (by decide)
    | copied d =>
      rw [hc] at hr
      simp only [Option.some.injEq] at hr
      subst hr
      obtain ⟨hn0, hdl⟩ := copy_to_user_copied _ _ _ _ _ hc
      refine ⟨fun _ => ⟨?_, hdl⟩, fun h => ?_⟩
      · show toS64 (offset + min (len : Int) (st.buffer_offset - offset)) =
          offset + min (len : Int) (st.buffer_offset - offset)
        unfold toS64; omega
      · have h' : min (len : Int) (st.buffer_offset - offset) < 0 := h
        omega

/-- The position after a `dev_write`. -/
theorem dev_write_position (st : CharDev) (hwf : st.WF) (b : List Byte) (offset : Int)
    (heap : Option (Nat → Byte)) (user_fault : Option Nat) (w : WriteOut)
    (h0 : 0 ≤ offset) (h63 : offset < 9223372036854775808)
    (hlen : b.length < 2147483648)
    (hw : dev_write st b offset heap user_fault = some w) :
    (0 ≤ w.ret → w.pos = offset + w.ret ∧ w.ret = b.length) ∧
    (w.ret < 0 → w.pos = offset) := by
  constructor
  · intro hret
    by_cases hb : b.length = 0
    · obtain ⟨st1, d, -, -, hret1, hpos, -⟩ :=
        dev_write_returns_count st b offset heap user_fault w hw hret
      have hz : w.ret = 0 := by
        rw [hret1, hb]
        unfold toS32 toU64; omega
      rw [hpos, hz, hb]
      exact ⟨by unfold toS64; omega, rfl⟩
    · obtain ⟨hr, hp, -⟩ :=
        dev_write_stores st hwf b offset heap user_fault w h0 h63 (by omega) hlen hw hret
      rw [hp, hr]
      exact ⟨rfl, rfl⟩
  · intro hneg
    unfold dev_write at hw
    dsimp only at hw
    cases hr : dev_write_resize st b.length offset heap with
    | none =>
      rw [hr] at hw
      simp only [Option.some.injEq] at hw
      subst hw
      rfl
    | some st1 =>
      rw [hr] at hw
      simp only at hw
      cases hc : copy_from_user st1.device_buffer offset b
          (toS32 (min (b.length : Int) (toU64 (st1.buffer_size - offset)))) user_fault with
      | out_of_bounds => rw [hc] at hw; exact absurd hw (by simp)
      | fault d =>
        rw [hc] at hw
        simp only [Option.some.injEq] at hw
        subst hw
        rfl
      | copied d =>
        rw [hc] at hw
        simp only [Option.some.injEq] at hw
        subst hw
        obtain ⟨hn0, -⟩ := copy_from_user_copied _ _ _ _ _ _ hc
        have hneg' : toS32 (min (b.length : Int) (toU64 (st1.buffer_size - offset))) < 0 :=
          hneg
        omega

/-- Successive reads of `len ≥ 1` bytes from a position `pos` below or at the
high-water mark `h` deliver `device_buffer[pos, h)`, when the caller makes at
least `h - pos` calls. -/
theorem successive_reads_from (len : Nat) (hlen : 0 < len) (buf : List Byte) (h : Int) :
    ∀ (count : Nat) (st : CharDev) (pos : Int), st.WF → st.device_buffer = buf →
      st.buffer_offset = h → 0 ≤ pos → pos ≤ h → h - pos ≤ count →
      successive_reads len count st pos =
        some ((buf.drop pos.toNat).take (h - pos).toNat) := by
  intro count
  induction count with
  | zero =>
    intro st pos hwf hb hh hp0 hph hc
    have : (h - pos).toNat = 0 := by omega
    rw [this, List.take_zero]
    rfl
  | succ k ih =>
    intro st pos hwf hb hh hp0 hph hc
    by_cases hend : pos ≥ st.buffer_offset
    · have hr : dev_read st len pos false =
          some { ret := 0, data := [], dev := st, pos := pos } := by
        unfold dev_read
        rw [if_pos hend]
      have : (h - pos).toNat = 0 := by omega
      rw [this, List.take_zero, successive_reads, hr]
      rfl
    · have hr := dev_read_below st hwf len pos hp0 (by omega)
      have hn1 : 0 < min (len : Int) (st.buffer_offset - pos) := by omega
      have hwf' : CharDev.WF { st with read_count := toS32 (st.read_count + 1) } := hwf
      have hrest := ih { st with read_count := toS32 (st.read_count + 1) }
        (pos + min (len : Int) (st.buffer_offset - pos)) hwf' hb hh (by omega) (by omega)
        (by omega)
      rw [successive_reads, hr]
      dsimp only
      rw [if_neg (by omega), hrest]
      dsimp only
      rw [hb]
      congr 1
      have e1 : (pos + min (len : Int) (st.buffer_offset - pos)).toNat =
          pos.toNat + (min (len : Int) (st.buffer_offset - pos)).toNat := by omega
      have e2 : (h - pos).toNat = (min (len : Int) (st.buffer_offset - pos)).toNat +
          (h - (pos + min (len : Int) (st.buffer_offset - pos))).toNat := by omega
      rw [e1, e2, List.take_add, List.drop_drop]

/-- C30: in every reachable state and for every position `p ≥ 0` (a
`loff_t`): a `dev_read` that returns `n ≥ 0` delivers `n` bytes and leaves the
position at `p + n` (an empty read at `p`), and one that fails leaves it at
`p`; a `dev_write` that returns a count returns `n = len(b)` and leaves the
position at `p + n`, and one that fails leaves it at `p`; hence a caller that
reads `len ≥ 1` bytes at a time from position 0, at least `buffer_offset`
times, receives exactly `device_buffer[0, buffer_offset)`, in order. -/
theorem position_follows_transfers (st : CharDev) (hst : Reachable st) (p : Int)
    (h0 : 0 ≤ p) (h63 : p < 9223372036854775808) :
    (∀ (len : Nat) (bad_user : Bool) (r : ReadOut),
      dev_read st len p bad_user = some r →
      (0 ≤ r.ret → r.pos = p + r.ret ∧ (r.data.length : Int) = r.ret) ∧
      (r.ret < 0 → r.pos = p)) ∧
    (∀ (b : List Byte) (heap : Option (Nat → Byte)) (user_fault : Option Nat)
        (w : WriteOut), b.length < 2147483648 →
      dev_write st b p heap user_fault = some w →
      (0 ≤ w.ret → w.pos = p + w.ret ∧ w.ret = b.length) ∧
      (w.ret < 0 → w.pos = p)) ∧
    (∀ (len count : Nat), 0 < len → st.buffer_offset ≤ count →
      successive_reads len count st 0 =
        some (st.device_buffer.take st.buffer_offset.toNat)) := by
  have hwf := reachable_WF st hst
  refine ⟨?_, ?_, ?_⟩
  · intro len bad_user r hr
    exact dev_read_position st hwf len p bad_user r h0 hr
  · intro b heap user_fault w hlen hw
    exact dev_write_position st hwf b p heap user_fault w h0 h63 hlen hw
  · intro len count hlen hcount
    have h := successive_reads_from len hlen st.device_buffer st.buffer_offset count st 0
      hwf rfl rfl (le_refl 0) hwf.2.1 (by omega)
    rw [h]
    simp only [Int.toNat_zero, List.drop_zero, sub_zero]

theorem position_follows_transfers_witness :
    Reachable hello_store ∧ (0 : Int) ≤ 0 ∧
      successive_reads 2 5 hello_store 0 = some [104, 101, 108, 108, 111] := by
  have h := (position_follows_transfers hello_store hello_store_reachable 0 (le_refl 0)
    (by decide)).2.2 2 5 (by decide) (by unfold hello_store; decide)
  refine ⟨hello_store_reachable, le_refl 0, ?_⟩
  rw [h]
  rfl

/-! ## Claims C22 and C28: the initial sector store and its bounds -/

/-- C22 as stated fails: right after `block_init` the first byte of the data
region is 61 (the `=` that starts the welcome message), so not every byte is
zero. -/
theorem block_init_not_all_zero :
    ¬ (∀ i : Nat, i < block_init.device_data.length →
      block_init.device_data[i]? = some 0) := by
  intro h
  have h0 := h 0 (by rw [block_init_length]; decide)
  rw [block_init_first] at h0
  exact absurd h0 (by decide)

/-- C22, amended: right after `block_init` the data region has
`device_sectors * SECTOR_SIZE` bytes, its first 117 bytes are the welcome
message that `block_init` copies there, and every other byte is zero. -/
theorem block_init_message_then_zeros :
    block_init.device_data.length = block_init.device_sectors * SECTOR_SIZE ∧
    init_msg.length = 117 ∧
    block_init.device_data.take 117 = init_msg ∧
    ∀ i : Nat, 117 ≤ i → i < block_init.device_data.length →
      block_init.device_data[i]? = some 0 := by
  refine ⟨?_, init_msg_length, ?_, ?_⟩
  · rw [block_init_length, block_init_sectors]
    rfl
  · unfold block_init
    exact List.take_left' init_msg_length
  · intro i hi hlt
    rw [block_init_length] at hlt
    unfold block_init
    rw [List.getElem?_append_right (by rw [init_msg_length]; exact hi), init_msg_length,
      List.getElem?_replicate, if_pos]
    unfold DEFAULT_SECTORS SECTOR_SIZE
    omega

/-- C28, evaluated at a failing input: on the initial store of 2048 sectors a
read request of one sector at sector 2047, the last one, with one segment of
512 bytes at offset 3584 of its page (`bv_offset + bv_len` is the page size
4096).  The bound check accepts it, and the copy reads the device bytes from
`2047 * 512 + 3584`, past the `2048 * 512` bytes of the store. -/
theorem last_sector_copy_leaves_store :
    beyond_device_limits block_init 2047 512 = false ∧
    (3584 : Nat) + 512 ≤ 4096 ∧
    block_init.device_sectors * SECTOR_SIZE < 2047 * SECTOR_SIZE + 3584 + 512 ∧
    handle_request block_init
      { cmd_type_fs := true, dir := Dir.READ, pos := 2047
        segments := [{ bv_offset := 3584, buffer := List.replicate 512 0 }] } = none := by
  have hlim : beyond_device_limits block_init 2047 512 = false := by
    unfold beyond_device_limits
    rw [block_init_sectors]
    decide
  refine ⟨hlim, by decide, by rw [block_init_sectors]; decide, ?_⟩
  have hBl : (List.replicate 512 (0 : Byte)).length = 512 := List.length_replicate _ _
  generalize List.replicate 512 (0 : Byte) = B at hBl ⊢
  have hbytes : blk_rq_bytes
      { cmd_type_fs := true, dir := Dir.READ, pos := 2047
        segments := [{ bv_offset := 3584, buffer := B }] } = 512 := by
    simp only [blk_rq_bytes, bio_vec.bv_len, List.map_cons, List.map_nil, List.sum_cons,
      List.sum_nil, hBl, Nat.add_zero]
  have hoff : device_offset 2047 { bv_offset := 3584, buffer := B } = 1051648 :=
    device_offset_of_fits 2047 { bv_offset := 3584, buffer := B }
      (by show 2047 * SECTOR_SIZE + 3584 < 18446744073709551616; decide)
  have hseg := copy_segment_outside Dir.READ block_init 2047
    { bv_offset := 3584, buffer := B }
    (by simp only [hBl]; decide)
    (by simp only [hBl, block_init_length, hoff]; decide)
  exact handle_request_outside block_init Dir.READ 2047
    { bv_offset := 3584, buffer := B } [] (by rw [hbytes]; exact hlim) hseg

/-! ## Sector store: requests of one segment -/

theorem blk_rq_bytes_one (fs : Bool) (dir : Dir) (pos : Nat) (bvec : bio_vec) :
    blk_rq_bytes { cmd_type_fs := fs, dir := dir, pos := pos, segments := [bvec] } =
      bvec.buffer.length := by
  simp only [blk_rq_bytes, bio_vec.bv_len, List.map_cons, List.map_nil, List.sum_cons,
    List.sum_nil, Nat.add_zero]

/-- A write request of one segment that passes the bound check and stays
inside the store. -/
theorem write_one_segment (st : BlockDev) (pos : Nat) (bvec : bio_vec)
    (hs : pos * SECTOR_SIZE + bvec.bv_offset < 18446744073709551616)
    (hin : pos * SECTOR_SIZE + bvec.bv_offset + bvec.buffer.length ≤ st.device_data.length)
    (hlim : beyond_device_limits st pos bvec.buffer.length = false) :
    handle_request st
        { cmd_type_fs := true, dir := Dir.WRITE, pos := pos, segments := [bvec] } =
      some ({ st with
              device_data :=
                st.device_data.take (pos * SECTOR_SIZE + bvec.bv_offset) ++ bvec.buffer ++
                  st.device_data.drop (pos * SECTOR_SIZE + bvec.bv_offset + bvec.buffer.length)
              write_ops := (st.write_ops + 1) % 18446744073709551616 },
            { error := 0, segments := [bvec] }) := by
  have h1 := copy_segment_write st pos bvec hs hin
  unfold handle_request
  simp only [blk_rq_bytes_one, hlim, Bool.not_true, Bool.false_eq_true, if_false,
    rq_for_each_segment, h1]

/-- A read request of one segment that passes the bound check and stays
inside the store. -/
theorem read_one_segment (st : BlockDev) (pos : Nat) (bvec : bio_vec)
    (hs : pos * SECTOR_SIZE + bvec.bv_offset < 18446744073709551616)
    (hin : pos * SECTOR_SIZE + bvec.bv_offset + bvec.buffer.length ≤ st.device_data.length)
    (hlim : beyond_device_limits st pos bvec.buffer.length = false) :
    handle_request st
        { cmd_type_fs := true, dir := Dir.READ, pos := pos, segments := [bvec] } =
      some ({ st with read_ops := (st.read_ops + 1) % 18446744073709551616 },
            { error := 0
              segments := [{ bvec with
                buffer := (st.device_data.drop (pos * SECTOR_SIZE + bvec.bv_offset)).take
                  bvec.buffer.length }] }) := by
  have h1 := copy_segment_read st pos bvec hs hin
  unfold handle_request
  simp only [blk_rq_bytes_one, hlim, Bool.not_true, Bool.false_eq_true, if_false,
    rq_for_each_segment, h1]

/-- What a request that completes with error 0 went through. -/
theorem handle_request_accepted (st : BlockDev) (req : request) (st1 : BlockDev)
    (c : completion) (h : handle_request st req = some (st1, c)) (he : c.error = 0) :
    req.cmd_type_fs = true ∧
    beyond_device_limits st req.pos (blk_rq_bytes req) = false ∧
    rq_for_each_segment req.dir req.pos st req.segments = some (st1, c.segments) := by
  unfold handle_request at h
  by_cases hfs : req.cmd_type_fs = true
  · simp only [hfs, Bool.not_true, Bool.false_eq_true, if_false] at h
    by_cases hlim : beyond_device_limits st req.pos (blk_rq_bytes req) = true
    · rw [if_pos hlim] at h
      simp only [Option.some.injEq, Prod.mk.injEq] at h
      obtain ⟨-, h2⟩ := h
      subst h2
      have he' : - EIO = (0 : Int) := he
      exact absurd he' (by decide)
    · rw [if_neg hlim] at h
      have hlim' : beyond_device_limits st req.pos (blk_rq_bytes req) = false := by
        cases hb : beyond_device_limits st req.pos (blk_rq_bytes req) with
        | true => exact absurd hb hlim
        | false => rfl
      cases hr : rq_for_each_segment req.dir req.pos st req.segments with
      | none => rw [hr] at h; exact absurd h (by simp)
      | some r =>
        obtain ⟨st2, segs⟩ := r
        rw [hr] at h
        simp only [Option.some.injEq, Prod.mk.injEq] at h
        obtain ⟨h1, h2⟩ := h
        subst h1
        subst h2
        exact ⟨hfs, hlim', rfl⟩
  · have hfs' : req.cmd_type_fs = false := by
      cases hb : req.cmd_type_fs with
      | true => exact absurd hb hfs
      | false => rfl
    simp only [hfs', Bool.not_false, if_true, Option.some.injEq, Prod.mk.injEq] at h
    obtain ⟨-, h2⟩ := h
    subst h2
    have he' : - EIO = (0 : Int) := he
    exact absurd he' (by decide)

/-- A segment loop that completes hands back as many bytes as the segments
hold. -/
theorem rq_for_each_segment_bytes (dir : Dir) (sector : Nat) (segs : List bio_vec) :
    ∀ (st st1 : BlockDev) (out : List bio_vec),
      rq_for_each_segment dir sector st segs = some (st1, out) →
      ((out.map bio_vec.buffer).flatten).length = (segs.map bio_vec.bv_len).sum := by
  induction segs with
  | nil =>
    intro st st1 out h
    rw [rq_for_each_segment] at h
    simp only [Option.some.injEq, Prod.mk.injEq] at h
    rw [← h.2]
    rfl
  | cons v rest ih =>
    intro st st2 out h
    obtain ⟨st1, v1, done, hc, hr, hout⟩ := rq_for_each_segment_cons _ _ _ _ _ _ _ h
    have hv : v1.buffer.length = v.bv_len := by
      cases dir with
      | READ => exact (copy_segment_read_some _ _ _ _ _ hc).2.2.2.2.2
      | WRITE => rw [(copy_segment_write_some _ _ _ _ _ hc).1]; rfl
    rw [hout]
    simp only [List.map_cons, List.flatten_cons, List.length_append, List.sum_cons]
    rw [ih st1 st2 done hr, hv]

/-! ## Claim C25: writers to disjoint sector ranges -/

theorem simple_block_request_cons (st st1 st2 : BlockDev) (req : request) (q : List request)
    (c : completion) (cs : List completion)
    (h1 : handle_request st req = some (st1, c))
    (h2 : simple_block_request st1 q = some (st2, cs)) :
    simple_block_request st (req :: q) = some (st2, c :: cs) := by
  simp only [simple_block_request, h1, h2]

/-- A one-sector write of one segment: where the 512 bytes land. -/
theorem write_sector_lands (st : BlockDev) (pos off : Nat) (P : List Byte)
    (hP : P.length = 512) (hs : pos * SECTOR_SIZE + off < 18446744073709551616)
    (hin : pos * SECTOR_SIZE + off + 512 ≤ st.device_data.length)
    (hcap : pos + 1 ≤ st.device_sectors) (hpos : pos + 1 < 18446744073709551616) :
    ∃ st1 c,
      handle_request st
        { cmd_type_fs := true, dir := Dir.WRITE, pos := pos
          segments := [{ bv_offset := off, buffer := P }] } = some (st1, c) ∧
      c.error = 0 ∧ st1.device_sectors = st.device_sectors ∧
      st1.device_data =
        st.device_data.take (pos * SECTOR_SIZE + off) ++ P ++
          st.device_data.drop (pos * SECTOR_SIZE + off + 512) := by
  have hw := write_one_segment st pos { bv_offset := off, buffer := P } hs
    (by simp only [hP]; exact hin)
    (by
      show beyond_device_limits st pos P.length = false
      rw [hP]
      unfold beyond_device_limits SECTOR_SIZE
      simp only [decide_eq_false_iff_not]
      omega)
  simp only [hP] at hw
  exact ⟨_, _, hw, rfl, rfl, rfl⟩

/-- A one-sector read of one segment: which 512 bytes it hands back. -/
theorem read_sector_fetches (st : BlockDev) (pos off : Nat) (Z : List Byte)
    (hZ : Z.length = 512) (hs : pos * SECTOR_SIZE + off < 18446744073709551616)
    (hin : pos * SECTOR_SIZE + off + 512 ≤ st.device_data.length)
    (hcap : pos + 1 ≤ st.device_sectors) (hpos : pos + 1 < 18446744073709551616) :
    ∃ st1 c,
      handle_request st
        { cmd_type_fs := true, dir := Dir.READ, pos := pos
          segments := [{ bv_offset := off, buffer := Z }] } = some (st1, c) ∧
      c.error = 0 ∧ st1.device_sectors = st.device_sectors ∧
      st1.device_data = st.device_data ∧
      c.bytes = (st.device_data.drop (pos * SECTOR_SIZE + off)).take 512 := by
  have hr := read_one_segment st pos { bv_offset := off, buffer := Z } hs
    (by simp only [hZ]; exact hin)
    (by
      show beyond_device_limits st pos Z.length = false
      rw [hZ]
      unfold beyond_device_limits SECTOR_SIZE
      simp only [decide_eq_false_iff_not]
      omega)
  simp only [hZ] at hr
  refine ⟨_, _, hr, rfl, rfl, rfl, ?_⟩
  simp only [completion.bytes, List.map_cons, List.map_nil, List.flatten_cons,
    List.flatten_nil, List.append_nil]

/-- Two one-sector writers, `first` at sector `p` with its bytes at offset
`o` of its page and `second` at sector `q`, followed by reads of sector 1 and
of sector 2: the queue runs to the end with error 0 everywhere, and the two
reads hand back bytes 512.. and 1024.. of the store the writers left. -/
theorem two_writers_then_reads (st : BlockDev) (p o q r : Nat) (P Q Z1 Z2 : List Byte)
    (hP : P.length = 512) (hQ : Q.length = 512) (hZ1 : Z1.length = 512)
    (hZ2 : Z2.length = 512) (hlen : 1536 ≤ st.device_data.length)
    (hcap : 3 ≤ st.device_sectors)
    (hp : p * SECTOR_SIZE + o = 1024) (hq : q * SECTOR_SIZE + r = 1024)
    (hp2 : p ≤ 2) (hq2 : q ≤ 2) :
    ∃ st4 c1 c2 c3 c4,
      simple_block_request st
        [{ cmd_type_fs := true, dir := Dir.WRITE, pos := p
           segments := [{ bv_offset := o, buffer := P }] },
         { cmd_type_fs := true, dir := Dir.WRITE, pos := q
           segments := [{ bv_offset := r, buffer := Q }] },
         { cmd_type_fs := true, dir := Dir.READ, pos := 1
           segments := [{ bv_offset := 0, buffer := Z1 }] },
         { cmd_type_fs := true, dir := Dir.READ, pos := 2
           segments := [{ bv_offset := 0, buffer := Z2 }] }] =
        some (st4, [c1, c2, c3, c4]) ∧
      c1.error = 0 ∧ c2.error = 0 ∧ c3.error = 0 ∧ c4.error = 0 ∧
      c3.bytes = (st.device_data.drop 512).take 512 ∧ c4.bytes = Q := by
  have hps : p * SECTOR_SIZE + o < 18446744073709551616 := by omega
  have hqs : q * SECTOR_SIZE + r < 18446744073709551616 := by omega
  obtain ⟨st1, c1, h1, e1, s1, d1⟩ := write_sector_lands st p o P hP hps
    (by omega) (by omega) (by omega)
  rw [hp] at d1
  have l1 : st1.device_data.length = st.device_data.length := by
    rw [d1]
    simp only [List.length_append, List.length_take, List.length_drop, hP]
    omega
  obtain ⟨st2, c2, h2, e2, s2, d2⟩ := write_sector_lands st1 q r Q hQ hqs
    (by omega) (by omega) (by omega)
  rw [hq] at d2
  have l2 : st2.device_data.length = st.device_data.length := by
    rw [d2]
    simp only [List.length_append, List.length_take, List.length_drop, hQ]
    omega
  obtain ⟨st3, c3, h3, e3, s3, d3, b3⟩ := read_sector_fetches st2 1 0 Z1 hZ1
    (by decide) (by unfold SECTOR_SIZE; omega) (by omega) (by decide)
  obtain ⟨st4, c4, h4, e4, s4, d4, b4⟩ := read_sector_fetches st3 2 0 Z2 hZ2
    (by decide) (by rw [d3]; unfold SECTOR_SIZE; omega) (by omega) (by decide)
  have hchain := simple_block_request_cons _ _ _ _ _ _ _ h1
    (simple_block_request_cons _ _ _ _ _ _ _ h2
      (simple_block_request_cons _ _ _ _ _ _ _ h3
        (simple_block_request_one _ _ _ _ h4)))
  refine ⟨st4, c1, c2, c3, c4, hchain, e1, e2, e3, e4, ?_, ?_⟩
  · rw [b3]
    show (st2.device_data.drop 512).take 512 = (st.device_data.drop 512).take 512
    have t1 : (st.device_data.take 1024).length = 1024 := by
      rw [List.length_take]; omega
    have t2 : (st1.device_data.take 1024).length = 1024 := by
      rw [List.length_take]; omega
    have k1 : st1.device_data.take 1024 = st.device_data.take 1024 := by
      rw [d1, List.append_assoc, List.take_left' t1]
    have k2 : st2.device_data.take 1024 = st.device_data.take 1024 := by
      rw [d2, List.append_assoc, List.take_left' t2, k1]
    have e : ∀ D : List Byte, (D.drop 512).take 512 = (D.take 1024).drop 512 := by
      intro D
      rw [List.drop_take]
    rw [e, e, k2]
  · rw [b4, d3]
    show (st2.device_data.drop 1024).take 512 = Q
    have t2 : (st1.device_data.take 1024).length = 1024 := by
      rw [List.length_take]; omega
    rw [d2, List.append_assoc, List.drop_left' t2, List.take_left' hQ]

theorem block_init_at_512 : block_init.device_data[512]? = some 0 := by
  unfold block_init
  rw [List.getElem?_append_right (by rw [init_msg_length]; decide), init_msg_length,
    List.getElem?_replicate]
  decide

/-- C25, evaluated at a failing input: on the initial store of 2048 sectors,
two writers to the disjoint one-sector ranges `[1, 2)` and `[2, 3)`.  Writer A
sends 512 bytes 65 for sector 1 in a segment at offset 512 of its page; writer
B sends 512 bytes 66 for sector 2 in a segment at offset 0.  After both, sector
1 and sector 2 are read back (segments at offset 0).  Every request completes
with error 0.  In the order A, B the read-back of A's range does not hold A's
bytes (its first byte is 0, what the store held before), and in the order B, A
the read-back of B's range is A's 512 bytes 65, not B's bytes 66: A's bytes
were copied to `device_data + 1 * 512 + 512`, which is sector 2. -/
theorem disjoint_writers_cross_ranges :
    1 + 1 ≤ 2 ∧ 2 + 1 ≤ block_init.device_sectors ∧
    (∃ st c1 c2 c3 c4,
      simple_block_request block_init
        [{ cmd_type_fs := true, dir := Dir.WRITE, pos := 1
           segments := [{ bv_offset := 512, buffer := List.replicate 512 65 }] },
         { cmd_type_fs := true, dir := Dir.WRITE, pos := 2
           segments := [{ bv_offset := 0, buffer := List.replicate 512 66 }] },
         { cmd_type_fs := true, dir := Dir.READ, pos := 1
           segments := [{ bv_offset := 0, buffer := List.replicate 512 0 }] },
         { cmd_type_fs := true, dir := Dir.READ, pos := 2
           segments := [{ bv_offset := 0, buffer := List.replicate 512 0 }] }] =
        some (st, [c1, c2, c3, c4]) ∧
      c1.error = 0 ∧ c2.error = 0 ∧ c3.error = 0 ∧ c4.error = 0 ∧
      c3.bytes.head? = some 0 ∧ c3.bytes ≠ List.replicate 512 65) ∧
    (∃ st c1 c2 c3 c4,
      simple_block_request block_init
        [{ cmd_type_fs := true, dir := Dir.WRITE, pos := 2
           segments := [{ bv_offset := 0, buffer := List.replicate 512 66 }] },
         { cmd_type_fs := true, dir := Dir.WRITE, pos := 1
           segments := [{ bv_offset := 512, buffer := List.replicate 512 65 }] },
         { cmd_type_fs := true, dir := Dir.READ, pos := 1
           segments := [{ bv_offset := 0, buffer := List.replicate 512 0 }] },
         { cmd_type_fs := true, dir := Dir.READ, pos := 2
           segments := [{ bv_offset := 0, buffer := List.replicate 512 0 }] }] =
        some (st, [c1, c2, c3, c4]) ∧
      c1.error = 0 ∧ c2.error = 0 ∧ c3.error = 0 ∧ c4.error = 0 ∧
      c4.bytes = List.replicate 512 65 ∧ c4.bytes ≠ List.replicate 512 66) := by
  have hA : (List.replicate 512 (65 : Byte)).length = 512 := List.length_replicate _ _
  have hA0 : (List.replicate 512 (65 : Byte)).head? = some 65 := by
    rw [List.head?_replicate]; rfl
  have hB : (List.replicate 512 (66 : Byte)).length = 512 := List.length_replicate _ _
  have hB0 : (List.replicate 512 (66 : Byte)).head? = some 66 := by
    rw [List.head?_replicate]; rfl
  have hZ : (List.replicate 512 (0 : Byte)).length = 512 := List.length_replicate _ _
  generalize List.replicate 512 (65 : Byte) = A at hA hA0 ⊢
  generalize List.replicate 512 (66 : Byte) = B at hB hB0 ⊢
  generalize List.replicate 512 (0 : Byte) = Z at hZ ⊢
  have hl : 1536 ≤ block_init.device_data.length := by rw [block_init_length]; decide
  have hc : 3 ≤ block_init.device_sectors := by rw [block_init_sectors]; decide
  have hold : ((block_init.device_data.drop 512).take 512).head? = some 0 := by
    rw [List.head?_take, if_neg (by decide), List.head?_drop]
    exact block_init_at_512
  refine ⟨by decide, hc, ?_, ?_⟩
  · obtain ⟨st, c1, c2, c3, c4, h, e1, e2, e3, e4, b3, -⟩ :=
      two_writers_then_reads block_init 1 512 2 0 A B Z Z hA hB hZ hZ hl hc
        (by decide) (by decide) (by decide) (by decide)
    refine ⟨st, c1, c2, c3, c4, h, e1, e2, e3, e4, by rw [b3]; exact hold, ?_⟩
    intro hbad
    rw [b3] at hbad
    have := congrArg List.head? hbad
    rw [hold, hA0] at this
    exact absurd this (by decide)
  · obtain ⟨st, c1, c2, c3, c4, h, e1, e2, e3, e4, -, b4⟩ :=
      two_writers_then_reads block_init 2 0 1 512 B A Z Z hB hA hZ hZ hl hc
        (by decide) (by decide) (by decide) (by decide)
    refine ⟨st, c1, c2, c3, c4, h, e1, e2, e3, e4, b4, ?_⟩
    intro hbad
    rw [b4] at hbad
    have := congrArg List.head? hbad
    rw [hA0, hB0] at this
    exact absurd this (by decide)

/-! ## Sector store: requests whose copies stay inside the store -/

theorem stored_length (d buf : List Byte) (a : Nat)
    (h : buf.length = 0 ∨ a + buf.length ≤ d.length) :
    (d.take a ++ buf ++ d.drop (a + buf.length)).length = d.length := by
  simp only [List.length_append, List.length_take, List.length_drop]
  omega

/-- One segment of a read whose copy stays inside the store. -/
theorem copy_segment_read_inside (sector : Nat) (st : BlockDev) (v : bio_vec)
    (hin : v.bv_len = 0 ∨ device_offset sector v + v.bv_len ≤ st.device_data.length) :
    copy_segment Dir.READ sector st v =
      some ({ st with read_ops := (st.read_ops + 1) % 18446744073709551616 },
            { v with
              buffer := (st.device_data.drop (device_offset sector v)).take v.bv_len }) := by
  unfold copy_segment
  dsimp only
  unfold mem_read
  by_cases hz : v.bv_len = 0
  · rw [if_pos hz, hz, List.take_zero]
  · rw [if_neg hz, if_pos ⟨by omega, by omega⟩, Int.toNat_ofNat]

/-- One segment of a write whose copy stays inside the store. -/
theorem copy_segment_write_inside (sector : Nat) (st : BlockDev) (v : bio_vec)
    (hin : v.bv_len = 0 ∨ device_offset sector v + v.bv_len ≤ st.device_data.length) :
    copy_segment Dir.WRITE sector st v =
      some ({ st with
              device_data :=
                st.device_data.take (device_offset sector v) ++ v.buffer ++
                  st.device_data.drop (device_offset sector v + v.bv_len)
              write_ops := (st.write_ops + 1) % 18446744073709551616 }, v) := by
  unfold bio_vec.bv_len at hin
  unfold copy_segment
  dsimp only
  unfold mem_write bio_vec.bv_len
  by_cases hz : v.buffer.length = 0
  · have hnil : v.buffer = [] := List.length_eq_zero.mp hz
    rw [if_pos hz, hnil]
    simp only [List.length_nil, List.append_nil, Nat.add_zero, List.take_append_drop]
  · rw [if_neg hz, if_pos ⟨by omega, by omega⟩, Int.toNat_ofNat]

/-- A counter after `n` increments, each wrapping at `2^64`. -/
theorem bump_iterate (n : Nat) :
    ∀ c : Nat, c < 18446744073709551616 →
      (fun k : Nat => (k + 1) % 18446744073709551616)^[n] c =
        (c + n) % 18446744073709551616 := by
  induction n with
  | zero =>
    intro c hc
    rw [Function.iterate_zero, id_eq, Nat.add_zero, Nat.mod_eq_of_lt hc]
  | succ n ih =>
    intro c _
    rw [Function.iterate_succ_apply, ih _ (Nat.mod_lt _ (by decide))]
    omega

/-- The read loop over segments whose copies all stay inside the store:
every segment receives its `bv_len` bytes of the store and `read_ops` is
incremented once per segment. -/
theorem rq_for_each_segment_read_inside (sector : Nat) (segs : List bio_vec) :
    ∀ st : BlockDev,
      (∀ v ∈ segs,
        v.bv_len = 0 ∨ device_offset sector v + v.bv_len ≤ st.device_data.length) →
      rq_for_each_segment Dir.READ sector st segs =
        some ({ st with
                read_ops :=
                  (fun k : Nat => (k + 1) % 18446744073709551616)^[segs.length]
                    st.read_ops },
              segs.map (fun v => { v with
                buffer := (st.device_data.drop (device_offset sector v)).take v.bv_len })) := by
  induction segs with
  | nil =>
    intro st _
    rw [rq_for_each_segment]
    rfl
  | cons u rest ih =>
    intro st hin
    have hu := hin u (List.mem_cons_self u rest)
    have hrest := ih { st with read_ops := (st.read_ops + 1) % 18446744073709551616 }
      (fun v hv => hin v (List.mem_cons_of_mem u hv))
    rw [rq_for_each_segment, copy_segment_read_inside sector st u hu]
    dsimp only
    rw [hrest]
    simp only [List.length_cons, List.map_cons, Function.iterate_succ_apply]

/-- The write loop over segments whose copies all stay inside the store:
the segments are stored one after the other, each in full, and `write_ops`
is incremented once per segment. -/
theorem rq_for_each_segment_write_inside (sector : Nat) (segs : List bio_vec) :
    ∀ st : BlockDev,
      (∀ v ∈ segs,
        v.bv_len = 0 ∨ device_offset sector v + v.bv_len ≤ st.device_data.length) →
      rq_for_each_segment Dir.WRITE sector st segs =
        some ({ st with
                device_data := segs.foldl (fun d v =>
                  d.take (device_offset sector v) ++ v.buffer ++
                    d.drop (device_offset sector v + v.bv_len)) st.device_data
                write_ops :=
                  (fun k : Nat => (k + 1) % 18446744073709551616)^[segs.length]
                    st.write_ops },
              segs) := by
  induction segs with
  | nil =>
    intro st _
    rw [rq_for_each_segment]
    rfl
  | cons u rest ih =>
    intro st hin
    have hu := hin u (List.mem_cons_self u rest)
    have hlen : (st.device_data.take (device_offset sector u) ++ u.buffer ++
        st.device_data.drop (device_offset sector u + u.bv_len)).length =
        st.device_data.length := stored_length _ _ _ hu
    have hrest := ih
      { st with
        device_data :=
          st.device_data.take (device_offset sector u) ++ u.buffer ++
            st.device_data.drop (device_offset sector u + u.bv_len)
        write_ops := (st.write_ops + 1) % 18446744073709551616 }
      (fun v hv => by
        show v.bv_len = 0 ∨ device_offset sector v + v.bv_len ≤
          (st.device_data.take (device_offset sector u) ++ u.buffer ++
            st.device_data.drop (device_offset sector u + u.bv_len)).length
        rw [hlen]
        exact hin v (List.mem_cons_of_mem u hv))
    rw [rq_for_each_segment, copy_segment_write_inside sector st u hu]
    dsimp only
    rw [hrest]
    simp only [List.length_cons, List.foldl_cons, Function.iterate_succ_apply]

/-- The store keeps its size over a write loop that stays inside it. -/
theorem foldl_stored_length (sector : Nat) (segs : List bio_vec) :
    ∀ d : List Byte,
      (∀ v ∈ segs, v.bv_len = 0 ∨ device_offset sector v + v.bv_len ≤ d.length) →
      (segs.foldl (fun d v =>
        d.take (device_offset sector v) ++ v.buffer ++
          d.drop (device_offset sector v + v.bv_len)) d).length = d.length := by
  induction segs with
  | nil => intro d _; rfl
  | cons u rest ih =>
    intro d hin
    have hlen : (d.take (device_offset sector u) ++ u.buffer ++
        d.drop (device_offset sector u + u.bv_len)).length = d.length :=
      stored_length _ _ _ (hin u (List.mem_cons_self u rest))
    rw [List.foldl_cons, ih _ (fun v hv => by
      rw [hlen]; exact hin v (List.mem_cons_of_mem u hv)), hlen]

/-- The loop has no result as soon as the copy of one segment leaves the
store. -/
theorem rq_for_each_segment_leaves_store (dir : Dir) (sector : Nat) (segs : List bio_vec) :
    ∀ st : BlockDev,
      (∃ v ∈ segs, 0 < v.bv_len ∧
        st.device_data.length < device_offset sector v + v.bv_len) →
      rq_for_each_segment dir sector st segs = none := by
  induction segs with
  | nil =>
    intro st h
    obtain ⟨v, hv, -⟩ := h
    exact absurd hv (List.not_mem_nil v)
  | cons u rest ih =>
    intro st h
    obtain ⟨v, hv, hpos, hout⟩ := h
    by_cases hu : u.bv_len = 0 ∨ device_offset sector u + u.bv_len ≤ st.device_data.length
    · have hvr : v ∈ rest := by
        rcases List.mem_cons.mp hv with h1 | h1
        · subst h1
          omega
        · exact h1
      cases dir with
      | READ =>
        rw [rq_for_each_segment, copy_segment_read_inside sector st u hu]
        dsimp only
        rw [ih { st with read_ops := (st.read_ops + 1) % 18446744073709551616 }
          ⟨v, hvr, hpos, hout⟩]
      | WRITE =>
        have hlen : (st.device_data.take (device_offset sector u) ++ u.buffer ++
            st.device_data.drop (device_offset sector u + u.bv_len)).length =
            st.device_data.length := stored_length _ _ _ hu
        rw [rq_for_each_segment, copy_segment_write_inside sector st u hu]
        dsimp only
        rw [ih
          { st with
            device_data :=
              st.device_data.take (device_offset sector u) ++ u.buffer ++
                st.device_data.drop (device_offset sector u + u.bv_len)
            write_ops := (st.write_ops + 1) % 18446744073709551616 }
          ⟨v, hvr, hpos, by
            show (st.device_data.take (device_offset sector u) ++ u.buffer ++
              st.device_data.drop (device_offset sector u + u.bv_len)).length < _
            rw [hlen]
            exact hout⟩]
    · have hu1 : 0 < u.buffer.length := by
        unfold bio_vec.bv_len at hu
        omega
      have hu2 : st.device_data.length < device_offset sector u + u.buffer.length := by
        unfold bio_vec.bv_len at hu
        omega
      rw [rq_for_each_segment, copy_segment_outside dir st sector u hu1 hu2]

/-- A read request that passes both checks and whose copies stay inside the
store. -/
theorem handle_request_read_inside (st : BlockDev) (req : request)
    (hfs : req.cmd_type_fs = true) (hdir : req.dir = Dir.READ)
    (hlim : beyond_device_limits st req.pos (blk_rq_bytes req) = false)
    (hin : ∀ v ∈ req.segments,
      v.bv_len = 0 ∨ device_offset req.pos v + v.bv_len ≤ st.device_data.length) :
    handle_request st req =
      some ({ st with
              read_ops :=
                (fun k : Nat => (k + 1) % 18446744073709551616)^[req.segments.length]
                  st.read_ops },
            { error := 0
              segments := req.segments.map (fun v => { v with
                buffer :=
                  (st.device_data.drop (device_offset req.pos v)).take v.bv_len }) }) := by
  unfold handle_request
  simp only [hfs, hlim, hdir, Bool.not_true, Bool.false_eq_true, if_false,
    rq_for_each_segment_read_inside req.pos req.segments st hin]

/-- A write request that passes both checks and whose copies stay inside the
store. -/
theorem handle_request_write_inside (st : BlockDev) (req : request)
    (hfs : req.cmd_type_fs = true) (hdir : req.dir = Dir.WRITE)
    (hlim : beyond_device_limits st req.pos (blk_rq_bytes req) = false)
    (hin : ∀ v ∈ req.segments,
      v.bv_len = 0 ∨ device_offset req.pos v + v.bv_len ≤ st.device_data.length) :
    handle_request st req =
      some ({ st with
              device_data := req.segments.foldl (fun d v =>
                d.take (device_offset req.pos v) ++ v.buffer ++
                  d.drop (device_offset req.pos v + v.bv_len)) st.device_data
              write_ops :=
                (fun k : Nat => (k + 1) % 18446744073709551616)^[req.segments.length]
                  st.write_ops },
            { error := 0, segments := req.segments }) := by
  unfold handle_request
  simp only [hfs, hlim, hdir, Bool.not_true, Bool.false_eq_true, if_false,
    rq_for_each_segment_write_inside req.pos req.segments st hin]

/-- A request that passes both checks while the copy of one of its segments
leaves the store. -/
theorem handle_request_leaves_store (st : BlockDev) (req : request)
    (hfs : req.cmd_type_fs = true)
    (hlim : beyond_device_limits st req.pos (blk_rq_bytes req) = false)
    (hout : ∃ v ∈ req.segments, 0 < v.bv_len ∧
      st.device_data.length < device_offset req.pos v + v.bv_len) :
    handle_request st req = none := by
  unfold handle_request
  simp only [hfs, hlim, Bool.not_true, Bool.false_eq_true, if_false,
    rq_for_each_segment_leaves_store req.dir req.pos req.segments st hout]

/-- The bytes a read delivers number the bytes of its segments. -/
theorem flatten_slices_length (sector : Nat) (d : List Byte) (segs : List bio_vec)
    (hin : ∀ v ∈ segs, v.bv_len = 0 ∨ device_offset sector v + v.bv_len ≤ d.length) :
    (((segs.map (fun v => ({ v with
        buffer := (d.drop (device_offset sector v)).take v.bv_len } : bio_vec))).map
      bio_vec.buffer).flatten).length = (segs.map bio_vec.bv_len).sum := by
  induction segs with
  | nil => rfl
  | cons u rest ih =>
    have hu := hin u (List.mem_cons_self u rest)
    simp only [List.map_cons, List.flatten_cons, List.length_append, List.sum_cons,
      List.length_take, List.length_drop]
    rw [ih (fun v hv => hin v (List.mem_cons_of_mem u hv))]
    omega

theorem not_beyond_of_le (st : BlockDev) (sector bytes : Nat)
    (h64 : sector + bytes / SECTOR_SIZE < 18446744073709551616)
    (hle : sector + bytes / SECTOR_SIZE ≤ st.device_sectors) :
    beyond_device_limits st sector bytes = false := by
  unfold beyond_device_limits
  rw [Nat.mod_eq_of_lt h64, decide_eq_false_iff_not]
  omega

/-- A request that passes both checks never completes with an error. -/
theorem handle_request_no_error (st : BlockDev) (req : request)
    (hfs : req.cmd_type_fs = true)
    (hlim : beyond_device_limits st req.pos (blk_rq_bytes req) = false)
    (st1 : BlockDev) (c : completion) (h : handle_request st req = some (st1, c)) :
    c.error = 0 := by
  unfold handle_request at h
  simp only [hfs, hlim, Bool.not_true, Bool.false_eq_true, if_false] at h
  cases hr : rq_for_each_segment req.dir req.pos st req.segments with
  | none => rw [hr] at h; exact absurd h (by simp)
  | some r =>
    rw [hr] at h
    simp only [Option.some.injEq, Prod.mk.injEq] at h
    rw [← h.2]

/-! ## Claim C3: the bound check -/

/-- C3: for every store, whatever its capacity `device_sectors`, and every
filesystem request (read or write) with `start + count` below `2^64`, where
`start` is `blk_rq_pos` and `count` is `blk_rq_bytes / 512`: the request is
completed with `-EIO` if and only if `start + count > device_sectors` as
integers, and then nothing is changed; when `start + count ≤ device_sectors`
the request is not rejected, so the sectors `[start, start + count)` of an
accepted request lie in `[0, device_sectors)`, and it completes with error 0
when its copies stay inside the store.  The bound on `start + count` holds
for every request the block layer passes: a start sector comes from a byte
position below `2^63` and the byte length is an `unsigned int`. -/
theorem bound_check_rejects_iff (st : BlockDev) (req : request)
    (hfs : req.cmd_type_fs = true)
    (h64 : req.pos + blk_rq_bytes req / SECTOR_SIZE < 18446744073709551616) :
    ((∃ st1 c, handle_request st req = some (st1, c) ∧ c.error = - EIO) ↔
      st.device_sectors < req.pos + blk_rq_bytes req / SECTOR_SIZE) ∧
    (st.device_sectors < req.pos + blk_rq_bytes req / SECTOR_SIZE →
      handle_request st req = some (st, { error := - EIO, segments := req.segments })) ∧
    (req.pos + blk_rq_bytes req / SECTOR_SIZE ≤ st.device_sectors →
      (∀ v ∈ req.segments,
        v.bv_len = 0 ∨ device_offset req.pos v + v.bv_len ≤ st.device_data.length) →
      ∃ st1 c, handle_request st req = some (st1, c) ∧ c.error = 0) := by
  have hex := beyond_device_limits_exact st req.pos (blk_rq_bytes req) h64
  have hrej : st.device_sectors < req.pos + blk_rq_bytes req / SECTOR_SIZE →
      handle_request st req = some (st, { error := - EIO, segments := req.segments }) :=
    fun hgt => handle_request_rejected st req hfs (hex.mpr hgt)
  refine ⟨⟨?_, fun hgt => ⟨st, _, hrej hgt, rfl⟩⟩, hrej, ?_⟩
  · intro h
    obtain ⟨st1, c, hc, he⟩ := h
    by_contra hn
    have hlim := not_beyond_of_le st req.pos (blk_rq_bytes req) h64 (by omega)
    have h0 := handle_request_no_error st req hfs hlim st1 c hc
    rw [he] at h0
    exact absurd h0 (by decide)
  · intro hle hin
    have hlim := not_beyond_of_le st req.pos (blk_rq_bytes req) h64 hle
    cases hd : req.dir with
    | READ => exact ⟨_, _, handle_request_read_inside st req hfs hd hlim hin, rfl⟩
    | WRITE => exact ⟨_, _, handle_request_write_inside st req hfs hd hlim hin, rfl⟩

theorem bound_check_rejects_iff_witness :
    (∃ st1 c,
      handle_request block_init
        { cmd_type_fs := true, dir := Dir.WRITE, pos := 2047
          segments := [{ bv_offset := 0, buffer := List.replicate 512 170 }] } =
        some (st1, c) ∧ c.error = 0) ∧
    handle_request block_init
        { cmd_type_fs := true, dir := Dir.WRITE, pos := 2047
          segments := [{ bv_offset := 0, buffer := List.replicate 1024 170 }] } =
      some (block_init,
        { error := - EIO
          segments := [{ bv_offset := 0, buffer := List.replicate 1024 170 }] }) ∧
    (∃ st1 c,
      handle_request
        { device_data := List.replicate 524288 0, device_sectors := 1024
          read_ops := 0, write_ops := 0 }
        { cmd_type_fs := true, dir := Dir.WRITE, pos := 1023
          segments := [{ bv_offset := 0, buffer := List.replicate 512 170 }] } =
        some (st1, c) ∧ c.error = 0) ∧
    handle_request
        { device_data := List.replicate 524288 0, device_sectors := 1024
          read_ops := 0, write_ops := 0 }
        { cmd_type_fs := true, dir := Dir.WRITE, pos := 1023
          segments := [{ bv_offset := 0, buffer := List.replicate 1024 170 }] } =
      some ({ device_data := List.replicate 524288 0, device_sectors := 1024
              read_ops := 0, write_ops := 0 },
        { error := - EIO
          segments := [{ bv_offset := 0, buffer := List.replicate 1024 170 }] }) := by
  have hA : (List.replicate 512 (170 : Byte)).length = 512 := List.length_replicate _ _
  have hB : (List.replicate 1024 (170 : Byte)).length = 1024 := List.length_replicate _ _
  have hD : (List.replicate 524288 (0 : Byte)).length = 524288 := List.length_replicate _ _
  generalize List.replicate 512 (170 : Byte) = A at hA ⊢
  generalize List.replicate 1024 (170 : Byte) = B at hB ⊢
  generalize List.replicate 524288 (0 : Byte) = D at hD ⊢
  have hb : ∀ (p : Nat) (X : List Byte), blk_rq_bytes
      { cmd_type_fs := true, dir := Dir.WRITE, pos := p
        segments := [{ bv_offset := 0, buffer := X }] } = X.length :=
    fun p X => blk_rq_bytes_one true Dir.WRITE p { bv_offset := 0, buffer := X }
  refine ⟨?_, ?_, ?_, ?_⟩
  · refine (bound_check_rejects_iff block_init
      { cmd_type_fs := true, dir := Dir.WRITE, pos := 2047
        segments := [{ bv_offset := 0, buffer := A }] } rfl
      (by rw [hb, hA]; dsimp only; decide)).2.2
      (by rw [hb, hA, block_init_sectors]; dsimp only; decide) ?_
    intro v hv
    rw [List.mem_singleton] at hv
    subst hv
    right
    show device_offset 2047 { bv_offset := 0, buffer := A } + A.length ≤
      block_init.device_data.length
    rw [device_offset_of_fits 2047 { bv_offset := 0, buffer := A }
      (by show 2047 * SECTOR_SIZE + 0 < 18446744073709551616; decide), hA,
      block_init_length]
    dsimp only
    decide
  · exact (bound_check_rejects_iff block_init
      { cmd_type_fs := true, dir := Dir.WRITE, pos := 2047
        segments := [{ bv_offset := 0, buffer := B }] } rfl
      (by rw [hb, hB]; dsimp only; decide)).2.1
      (by rw [hb, hB, block_init_sectors]; dsimp only; decide)
  · refine (bound_check_rejects_iff
      { device_data := D, device_sectors := 1024, read_ops := 0, write_ops := 0 }
      { cmd_type_fs := true, dir := Dir.WRITE, pos := 1023
        segments := [{ bv_offset := 0, buffer := A }] } rfl
      (by rw [hb, hA]; dsimp only; decide)).2.2
      (by rw [hb, hA]; dsimp only; decide) ?_
    intro v hv
    rw [List.mem_singleton] at hv
    subst hv
    right
    show device_offset 1023 { bv_offset := 0, buffer := A } + A.length ≤ D.length
    rw [device_offset_of_fits 1023 { bv_offset := 0, buffer := A }
      (by show 1023 * SECTOR_SIZE + 0 < 18446744073709551616; decide), hA, hD]
    dsimp only
    decide
  · exact (bound_check_rejects_iff
      { device_data := D, device_sectors := 1024, read_ops := 0, write_ops := 0 }
      { cmd_type_fs := true, dir := Dir.WRITE, pos := 1023
        segments := [{ bv_offset := 0, buffer := B }] } rfl
      (by rw [hb, hB]; dsimp only; decide)).2.1
      (by rw [hb, hB]; dsimp only; decide)

/-! ## Claim C19: the operation counters -/

/-- C19 as stated fails: on the initial store (both counters 0) a read
request of 16 sectors made of two one-page segments completes with error 0
and leaves `read_ops = 2`, not 1, and a write request of 16 sectors made of
two one-page segments completes with error 0 and leaves `write_ops = 2`,
not 1. -/
theorem counters_count_segments :
    block_init.read_ops = 0 ∧ block_init.write_ops = 0 ∧
    (∃ st c,
      simple_block_request block_init
        [{ cmd_type_fs := true, dir := Dir.READ, pos := 0
           segments := [page_of 0, page_of 0] }] = some (st, [c]) ∧
      c.error = 0 ∧ st.read_ops = 2 ∧ st.read_ops ≠ block_init.read_ops + 1 ∧
      st.write_ops = 0) ∧
    (∃ st c,
      simple_block_request block_init
        [{ cmd_type_fs := true, dir := Dir.WRITE, pos := 0
           segments := [page_of 1, page_of 2] }] = some (st, [c]) ∧
      c.error = 0 ∧ st.write_ops = 2 ∧ st.write_ops ≠ block_init.write_ops + 1 ∧
      st.read_ops = 0) := by
  have hl : 4096 ≤ block_init.device_data.length := by rw [block_init_length]; decide
  have hr := read_two_pages block_init (List.replicate 4096 0) (List.replicate 4096 0)
    (List.length_replicate _ _) (List.length_replicate _ _) hl
    (by rw [block_init_sectors]; decide)
  have hw := write_two_pages block_init (List.replicate 4096 1) (List.replicate 4096 2)
    (List.length_replicate _ _) (List.length_replicate _ _) hl
    (by rw [block_init_sectors]; decide)
  exact ⟨rfl, rfl,
    ⟨_, _, simple_block_request_one _ _ _ _ hr, rfl, rfl, by decide, rfl⟩,
    ⟨_, _, simple_block_request_one _ _ _ _ hw, rfl, rfl, by decide, rfl⟩⟩

/-- C19, amended: the counters count segments.  For every filesystem request
that passes the bound check and whose copies stay inside the store, with the
counters `unsigned long` values: a read request of `n` segments completes
with error 0, adds `n` to `read_ops` (modulo `2^64`) and leaves `write_ops`
as it was; a write request of `n` segments completes with error 0, adds `n`
to `write_ops` and leaves `read_ops` as it was.  A request of one segment
counts as one operation. -/
theorem counters_advance_per_segment (st : BlockDev) (req : request)
    (hfs : req.cmd_type_fs = true)
    (hlim : beyond_device_limits st req.pos (blk_rq_bytes req) = false)
    (hr : st.read_ops < 18446744073709551616) (hw : st.write_ops < 18446744073709551616)
    (hin : ∀ v ∈ req.segments,
      v.bv_len = 0 ∨ device_offset req.pos v + v.bv_len ≤ st.device_data.length) :
    ∃ st1 c, handle_request st req = some (st1, c) ∧ c.error = 0 ∧
      (req.dir = Dir.READ →
        st1.read_ops = (st.read_ops + req.segments.length) % 18446744073709551616 ∧
        st1.write_ops = st.write_ops) ∧
      (req.dir = Dir.WRITE →
        st1.write_ops = (st.write_ops + req.segments.length) % 18446744073709551616 ∧
        st1.read_ops = st.read_ops) := by
  cases hd : req.dir with
  | READ =>
    refine ⟨_, _, handle_request_read_inside st req hfs hd hlim hin, rfl, ?_, ?_⟩
    · intro _
      exact ⟨bump_iterate req.segments.length st.read_ops hr, rfl⟩
    · intro h
      exact absurd h (by decide)
  | WRITE =>
    refine ⟨_, _, handle_request_write_inside st req hfs hd hlim hin, rfl, ?_, ?_⟩
    · intro h
      exact absurd h (by decide)
    · intro _
      exact ⟨bump_iterate req.segments.length st.write_ops hw, rfl⟩

theorem page_of_inside (v : Byte) (u : bio_vec) (hu : u ∈ [page_of v, page_of v]) :
    u.bv_len = 0 ∨ device_offset 0 u + u.bv_len ≤ block_init.device_data.length := by
  have hu1 : u = page_of v := by
    rcases List.mem_cons.mp hu with h | h
    · exact h
    · exact List.mem_singleton.mp h
  subst hu1
  right
  have h1 : (page_of v).bv_len = 4096 := by
    unfold bio_vec.bv_len page_of
    exact List.length_replicate _ _
  have h2 : device_offset 0 (page_of v) = 0 := by
    rw [device_offset_of_fits 0 (page_of v)
      (by show 0 * SECTOR_SIZE + 0 < 18446744073709551616; decide)]
    rfl
  rw [h1, h2, block_init_length]
  decide

theorem two_pages_bytes (dir : Dir) (v : Byte) :
    blk_rq_bytes
      { cmd_type_fs := true, dir := dir, pos := 0, segments := [page_of v, page_of v] } =
      8192 := by
  simp only [blk_rq_bytes, bio_vec.bv_len, page_of, List.map_cons, List.map_nil,
    List.sum_cons, List.sum_nil, List.length_replicate]
  decide

theorem counters_advance_per_segment_witness :
    ∃ st1 c,
      handle_request block_init
        { cmd_type_fs := true, dir := Dir.READ, pos := 0
          segments := [page_of 0, page_of 0] } = some (st1, c) ∧
      c.error = 0 ∧ st1.read_ops = 2 ∧ st1.write_ops = 0 := by
  obtain ⟨st1, c, h, he, hread, -⟩ := counters_advance_per_segment block_init
    { cmd_type_fs := true, dir := Dir.READ, pos := 0, segments := [page_of 0, page_of 0] }
    rfl
    (by
      rw [two_pages_bytes]
      unfold beyond_device_limits
      rw [block_init_sectors]
      decide)
    (by decide) (by decide) (page_of_inside 0)
  obtain ⟨h1, h2⟩ := hread rfl
  exact ⟨st1, c, h, he, h1, h2⟩

/-! ## Claims C20 and C23: all bytes or none -/

/-- C20: every filesystem request ends in one of three ways.  Rejected by the
bound check: it completes with `-EIO`, and the store (data, both counters)
and the caller's segments are as before, so no byte is copied in either
direction.  Accepted with every copy inside the store: it completes with
error 0 and every segment is copied in full; a read leaves the data as it
was and hands each segment its `bv_len` bytes of the store, a write leaves
the caller's segments as they were and stores the bytes of every segment, one
segment after the other, each whole; the bytes delivered number
`blk_rq_bytes`.  Accepted while the copy of some segment leaves the store:
the request has no outcome at all in the embedding (the access outside
`device_data` of C28), in particular no completion with part of the bytes. -/
theorem no_partial_success (st : BlockDev) (req : request)
    (hfs : req.cmd_type_fs = true) :
    (beyond_device_limits st req.pos (blk_rq_bytes req) = true →
      handle_request st req = some (st, { error := - EIO, segments := req.segments })) ∧
    (beyond_device_limits st req.pos (blk_rq_bytes req) = false →
      (∀ v ∈ req.segments,
        v.bv_len = 0 ∨ device_offset req.pos v + v.bv_len ≤ st.device_data.length) →
      ∃ st1 c, handle_request st req = some (st1, c) ∧ c.error = 0 ∧
        c.bytes.length = blk_rq_bytes req ∧
        st1.device_sectors = st.device_sectors ∧
        st1.device_data.length = st.device_data.length ∧
        (req.dir = Dir.READ →
          st1.device_data = st.device_data ∧
          c.segments = req.segments.map (fun v => { v with
            buffer := (st.device_data.drop (device_offset req.pos v)).take v.bv_len })) ∧
        (req.dir = Dir.WRITE →
          c.segments = req.segments ∧
          st1.device_data = req.segments.foldl (fun d v =>
            d.take (device_offset req.pos v) ++ v.buffer ++
              d.drop (device_offset req.pos v + v.bv_len)) st.device_data)) ∧
    (beyond_device_limits st req.pos (blk_rq_bytes req) = false →
      (∃ v ∈ req.segments, 0 < v.bv_len ∧
        st.device_data.length < device_offset req.pos v + v.bv_len) →
      handle_request st req = none) := by
  refine ⟨fun hlim => handle_request_rejected st req hfs hlim, ?_,
    fun hlim hout => handle_request_leaves_store st req hfs hlim hout⟩
  intro hlim hin
  cases hd : req.dir with
  | READ =>
    refine ⟨_, _, handle_request_read_inside st req hfs hd hlim hin, rfl, ?_, rfl, rfl,
      fun _ => ⟨rfl, rfl⟩, fun h => absurd h (by decide)⟩
    exact flatten_slices_length req.pos st.device_data req.segments hin
  | WRITE =>
    refine ⟨_, _, handle_request_write_inside st req hfs hd hlim hin, rfl, ?_, rfl, ?_,
      fun h => absurd h (by decide), fun _ => ⟨rfl, rfl⟩⟩
    · exact flatten_buffers_length req.segments
    · exact foldl_stored_length req.pos req.segments st.device_data hin

theorem no_partial_success_witness :
    (∃ st1 c,
      handle_request block_init
        { cmd_type_fs := true, dir := Dir.WRITE, pos := 1
          segments := [{ bv_offset := 0, buffer := List.replicate 512 170 }] } =
        some (st1, c) ∧
      c.error = 0 ∧ c.bytes = List.replicate 512 170 ∧
      st1.device_data =
        block_init.device_data.take 512 ++ List.replicate 512 170 ++
          block_init.device_data.drop 1024) ∧
    handle_request block_init
        { cmd_type_fs := true, dir := Dir.WRITE, pos := 2047
          segments := [{ bv_offset := 0, buffer := List.replicate 1024 170 }] } =
      some (block_init,
        { error := - EIO
          segments := [{ bv_offset := 0, buffer := List.replicate 1024 170 }] }) := by
  have hA : (List.replicate 512 (170 : Byte)).length = 512 := List.length_replicate _ _
  have hB : (List.replicate 1024 (170 : Byte)).length = 1024 := List.length_replicate _ _
  generalize List.replicate 512 (170 : Byte) = A at hA ⊢
  generalize List.replicate 1024 (170 : Byte) = B at hB ⊢
  have hb : ∀ (p : Nat) (X : List Byte), blk_rq_bytes
      { cmd_type_fs := true, dir := Dir.WRITE, pos := p
        segments := [{ bv_offset := 0, buffer := X }] } = X.length :=
    fun p X => blk_rq_bytes_one true Dir.WRITE p { bv_offset := 0, buffer := X }
  have hoff : device_offset 1 { bv_offset := 0, buffer := A } = 512 :=
    device_offset_of_fits 1 { bv_offset := 0, buffer := A }
      (by show 1 * SECTOR_SIZE + 0 < 18446744073709551616; decide)
  constructor
  · obtain ⟨st1, c, h, he, -, -, -, -, hwr⟩ :=
      (no_partial_success block_init
        { cmd_type_fs := true, dir := Dir.WRITE, pos := 1
          segments := [{ bv_offset := 0, buffer := A }] } rfl).2.1
        (by
          rw [hb, hA]
          unfold beyond_device_limits
          rw [block_init_sectors]
          dsimp only
          decide)
        (by
          intro v hv
          rw [List.mem_singleton] at hv
          subst hv
          right
          show device_offset 1 { bv_offset := 0, buffer := A } + A.length ≤
            block_init.device_data.length
          rw [hoff, hA, block_init_length]
          decide)
    obtain ⟨hseg, hdata⟩ := hwr rfl
    refine ⟨st1, c, h, he, ?_, ?_⟩
    · unfold completion.bytes
      rw [hseg]
      simp only [List.map_cons, List.map_nil, List.flatten_cons, List.flatten_nil,
        List.append_nil]
    · rw [hdata]
      simp only [List.foldl_cons, List.foldl_nil, hoff, bio_vec.bv_len, hA]
  · exact (no_partial_success block_init
      { cmd_type_fs := true, dir := Dir.WRITE, pos := 2047
        segments := [{ bv_offset := 0, buffer := B }] } rfl).1
      (by
        rw [hb, hB]
        unfold beyond_device_limits
        rw [block_init_sectors]
        dsimp only
        decide)

/-- C18 as stated fails: on the initial store (nothing written) a `dev_read`
of up to 100 bytes at position 0 returns 0 bytes and leaves `read_count` as
it was, not one higher; the same happens at position 5, the end of the data,
of the store that holds "hello". -/
theorem empty_read_is_not_counted :
    (∃ r, dev_read char_init 100 0 false = some r ∧ r.ret = 0 ∧ r.data = [] ∧
      r.dev.read_count = char_init.read_count ∧
      r.dev.read_count ≠ char_init.read_count + 1) ∧
    (∃ r, dev_read hello_store 100 5 false = some r ∧ r.ret = 0 ∧ r.data = [] ∧
      r.dev.read_count = hello_store.read_count ∧
      r.dev.read_count ≠ hello_store.read_count + 1) := by
  have h1 : dev_read char_init 100 0 false =
      some { ret := 0, data := [], dev := char_init, pos := 0 } := by
    unfold dev_read
    rw [if_pos (by unfold char_init; decide)]
  have h2 : dev_read hello_store 100 5 false =
      some { ret := 0, data := [], dev := hello_store, pos := 5 } := by
    unfold dev_read
    rw [if_pos (by unfold hello_store; decide)]
  refine ⟨⟨_, h1, rfl, rfl, rfl, ?_⟩, ⟨_, h2, rfl, rfl, rfl, ?_⟩⟩
  · show char_init.read_count ≠ char_init.read_count + 1
    omega
  · show hello_store.read_count ≠ hello_store.read_count + 1
    omega

/-- C18, amended: `read_count` counts the reads that get past the
end-of-data test and whose copy to the user succeeds.  In every reachable
state, for every position `offset ≥ 0`, length and user buffer, `dev_read`
returns, and: at or past the high-water mark it returns 0 bytes and changes
no global, `read_count` included; below the high-water mark with a user
buffer that cannot be written (and `len > 0`) it returns `-EFAULT` and changes
no global; below the high-water mark otherwise (the copy succeeds, which
includes `len = 0`) it returns `min(len, buffer_offset - offset)` and the only
global it changes is `read_count`, incremented by one as an `int`. -/
theorem read_count_counts_copies (st : CharDev) (hst : Reachable st) (len : Nat)
    (offset : Int) (bad_user : Bool) (h0 : 0 ≤ offset) :
    ∃ r, dev_read st len offset bad_user = some r ∧
      (st.buffer_offset ≤ offset → r.ret = 0 ∧ r.data = [] ∧ r.dev = st) ∧
      (offset < st.buffer_offset → bad_user = true → 0 < len →
        r.ret = - EFAULT ∧ r.dev = st) ∧
      (offset < st.buffer_offset → (bad_user = false ∨ len = 0) →
        r.ret = min (len : Int) (st.buffer_offset - offset) ∧
        r.dev = { st with read_count := toS32 (st.read_count + 1) } ∧
        (-2147483648 ≤ st.read_count → st.read_count < 2147483647 →
          r.dev.read_count = st.read_count + 1)) := by
  have hwf := reachable_WF st hst
  obtain ⟨hl, hh0, hhc, hc⟩ := hwf
  by_cases hge : offset ≥ st.buffer_offset
  · have hr : dev_read st len offset bad_user =
        some { ret := 0, data := [], dev := st, pos := offset } := by
      unfold dev_read
      rw [if_pos hge]
    refine ⟨_, hr, fun _ => ⟨rfl, rfl, rfl⟩, ?_, ?_⟩
    · intro h
      exact absurd h (by omega)
    · intro h
      exact absurd h (by omega)
  · have hlt : offset < st.buffer_offset := by omega
    have hn : toS32 (min (len : Int) (toU64 (st.buffer_offset - offset))) =
        min (len : Int) (st.buffer_offset - offset) := by
      unfold toS32 toU64; omega
    have hinc : -2147483648 ≤ st.read_count → st.read_count < 2147483647 →
        toS32 (st.read_count + 1) = st.read_count + 1 := by
      intro a b
      unfold toS32; omega
    cases bad_user with
    | false =>
      refine ⟨_, dev_read_below st ⟨hl, hh0, hhc, hc⟩ len offset h0 hlt, ?_, ?_, ?_⟩
      · intro h
        exact absurd h (by omega)
      · intro _ hb
        exact absurd hb (by decide)
      · intro _ _
        exact ⟨rfl, rfl, hinc⟩
    | true =>
      by_cases hz : len = 0
      · subst hz
        have hn0 : toS32 (min (((0 : Nat) : Int)) (toU64 (st.buffer_offset - offset))) =
            0 := by
          unfold toS32 toU64; omega
        have hcp : copy_to_user st.device_buffer offset 0 true = UserCopy.copied [] := by
          simp [copy_to_user]
        have hr : dev_read st 0 offset true =
            some { ret := 0, data := []
                   dev := { st with read_count := toS32 (st.read_count + 1) }
                   pos := toS64 (offset + 0) } := by
          unfold dev_read
          rw [if_neg hge]
          simp only [hn0, hcp]
        refine ⟨_, hr, ?_, ?_, ?_⟩
        · intro h
          exact absurd h (by omega)
        · intro _ _ hpos
          exact absurd hpos (by decide)
        · intro _ _
          refine ⟨?_, rfl, hinc⟩
          show (0 : Int) = min (((0 : Nat) : Int)) (st.buffer_offset - offset)
          omega
      · have hcp : copy_to_user st.device_buffer offset
            (min (len : Int) (st.buffer_offset - offset)) true = UserCopy.fault := by
          unfold copy_to_user
          rw [if_neg (by omega), if_neg (by omega), if_pos rfl]
        have hr : dev_read st len offset true =
            some { ret := - EFAULT, data := [], dev := st, pos := offset } := by
          unfold dev_read
          rw [if_neg hge]
          simp only [hn, hcp]
        refine ⟨_, hr, ?_, fun _ _ _ => ⟨rfl, rfl⟩, ?_⟩
        · intro h
          exact absurd h (by omega)
        · intro _ h
          rcases h with h | h
          · exact absurd h (by decide)
          · exact absurd h hz

theorem read_count_counts_copies_witness :
    Reachable hello_store ∧
    (∃ r, dev_read hello_store 100 0 false = some r ∧ r.ret = 5 ∧ r.dev.read_count = 1) ∧
    (∃ r, dev_read hello_store 100 5 false = some r ∧ r.ret = 0 ∧
      r.dev.read_count = 0) := by
  have hbo : hello_store.buffer_offset = 5 := rfl
  have hrc : hello_store.read_count = 0 := rfl
  refine ⟨hello_store_reachable, ?_, ?_⟩
  · obtain ⟨r, hr, -, -, h3⟩ :=
      read_count_counts_copies hello_store hello_store_reachable 100 0 false (le_refl 0)
    obtain ⟨a, -, c⟩ := h3 (by rw [hbo]; decide) (Or.inl rfl)
    refine ⟨r, hr, ?_, ?_⟩
    · rw [a, hbo]; decide
    · rw [c (by rw [hrc]; decide) (by rw [hrc]; decide), hrc]; decide
  · obtain ⟨r, hr, h1, -, -⟩ :=
      read_count_counts_copies hello_store hello_store_reachable 100 5 false (by decide)
    obtain ⟨a, -, c⟩ := h1 (by rw [hbo])
    exact ⟨r, hr, a, by rw [c]; exact hrc⟩

/-! ## Claim C1: the round trip at a position past `2^32` -/

/-- C1, evaluated at a failing input: on the initial store (capacity 4096) a
write of the two bytes 104, 105 at position `2^32`, with an allocator that
has memory.  The write is not turned down: the resize block succeeds, with
`new_size = max(8192, 2^32 + 2)` stored in an `int`, which is 2, so the
buffer is reallocated to 2 bytes; the copy of the two bytes then goes to
`device_buffer + 2^32`, outside that buffer, and the write has no defined
result.  No store it could leave gives the bytes back: in every store a
`dev_read` at position `2^32` returns 0 bytes, the high-water mark being an
`int`. -/
theorem roundtrip_fails_past_4GiB (junk : Nat → Byte) :
    Reachable char_init ∧ (0 : Int) ≤ 4294967296 ∧
    (∃ st1, dev_write_resize char_init 2 4294967296 (some junk) = some st1 ∧
      st1.buffer_size = 2 ∧ st1.device_buffer.length = 2) ∧
    dev_write char_init [104, 105] 4294967296 (some junk) none = none ∧
    (∀ st : CharDev, st.WF → ∀ len : Nat,
      dev_read st len 4294967296 false =
        some { ret := 0, data := [], dev := st, pos := 4294967296 }) := by
  refine ⟨Reachable.init, by decide, ?_, ?_, ?_⟩
  · have hc : char_init.buffer_size = 4096 := rfl
    have hb : char_init.device_buffer = List.replicate 4096 0 := rfl
    have hns : toS32 (max (toU64 (toS32 (char_init.buffer_size * 2)))
        (toU64 (4294967296 + ((2 : Nat) : Int)))) = 2 := by
      rw [hc]; decide
    have hk := krealloc_eval char_init.device_buffer 2 junk (by decide)
    refine ⟨{ char_init with
              device_buffer := char_init.device_buffer.take (2 : Int).toNat ++
                (List.range ((2 : Int).toNat - char_init.device_buffer.length)).map
                  (fun i => junk (char_init.device_buffer.length + i))
              buffer_size := 2 }, ?_, rfl, ?_⟩
    · unfold dev_write_resize
      rw [if_pos (by rw [hc]; decide)]
      simp only [hns, hk]
    · show (char_init.device_buffer.take (2 : Int).toNat ++
        (List.range ((2 : Int).toNat - char_init.device_buffer.length)).map
          (fun i => junk (char_init.device_buffer.length + i))).length = 2
      rw [hb]
      simp only [List.length_append, List.length_take, List.length_map, List.length_range,
        List.length_replicate]
      decide
  · exact dev_write_wild char_init char_init_WF [104, 105] 4294967296 junk (by decide)
      (by decide) (by decide) (by decide) (by unfold char_init BUFFER_SIZE; decide) 2
      (by unfold char_init BUFFER_SIZE; decide) (by decide) (by decide)
  · intro st hwf len
    obtain ⟨-, -, hhc, hc⟩ := hwf
    unfold dev_read
    rw [if_pos (by omega)]

end VirtualDrivers
